import Mathlib

/-!
# golucene `core/util/fst`: a shallow embedding of the FST automaton

The Go code of `fst.go` is translated function by function.  Go's `int`,
`int64` (64 bit) and `int32` values are integers reduced explicitly with
`wrap64` / `wrap32` wherever the source arithmetic can overflow.  A Go
function returning `(value, error)` returns a `Res`; a Go `panic` is the
outcome `Res.panic`.  The byte reader and the data streams are passed as
explicit state.
-/

namespace GoLucene

/-! ## Machine integers -/

/-- Two's complement reduction of an integer to the range of Go's `int64` / `int`. -/
def wrap64 (x : Int) : Int := (x + 9223372036854775808) % 18446744073709551616 - 9223372036854775808

/-- Two's complement reduction of an integer to the range of Go's `int32`. -/
def wrap32 (x : Int) : Int := (x + 2147483648) % 4294967296 - 2147483648

/-- Two's complement reduction of an integer to the range of Go's `int16`. -/
def wrap16 (x : Int) : Int := (x + 32768) % 65536 - 32768

/-- The value is representable as a Go `int` (64 bit). -/
def IsInt64 (x : Int) : Prop := -9223372036854775808 ≤ x ∧ x < 9223372036854775808

/-! ## Outcomes -/

/-- Go `error` values surfaced by the streams and the decoders. -/
inductive GoError
  | EOF
  | io (code : Nat)
  | badHeader
  | invalidVarint
deriving DecidableEq, Repr

/-- The run-time panics the code can raise. -/
inductive Panic
  | assertFail
  | alreadyFinished
  | callFinishFirst
  | mustFirstBePacked
  | loadedFromDisk
  | notImplementedYet
  | invalidInputType
  | badMaxBlockBits
  | nilDereference
  | indexOutOfRange
  | uncomparableType
  | incomparableType
  | typeAssertion
deriving DecidableEq, Repr

/-- Outcome of a Go call: normal return of a value, return of a non-nil
`error`, a panic, or exhaustion of the loop budget of the model. -/
inductive Res (α : Type)
  | ok (a : α)
  | err (e : GoError)
  | panic (p : Panic)
  | outOfFuel
deriving DecidableEq, Repr

/-- A computation over an explicit state `σ` (a reader, a stream): it yields
an outcome and the state the object is left in, also when it fails. -/
def StM (σ : Type) (α : Type) : Type := σ → Res α × σ

/-- Run a stateful computation. -/
def StM.run {σ α : Type} (m : StM σ α) (s : σ) : Res α × σ := m s

/-- Sequencing: the first failure stops the computation, keeping the state reached. -/
def StM.bind {σ α β : Type} (m : StM σ α) (f : α → StM σ β) : StM σ β := fun s =>
  match m s with
  | (Res.ok a, s1) => f a s1
  | (Res.err e, s1) => (Res.err e, s1)
  | (Res.panic p, s1) => (Res.panic p, s1)
  | (Res.outOfFuel, s1) => (Res.outOfFuel, s1)

instance (σ : Type) : Monad (StM σ) where
  pure a := fun s => (Res.ok a, s)
  bind := StM.bind

/-- Read the current state. -/
def StM.get {σ : Type} : StM σ σ := fun s => (Res.ok s, s)

/-- Fail with a panic. -/
def StM.panic {σ α : Type} (p : Panic) : StM σ α := fun s => (Res.panic p, s)

/-- Fail with an error. -/
def StM.err {σ α : Type} (e : GoError) : StM σ α := fun s => (Res.err e, s)

/-! ## Values of type `interface{}` -/

/-- A Go `interface{}` holding an output value: `nil`, a `[]byte`, an
`int64`, or a value of some other dynamic type. -/
inductive Value
  | nil
  | bytes (b : List Nat)
  | int64 (v : Int)
  | other (tag : Nat)
deriving DecidableEq, Repr

/-- Go's `==` on two interface values: values of different dynamic types are
unequal, and comparing two values of the uncomparable type `[]byte` panics. -/
def ifaceEq : Value → Value → Except Panic Bool
  | Value.nil, Value.nil => Except.ok true
  | Value.bytes _, Value.bytes _ => Except.error Panic.uncomparableType
  | Value.int64 a, Value.int64 b => Except.ok (decide (a = b))
  | Value.other a, Value.other b => Except.ok (decide (a = b))
  | _, _ => Except.ok false

/-! ## Constants of `fst.go` -/

def INPUT_TYPE_BYTE1 : Int := 1
def INPUT_TYPE_BYTE2 : Int := 2
def INPUT_TYPE_BYTE4 : Int := 3

def FST_BIT_FINAL_ARC : Nat := 1
def FST_BIT_LAST_ARC : Nat := 2
def FST_BIT_TARGET_NEXT : Nat := 4
def FST_BIT_STOP_NODE : Nat := 8
def FST_BIT_ARC_HAS_OUTPUT : Nat := 16
def FST_BIT_ARC_HAS_FINAL_OUTPUT : Nat := 32
def FST_BIT_TARGET_DELTA : Nat := 64
def FST_ARCS_AS_FIXED_ARRAY : Nat := FST_BIT_ARC_HAS_FINAL_OUTPUT

def FST_VERSION_PACKED : Int := 3
def FST_VERSION_VINT_TARGET : Int := 4
def VERSION_CURRENT : Int := FST_VERSION_VINT_TARGET

def FST_FINAL_END_NODE : Int := -1
def FST_NON_FINAL_END_NODE : Int := 0
def FST_END_LABEL : Int := -1
def FST_DEFAULT_MAX_BLOCK_BITS : Nat := 28

/-! ## The byte reader -/

/-- Modelled from the spec: the `BytesReader` of the paged byte store
(`forwardReader` / `reverseReader`, declared outside `fst.go`).  It is a
cursor over the finished byte range: the position increases while decoding
for the forward reader and decreases for the reverse reader. -/
structure BytesReader where
  data : List Nat
  pos : Int
  reversed : Bool
deriving DecidableEq, Repr

/-- `setPosition` of `RandomAccess`. -/
def BytesReader.setPosition (pos : Int) : StM BytesReader Unit := fun rd =>
  (Res.ok (), { rd with pos := pos })

/-- `getPosition` of `RandomAccess`. -/
def BytesReader.getPosition : StM BytesReader Int := fun rd => (Res.ok rd.pos, rd)

/-- `skipBytes` of `RandomAccess`: a relative move in reading direction. -/
def BytesReader.skipBytes (count : Int) : StM BytesReader Unit := fun rd =>
  (Res.ok (), { rd with pos := wrap64 (if rd.reversed then rd.pos - count else rd.pos + count) })

/-- `ReadByte`: the byte under the cursor, which then moves one step in
reading direction; a position outside the byte range is a read error that
leaves the cursor where it is. -/
def BytesReader.ReadByte : StM BytesReader Nat := fun rd =>
  if 0 ≤ rd.pos ∧ rd.pos < rd.data.length then
    (Res.ok (rd.data.getD rd.pos.toNat 0 % 256),
      { rd with pos := wrap64 (if rd.reversed then rd.pos - 1 else rd.pos + 1) })
  else (Res.err GoError.EOF, rd)

/-! ## Integer decoding shared by the readers and the streams -/

/-- Big-endian accumulation of `k` further bytes obtained from `next`. -/
def readBE {σ : Type} (next : StM σ Nat) : Nat → Nat → StM σ Nat
  | 0, acc => pure acc
  | k + 1, acc => do
    let b ← next
    readBE next k (acc * 256 + b)

/-- Variable-length decoding: seven payload bits per byte, low group first,
the high bit of a byte announcing a further byte; at most `k` bytes. -/
def readVar {σ : Type} (next : StM σ Nat) : Nat → Nat → Nat → StM σ Nat
  | 0, _, _ => StM.err GoError.invalidVarint
  | k + 1, shift, acc => do
    let b ← next
    if b < 128 then pure (acc + b * 2 ^ shift)
    else readVar next k (shift + 7) (acc + (b % 128) * 2 ^ shift)

/-- Modelled from the spec: `ReadShort` of the byte-stream abstraction, two
bytes, high byte first, as an `int16`. -/
def readShortWith {σ : Type} (next : StM σ Nat) : StM σ Int := do
  let v ← readBE next 2 0
  pure (wrap16 v)

/-- Modelled from the spec: `ReadInt`, four bytes, high byte first, as an `int32`. -/
def readIntWith {σ : Type} (next : StM σ Nat) : StM σ Int := do
  let v ← readBE next 4 0
  pure (wrap32 v)

/-- Modelled from the spec: `ReadVInt`, a variable-length `int32` of at most five bytes. -/
def readVIntWith {σ : Type} (next : StM σ Nat) : StM σ Int := do
  let v ← readVar next 5 0 0
  pure (wrap32 v)

/-- Modelled from the spec: `ReadVLong`, a variable-length `int64` of at most nine bytes. -/
def readVLongWith {σ : Type} (next : StM σ Nat) : StM σ Int := do
  let v ← readVar next 9 0 0
  pure (wrap64 v)

def BytesReader.ReadShort : StM BytesReader Int := readShortWith BytesReader.ReadByte
def BytesReader.ReadInt : StM BytesReader Int := readIntWith BytesReader.ReadByte
def BytesReader.ReadVInt : StM BytesReader Int := readVIntWith BytesReader.ReadByte
def BytesReader.ReadVLong : StM BytesReader Int := readVLongWith BytesReader.ReadByte

/-! ## Arcs -/

/-- The `Arc` struct: a reusable cursor on one transition. -/
structure Arc where
  Label : Int
  Output : Value
  node : Int
  target : Int
  flags : Nat
  NextFinalOutput : Value
  nextArc : Int
  posArcsStart : Int
  bytesPerArc : Int
  arcIdx : Int
  numArcs : Int
deriving DecidableEq, Repr

/-- The zero value `Arc{}`. -/
def Arc.zero : Arc :=
  { Label := 0, Output := Value.nil, node := 0, target := 0, flags := 0,
    NextFinalOutput := Value.nil, nextArc := 0, posArcsStart := 0,
    bytesPerArc := 0, arcIdx := 0, numArcs := 0 }

/-- `hasFlag`: `(flags & bit) != 0`. -/
def hasFlag (flags bit : Nat) : Bool := (flags &&& bit) != 0

/-- `Arc.copyFrom`. -/
def Arc.copyFrom (arc other : Arc) : Arc :=
  let arc := { arc with node := other.node, Label := other.Label, target := other.target,
                        flags := other.flags, Output := other.Output,
                        NextFinalOutput := other.NextFinalOutput, nextArc := other.nextArc,
                        bytesPerArc := other.bytesPerArc }
  if other.bytesPerArc ≠ 0 then
    { arc with posArcsStart := other.posArcsStart, arcIdx := other.arcIdx,
               numArcs := other.numArcs }
  else arc

/-- `Arc.flag`. -/
def Arc.flag (arc : Arc) (bit : Nat) : Bool := hasFlag arc.flags bit

/-- `Arc.isLast`. -/
def Arc.isLast (arc : Arc) : Bool := arc.flag FST_BIT_LAST_ARC

/-- `Arc.IsFinal`. -/
def Arc.IsFinal (arc : Arc) : Bool := arc.flag FST_BIT_FINAL_ARC

/-- `targetHasArcs`. -/
def targetHasArcs (arc : Arc) : Bool := decide (arc.target > 0)

/-! ## Collaborators declared outside `fst.go` -/

/-- The `Outputs` interface (the output value abstraction): the operations
`fst.go` calls on `t.outputs`.  The decoders act on the byte reader. -/
structure Outputs where
  NoOutput : Value
  Read : StM BytesReader Value
  ReadFinalOutput : StM BytesReader Value
  SkipOutput : StM BytesReader Unit
  SkipFinalOutput : StM BytesReader Unit
  writeFinalOutput : Value → Except GoError (List Nat)
  merge : Value → Value → Value

/-- A `packed.PackedIntsReader`: the node-address table of a packed FST;
`isMutable` tells whether its dynamic type implements `packed.Mutable`,
that is, whether it was built rather than loaded. -/
structure PackedReader where
  vals : List Int
  isMutable : Bool
deriving DecidableEq, Repr

/-- `Size()` of the table. -/
def PackedReader.Size (p : PackedReader) : Int := p.vals.length

/-- Indexing as Go does it: outside the bounds it panics. -/
def indexGet (vals : List Int) (i : Int) : Res Int :=
  if 0 ≤ i ∧ i < vals.length then Res.ok (vals.getD i.toNat 0) else Res.panic Panic.indexOutOfRange

/-- The `BytesStore`: the bytes written so far (paging is not modelled). -/
structure BytesStore where
  data : List Nat
deriving DecidableEq, Repr

/-- `forwardReader`. -/
def BytesStore.forwardReader (b : BytesStore) : BytesReader :=
  { data := b.data, pos := 0, reversed := false }

/-- `reverseReader`. -/
def BytesStore.reverseReader (b : BytesStore) : BytesReader :=
  { data := b.data, pos := 0, reversed := true }

/-- `position`: the write position, the number of bytes written. -/
def BytesStore.position (b : BytesStore) : Int := b.data.length

/-! ## The automaton -/

/-- The `FST` struct.  Pointers and interfaces that may be nil are options;
the `outputs` field travels separately as a parameter of the functions. -/
structure FST where
  inputType : Int
  emptyOutput : Value
  bytes : Option BytesStore
  startNode : Int
  NO_OUTPUT : Value
  nodeCount : Int
  arcCount : Int
  arcWithOutputCount : Int
  packed : Bool
  nodeRefToAddress : Option PackedReader
  allowArrayArcs : Bool
  cachedRootArcs : Option (List (Option Arc))
  assertingCachedRootArcs : Option (List (Option Arc))
  version : Int
  nodeAddress : Option (List Int)
  inCounts : Option (List Int)
deriving DecidableEq, Repr

/-- `FST.getNodeAddress`. -/
def FST.getNodeAddress (t : FST) (node : Int) : Res Int :=
  match t.nodeAddress with
  | some tbl => indexGet tbl node
  | none => Res.ok node

/-- Lift an outcome that does not touch the state. -/
def StM.lift {σ α : Type} (r : Res α) : StM σ α := fun s => (r, s)

/-- `FST.readLabel`.  In the one-byte and two-byte cases the error of the
read is bound to a variable local to the `if`, so the function returns the
zero label with a nil error when the read fails. -/
def FST.readLabel (t : FST) : StM BytesReader Int := fun rd =>
  if t.inputType = INPUT_TYPE_BYTE1 then
    match BytesReader.ReadByte rd with
    | (Res.ok b, rd1) => (Res.ok (b : Int), rd1)
    | (Res.err _, rd1) => (Res.ok 0, rd1)
    | (Res.panic p, rd1) => (Res.panic p, rd1)
    | (Res.outOfFuel, rd1) => (Res.outOfFuel, rd1)
  else if t.inputType = INPUT_TYPE_BYTE2 then
    match BytesReader.ReadShort rd with
    | (Res.ok s, rd1) => (Res.ok s, rd1)
    | (Res.err _, rd1) => (Res.ok 0, rd1)
    | (Res.panic p, rd1) => (Res.panic p, rd1)
    | (Res.outOfFuel, rd1) => (Res.outOfFuel, rd1)
  else BytesReader.ReadVInt rd

/-- `FST.readUnpackedNodeTarget`. -/
def FST.readUnpackedNodeTarget (t : FST) : StM BytesReader Int :=
  if t.version < FST_VERSION_VINT_TARGET then BytesReader.ReadInt
  else BytesReader.ReadVLong

/-- Run a statement when the condition holds (an `if` without `else`). -/
def StM.when {σ : Type} (c : Bool) (m : StM σ Unit) : StM σ Unit :=
  if c then m else pure ()

/-- The target field as `seekToNextNode` skips it: a variable-length long
in a packed FST, the unpacked node target otherwise. -/
def FST.skipTarget (t : FST) : StM GoLucene.BytesReader Unit :=
  if t.packed then do
    let _ ← BytesReader.ReadVLong
    pure ()
  else do
    let _ ← t.readUnpackedNodeTarget
    pure ()

/-- `FST.seekToNextNode`: one round of the loop per unit of the budget. -/
def FST.seekToNextNode (o : Outputs) (t : FST) : Nat → StM GoLucene.BytesReader Unit
  | 0 => fun rd => (Res.outOfFuel, rd)
  | n + 1 => do
    let flags ← BytesReader.ReadByte
    let _ ← t.readLabel
    StM.when (hasFlag flags FST_BIT_ARC_HAS_OUTPUT) o.SkipOutput
    StM.when (hasFlag flags FST_BIT_ARC_HAS_FINAL_OUTPUT) o.SkipFinalOutput
    StM.when (!hasFlag flags FST_BIT_STOP_NODE && !hasFlag flags FST_BIT_TARGET_NEXT) t.skipTarget
    if hasFlag flags FST_BIT_LAST_ARC then pure ()
    else FST.seekToNextNode o t n

/-- In `readNextRealArc` the result of `seekToNextNode` is dropped: whatever
it returns, decoding goes on from the position it reached.  A panic or an
exhausted budget is not a return and is passed on. -/
def dropError : StM GoLucene.BytesReader Unit → StM GoLucene.BytesReader Unit := fun m rd =>
  match m rd with
  | (Res.err _, rd1) => (Res.ok (), rd1)
  | r => r

/-- The explicit target address of an arc (neither stop-node nor
target-is-next), as `readNextRealArc` reads it. -/
def FST.readTarget (t : FST) (arc : Arc) : StM GoLucene.BytesReader Int :=
  if t.packed then do
    let pos ← BytesReader.getPosition
    let code ← BytesReader.ReadVLong
    if arc.flag FST_BIT_TARGET_DELTA then pure (wrap64 (pos + code))
    else
      match t.nodeRefToAddress with
      | none => StM.panic Panic.nilDereference
      | some tbl =>
        if code < tbl.Size then StM.lift (indexGet tbl.vals code) else pure code
  else t.readUnpackedNodeTarget

/-- First step of `readNextRealArc`: move the reader to the arc to decode,
the next record of a fixed array or the stored `nextArc`. -/
def Arc.seekRecord (arc : Arc) : StM GoLucene.BytesReader Arc :=
  if arc.bytesPerArc ≠ 0 then do
    let arc := { arc with arcIdx := wrap64 (arc.arcIdx + 1) }
    BytesReader.setPosition arc.posArcsStart
    BytesReader.skipBytes (wrap64 (arc.arcIdx * arc.bytesPerArc))
    pure arc
  else do
    BytesReader.setPosition arc.nextArc
    pure arc

/-- The output of the arc, read when the has-output bit is set. -/
def Arc.readOutput (o : Outputs) (arc : Arc) : StM GoLucene.BytesReader Arc :=
  if arc.flag FST_BIT_ARC_HAS_OUTPUT then do
    let out ← o.Read
    pure { arc with Output := out }
  else pure { arc with Output := o.NoOutput }

/-- The final output of the arc, read when the has-final-output bit is set. -/
def Arc.readFinalOutput (o : Outputs) (arc : Arc) : StM GoLucene.BytesReader Arc :=
  if arc.flag FST_BIT_ARC_HAS_FINAL_OUTPUT then do
    let out ← o.ReadFinalOutput
    pure { arc with NextFinalOutput := out }
  else pure { arc with NextFinalOutput := o.NoOutput }

/-- The skip to the end of the node that `readNextRealArc` makes for a
target-is-next arc that is not the last of its node. -/
def FST.skipRestOfNode (o : Outputs) (t : FST) (fuel : Nat) (arc : Arc) : StM GoLucene.BytesReader Unit :=
  if arc.bytesPerArc = 0 then dropError (t.seekToNextNode o fuel)
  else do
    BytesReader.setPosition arc.posArcsStart
    BytesReader.skipBytes (wrap64 (arc.bytesPerArc * arc.numArcs))

/-- Last step of `readNextRealArc`: `target` and `nextArc`. -/
def FST.resolveTarget (o : Outputs) (t : FST) (fuel : Nat) (arc : Arc) : StM GoLucene.BytesReader Arc :=
  if arc.flag FST_BIT_STOP_NODE then do
    let target := if arc.flag FST_BIT_FINAL_ARC then FST_FINAL_END_NODE else FST_NON_FINAL_END_NODE
    let pos ← BytesReader.getPosition
    pure { arc with target := target, nextArc := pos }
  else if arc.flag FST_BIT_TARGET_NEXT then do
    let nextArc ← BytesReader.getPosition
    if t.nodeAddress.isNone then do
      StM.when (!arc.flag FST_BIT_LAST_ARC) (t.skipRestOfNode o fuel arc)
      let pos ← BytesReader.getPosition
      pure { arc with nextArc := nextArc, target := pos }
    else
      pure { arc with nextArc := nextArc, target := wrap64 (arc.node - 1) }
  else do
    let target ← t.readTarget arc
    let pos ← BytesReader.getPosition
    pure { arc with target := target, nextArc := pos }

/-- `FST.readNextRealArc`. -/
def FST.readNextRealArc (o : Outputs) (t : FST) (fuel : Nat) (arc : Arc) : StM GoLucene.BytesReader Arc := do
  let arc ← arc.seekRecord
  let flags ← BytesReader.ReadByte
  let label ← t.readLabel
  let arc ← Arc.readOutput o { arc with flags := flags, Label := label }
  let arc ← Arc.readFinalOutput o arc
  t.resolveTarget o fuel arc

/-- The stride of a fixed array: variable-length in a packed FST and from
format version 4 on, a fixed-width integer before. -/
def FST.readStride (t : FST) : StM GoLucene.BytesReader Int :=
  if t.packed || decide (t.version ≥ FST_VERSION_VINT_TARGET) then BytesReader.ReadVInt
  else BytesReader.ReadInt

/-- The header of the node in `readFirstRealTargetArc`, after its first
byte `flag`: arc count, stride and start of the records for a fixed array. -/
def FST.readNodeHeader (t : FST) (address : Int) (flag : Nat) (arc : Arc) : StM GoLucene.BytesReader Arc :=
  if flag = FST_ARCS_AS_FIXED_ARRAY then do
    let numArcs ← BytesReader.ReadVInt
    let bytesPerArc ← t.readStride
    let pos ← BytesReader.getPosition
    pure { arc with numArcs := numArcs, bytesPerArc := bytesPerArc, arcIdx := -1,
                    nextArc := pos, posArcsStart := pos }
  else
    pure { arc with nextArc := address, bytesPerArc := 0 }

/-- `FST.readFirstRealTargetArc`. -/
def FST.readFirstRealTargetArc (o : Outputs) (t : FST) (fuel : Nat) (node : Int) (arc : Arc) :
    StM GoLucene.BytesReader Arc := do
  let address ← StM.lift (t.getNodeAddress node)
  BytesReader.setPosition address
  let flag ← BytesReader.ReadByte
  let arc ← t.readNodeHeader address flag { arc with node := node }
  t.readNextRealArc o fuel arc

/-! ## Root arcs -/

/-- `FST.BytesReader`: a fresh reader on the byte store, forward for a
packed FST and reverse otherwise. -/
def FST.BytesReader (t : FST) : Res BytesReader :=
  match t.bytes with
  | none => Res.panic Panic.nilDereference
  | some b => Res.ok (if t.packed then b.forwardReader else b.reverseReader)

/-- The flags and the final output `FirstArc` gives its arc; `g` is the
package-level `NO_OUTPUT` the empty output is compared with. -/
def FST.firstArcFlags (g : Value) (t : FST) : Except Panic (Nat × Value) :=
  if t.emptyOutput ≠ Value.nil then
    match ifaceEq t.emptyOutput g with
    | Except.ok same =>
      Except.ok (if !same then FST_BIT_FINAL_ARC ||| FST_BIT_LAST_ARC ||| FST_BIT_ARC_HAS_FINAL_OUTPUT
                 else FST_BIT_FINAL_ARC ||| FST_BIT_LAST_ARC, t.emptyOutput)
    | Except.error p => Except.error p
  else Except.ok (FST_BIT_LAST_ARC, t.NO_OUTPUT)

/-- `FST.FirstArc`. -/
def FST.FirstArc (g : Value) (t : FST) (arc : Arc) : Res Arc :=
  match t.firstArcFlags g with
  | Except.ok (flags, finalOutput) =>
    Res.ok { arc with flags := flags, NextFinalOutput := finalOutput, Output := t.NO_OUTPUT,
                      target := t.startNode }
  | Except.error p => Res.panic p

/-- `len(t.cachedRootArcs)`: a nil slice has length zero. -/
def FST.cacheLen (t : FST) : Int :=
  match t.cachedRootArcs with
  | none => 0
  | some c => c.length

/-- The `for err == nil` loop of `readRootArcs`; it returns the slice as the
loop leaves it together with the outcome. -/
def FST.readRootArcsLoop (o : Outputs) (t : FST) (fuel : Nat) :
    Nat → List (Option Arc) → Arc → GoLucene.BytesReader → List (Option Arc) × Res Unit
  | 0, arcs, _, _ => (arcs, Res.outOfFuel)
  | n + 1, arcs, arc, rd =>
    if arc.Label = FST_END_LABEL then (arcs, Res.panic Panic.assertFail)
    else if arc.Label ≥ t.cacheLen then (arcs, Res.ok ())
    else if ¬ (0 ≤ arc.Label ∧ arc.Label < arcs.length) then (arcs, Res.panic Panic.indexOutOfRange)
    else
      let arcs := arcs.set arc.Label.toNat (some (Arc.zero.copyFrom arc))
      if arc.isLast then (arcs, Res.ok ())
      else
        match t.readNextRealArc o fuel arc rd with
        | (Res.ok arc1, rd1) => FST.readRootArcsLoop o t fuel n arcs arc1 rd1
        | (Res.err e, _) => (arcs, Res.err e)
        | (Res.panic p, _) => (arcs, Res.panic p)
        | (Res.outOfFuel, _) => (arcs, Res.outOfFuel)

/-- `FST.readRootArcs`. -/
def FST.readRootArcs (o : Outputs) (g : Value) (t : FST) (fuel : Nat) (arcs : List (Option Arc)) :
    List (Option Arc) × Res Unit :=
  match t.FirstArc g Arc.zero with
  | Res.ok arc =>
    match t.BytesReader with
    | Res.ok rd =>
      if targetHasArcs arc then
        match t.readFirstRealTargetArc o fuel arc.target arc rd with
        | (Res.ok arc1, rd1) => t.readRootArcsLoop o fuel fuel arcs arc1 rd1
        | (Res.err e, _) => (arcs, Res.err e)
        | (Res.panic p, _) => (arcs, Res.panic p)
        | (Res.outOfFuel, _) => (arcs, Res.outOfFuel)
      else (arcs, Res.ok ())
    | Res.err e => (arcs, Res.err e)
    | Res.panic p => (arcs, Res.panic p)
    | Res.outOfFuel => (arcs, Res.outOfFuel)
  | Res.err e => (arcs, Res.err e)
  | Res.panic p => (arcs, Res.panic p)
  | Res.outOfFuel => (arcs, Res.outOfFuel)

/-- The comparison loop of `equals` on two byte slices of equal length. -/
def equalsBytes : List Nat → List Nat → Bool
  | x :: xs, y :: ys => if x ≠ y then false else equalsBytes xs ys
  | _, _ => true

/-- `equals` (and its exported name `CompareFSTValue`). -/
def equals (a b : Value) : Res Bool :=
  match a with
  | Value.bytes b1 =>
    match b with
    | Value.bytes b2 => if b1.length ≠ b2.length then Res.ok false else Res.ok (equalsBytes b1 b2)
    | _ => Res.panic Panic.incomparableType
  | Value.int64 x =>
    match b with
    | Value.int64 y => Res.ok (decide (x = y))
    | _ => Res.panic Panic.incomparableType
  | _ => if a = Value.nil ∧ b = Value.nil then Res.ok true else Res.ok false

/-- `CompareFSTValue`. -/
def CompareFSTValue (a b : Value) : Res Bool := equals a b

/-- The checks `assertRootArcs` makes on one slot, in source order. -/
def assertSlot (root asserting : Option Arc) : Res Unit :=
  match root with
  | some r =>
    match asserting with
    | none => Res.panic Panic.nilDereference
    | some a =>
      if r.arcIdx ≠ a.arcIdx then Res.panic Panic.assertFail
      else if r.bytesPerArc ≠ a.bytesPerArc then Res.panic Panic.assertFail
      else if r.flags ≠ a.flags then Res.panic Panic.assertFail
      else if r.Label ≠ a.Label then Res.panic Panic.assertFail
      else if r.nextArc ≠ a.nextArc then Res.panic Panic.assertFail
      else
        match equals r.NextFinalOutput a.NextFinalOutput with
        | Res.ok false => Res.panic Panic.assertFail
        | Res.ok true =>
          if r.node ≠ a.node then Res.panic Panic.assertFail
          else if r.numArcs ≠ a.numArcs then Res.panic Panic.assertFail
          else
            match equals r.Output a.Output with
            | Res.ok false => Res.panic Panic.assertFail
            | Res.ok true =>
              if r.posArcsStart ≠ a.posArcsStart then Res.panic Panic.assertFail
              else if r.target ≠ a.target then Res.panic Panic.assertFail
              else Res.ok ()
            | Res.err e => Res.err e
            | Res.panic p => Res.panic p
            | Res.outOfFuel => Res.outOfFuel
        | Res.err e => Res.err e
        | Res.panic p => Res.panic p
        | Res.outOfFuel => Res.outOfFuel
  | none =>
    match asserting with
    | some _ => Res.panic Panic.assertFail
    | none => Res.ok ()

/-- The `range` loop of `assertRootArcs` over the asserting slice, reading
the cache at the same index. -/
def assertSlots : List (Option Arc) → List (Option Arc) → Res Unit
  | _, [] => Res.ok ()
  | [], _ :: _ => Res.panic Panic.indexOutOfRange
  | r :: rs, a :: as =>
    match assertSlot r a with
    | Res.ok _ => assertSlots rs as
    | x => x

/-- `FST.assertRootArcs`. -/
def FST.assertRootArcs (t : FST) : Res Unit :=
  match t.cachedRootArcs, t.assertingCachedRootArcs with
  | some c, some a => assertSlots c a
  | _, _ => Res.panic Panic.assertFail

/-- `FST.cacheRootArcs` (with `setAssertingRootArcs` inlined): the FST as
the call leaves it, and the outcome.  The error of the first `readRootArcs`
is not looked at. -/
def FST.cacheRootArcs (o : Outputs) (g : Value) (fuel : Nat) (t : FST) : FST × Res Unit :=
  let t := { t with cachedRootArcs := some (List.replicate 128 none) }
  match t.readRootArcs o g fuel (List.replicate 128 none) with
  | (arcs, Res.panic p) => ({ t with cachedRootArcs := some arcs }, Res.panic p)
  | (arcs, Res.outOfFuel) => ({ t with cachedRootArcs := some arcs }, Res.outOfFuel)
  | (arcs, _) =>
    let t := { t with cachedRootArcs := some arcs }
    let t := { t with assertingCachedRootArcs := some (List.replicate arcs.length none) }
    match t.readRootArcs o g fuel (List.replicate arcs.length none) with
    | (arcs2, Res.ok _) =>
      let t := { t with assertingCachedRootArcs := some arcs2 }
      (t, t.assertRootArcs)
    | (arcs2, r) => ({ t with assertingCachedRootArcs := some arcs2 }, r)

/-- `assert2`: a failed assertion is a panic. -/
def assert2 (ok : Bool) (p : Panic) : Res Unit := if ok then Res.ok () else Res.panic p

/-- `FST.finish`: the FST as the call leaves it, and the outcome. -/
def FST.finish (o : Outputs) (g : Value) (fuel : Nat) (t : FST) (startNode : Int) : FST × Res Unit :=
  match assert2 (decide (t.startNode = -1)) Panic.alreadyFinished with
  | Res.ok _ =>
    let startNode :=
      if startNode = FST_FINAL_END_NODE ∧ t.emptyOutput ≠ Value.nil then 0 else startNode
    let t := { t with startNode := startNode }
    match t.bytes with
    | none => (t, Res.panic Panic.nilDereference)
    | some _ => t.cacheRootArcs o g fuel
  | r => (t, r)

/-! ## Traversal -/

/-- The arc pointers `FindTargetArc` holds and could hand back. -/
inductive ArcRef
  | follow
  | arc
deriving DecidableEq, Repr

/-- What a call of `FindTargetArc` that returns a nil error leaves behind:
the pointer returned (`none` is nil, not found), the arc cursor `arc` and
the byte reader as they are at the return. -/
structure Lookup where
  target : Option ArcRef
  arc : Arc
  rd : GoLucene.BytesReader
deriving DecidableEq, Repr

/-- The midpoint `int(uint(low+high) / 2)` of the binary search. -/
def midpoint (low high : Int) : Int :=
  wrap64 ((wrap64 (low + high) % 18446744073709551616) / 2)

/-- The binary search loop of `FindTargetArc` over a fixed array, one round
per unit of the loop budget. -/
def FST.binarySearch (o : Outputs) (t : FST) (fuel : Nat) (labelToMatch : Int) (arc : Arc) :
    Nat → Int → Int → GoLucene.BytesReader → Res Lookup
  | 0, _, _, _ => Res.outOfFuel
  | n + 1, low, high, rd =>
    if low < high then
      let mid := midpoint low high
      let rd1 := (BytesReader.setPosition arc.posArcsStart rd).2
      let rd2 := (BytesReader.skipBytes (wrap64 (wrap64 (arc.bytesPerArc * mid) + 1)) rd1).2
      match t.readLabel rd2 with
      | (Res.ok midLabel, rd3) =>
        let cmp := wrap64 (midLabel - labelToMatch)
        if cmp < 0 then FST.binarySearch o t fuel labelToMatch arc n (wrap64 (mid + 1)) high rd3
        else if cmp > 0 then FST.binarySearch o t fuel labelToMatch arc n low (wrap64 (mid - 1)) rd3
        else
          match t.readNextRealArc o fuel { arc with arcIdx := wrap64 (mid - 1) } rd3 with
          | (Res.ok arc1, rd4) => Res.ok { target := some ArcRef.arc, arc := arc1, rd := rd4 }
          | (Res.err e, _) => Res.err e
          | (Res.panic p, _) => Res.panic p
          | (Res.outOfFuel, _) => Res.outOfFuel
      | (Res.err e, _) => Res.err e
      | (Res.panic p, _) => Res.panic p
      | (Res.outOfFuel, _) => Res.outOfFuel
    else Res.ok { target := none, arc := arc, rd := rd }

/-- The header of a fixed array as `FindTargetArc` reads it after the
marker byte: arc count, stride and start of the records. -/
def FST.readArrayHeader (t : FST) (arc : Arc) : StM GoLucene.BytesReader Arc := do
  let numArcs ← BytesReader.ReadVInt
  let bytesPerArc ← t.readStride
  let pos ← BytesReader.getPosition
  pure { arc with numArcs := numArcs, bytesPerArc := bytesPerArc, posArcsStart := pos }

/-- `FST.FindTargetArc`. -/
def FST.FindTargetArc (o : Outputs) (t : FST) (fuel : Nat) (labelToMatch : Int)
    (follow arc : Arc) (rd : GoLucene.BytesReader) : Res Lookup :=
  if labelToMatch = FST_END_LABEL then
    if follow.IsFinal then
      let arc :=
        if follow.target ≤ 0 then { arc with flags := FST_BIT_LAST_ARC }
        else { arc with flags := 0, nextArc := follow.target, node := follow.target }
      let arc := { arc with Output := follow.NextFinalOutput, Label := FST_END_LABEL }
      Res.ok { target := some ArcRef.arc, arc := arc, rd := rd }
    else Res.ok { target := none, arc := arc, rd := rd }
  else if follow.target = t.startNode ∧ labelToMatch < t.cacheLen then
    match t.assertRootArcs with
    | Res.ok _ =>
      match t.cachedRootArcs with
      | none => Res.panic Panic.indexOutOfRange
      | some cache =>
        if 0 ≤ labelToMatch then
          match cache.getD labelToMatch.toNat none with
          | some result =>
            Res.ok { target := some ArcRef.arc, arc := arc.copyFrom result, rd := rd }
          | none => Res.ok { target := none, arc := arc, rd := rd }
        else Res.panic Panic.indexOutOfRange
    | Res.err e => Res.err e
    | Res.panic p => Res.panic p
    | Res.outOfFuel => Res.outOfFuel
  else if !targetHasArcs follow then Res.ok { target := none, arc := arc, rd := rd }
  else
    match t.getNodeAddress follow.target with
    | Res.ok address =>
      let rd := (BytesReader.setPosition address rd).2
      let arc := { arc with node := follow.target }
      match BytesReader.ReadByte rd with
      | (Res.ok b, rd1) =>
        if b = FST_ARCS_AS_FIXED_ARRAY then
          match t.readArrayHeader arc rd1 with
          | (Res.ok arc1, rd2) =>
            t.binarySearch o fuel labelToMatch arc1 fuel 0 (wrap64 (arc1.numArcs - 1)) rd2
          | (Res.err e, _) => Res.err e
          | (Res.panic p, _) => Res.panic p
          | (Res.outOfFuel, _) => Res.outOfFuel
        else Res.panic Panic.notImplementedYet
      | (Res.err e, _) => Res.err e
      | (Res.panic p, _) => Res.panic p
      | (Res.outOfFuel, _) => Res.outOfFuel
    | Res.err e => Res.err e
    | Res.panic p => Res.panic p
    | Res.outOfFuel => Res.outOfFuel

/-- The linear scan of a node: `readFirstRealTargetArc`, then
`readNextRealArc` until the label is met, passed, or the last arc is read. -/
def FST.scanLoop (o : Outputs) (t : FST) (fuel : Nat) (labelToMatch : Int) :
    Nat → Arc → GoLucene.BytesReader → Res (Option Arc)
  | 0, _, _ => Res.outOfFuel
  | n + 1, arc, rd =>
    if arc.Label = labelToMatch then Res.ok (some arc)
    else if arc.isLast then Res.ok none
    else
      match t.readNextRealArc o fuel arc rd with
      | (Res.ok arc1, rd1) => FST.scanLoop o t fuel labelToMatch n arc1 rd1
      | (Res.err e, _) => Res.err e
      | (Res.panic p, _) => Res.panic p
      | (Res.outOfFuel, _) => Res.outOfFuel

/-- Full linear scan of the node `node` for a label. -/
def FST.linearScan (o : Outputs) (t : FST) (fuel : Nat) (labelToMatch : Int) (node : Int)
    (arc : Arc) (rd : GoLucene.BytesReader) : Res (Option Arc) :=
  match t.readFirstRealTargetArc o fuel node arc rd with
  | (Res.ok arc1, rd1) => t.scanLoop o fuel labelToMatch fuel arc1 rd1
  | (Res.err e, _) => Res.err e
  | (Res.panic p, _) => Res.panic p
  | (Res.outOfFuel, _) => Res.outOfFuel

/-! ## Streams -/

/-- Modelled from the spec: a `util.DataInput`, the byte-level input stream
a saved FST is loaded from: the bytes still to be read, and the error every
read reports once they are used up. -/
structure DataInput where
  rest : List Nat
  failure : GoError
deriving DecidableEq, Repr

/-- `ReadByte` of the input stream. -/
def DataInput.ReadByte : StM DataInput Nat := fun inp =>
  match inp.rest with
  | [] => (Res.err inp.failure, inp)
  | b :: rest => (Res.ok (b % 256), { inp with rest := rest })

def DataInput.ReadInt : StM DataInput Int := readIntWith DataInput.ReadByte
def DataInput.ReadVInt : StM DataInput Int := readVIntWith DataInput.ReadByte
def DataInput.ReadVLong : StM DataInput Int := readVLongWith DataInput.ReadByte

/-- The bytes of a string or blob of `n` bytes, read one by one. -/
def DataInput.ReadBytes : Nat → StM DataInput (List Nat)
  | 0 => pure []
  | n + 1 => do
    let b ← DataInput.ReadByte
    let bs ← DataInput.ReadBytes n
    pure (b :: bs)

/-- Modelled from the spec: `BytesStore.CopyBytes`, the bulk copy from the
input into a store.  `loadFST3` does not look at its result, so the model
keeps only its effect: it takes the bytes asked for, or those that are left. -/
def CopyBytes (numBytes : Int) (inp : DataInput) : BytesStore × DataInput :=
  ({ data := inp.rest.take numBytes.toNat }, { inp with rest := inp.rest.drop numBytes.toNat })

/-- Modelled from the spec: `newBytesStoreFromInput`, the store holding the
next `numBytes` bytes of the input; a stream that ends before is an error. -/
def newBytesStoreFromInput (numBytes : Int) : StM DataInput BytesStore := fun inp =>
  if numBytes.toNat ≤ inp.rest.length then
    (Res.ok { data := inp.rest.take numBytes.toNat }, { inp with rest := inp.rest.drop numBytes.toNat })
  else (Res.err inp.failure, { inp with rest := [] })

/-- Modelled from the spec: a `util.DataOutput`, the byte-level output
stream an FST is saved to: the bytes written so far, and for the coming
write calls whether they fail (`some e`) or not; calls beyond the schedule
succeed. -/
structure DataOutput where
  written : List Nat
  schedule : List (Option GoError)
deriving DecidableEq, Repr

/-- One write call on the output: it appends its bytes unless the schedule
makes it fail; it returns the Go `error` (`none` is nil). -/
def DataOutput.write (bs : List Nat) (out : DataOutput) : Option GoError × DataOutput :=
  match out.schedule with
  | some e :: rest => (some e, { out with schedule := rest })
  | none :: rest => (none, { written := out.written ++ bs, schedule := rest })
  | [] => (none, { out with written := out.written ++ bs })

/-- Variable-length encoding of an unsigned value: seven bits per byte, low
group first, the high bit set on every byte but the last. -/
def encodeVar : Nat → Nat → List Nat
  | 0, n => [n % 128]
  | k + 1, n => if n < 128 then [n] else (n % 128 + 128) :: encodeVar k (n / 128)

/-- Big-endian bytes of a 32 bit value. -/
def encodeInt (v : Int) : List Nat :=
  let n := (v % 4294967296).toNat
  [n / 16777216 % 256, n / 65536 % 256, n / 256 % 256, n % 256]

def DataOutput.WriteByte (b : Nat) : DataOutput → Option GoError × DataOutput :=
  DataOutput.write [b % 256]

def DataOutput.WriteInt (v : Int) : DataOutput → Option GoError × DataOutput :=
  DataOutput.write (encodeInt v)

/-- The bytes of a variable-length `int32`, encoded from its unsigned 32 bit pattern. -/
def vint (v : Int) : List Nat := encodeVar 4 (v % 4294967296).toNat

/-- The bytes of a variable-length `int64`, encoded from its unsigned 64 bit pattern. -/
def vlong (v : Int) : List Nat := encodeVar 9 (v % 18446744073709551616).toNat

/-- `WriteVInt` of an `int32`. -/
def DataOutput.WriteVInt (v : Int) : DataOutput → Option GoError × DataOutput :=
  DataOutput.write (vint v)

/-- `WriteVLong` of an `int64`. -/
def DataOutput.WriteVLong (v : Int) : DataOutput → Option GoError × DataOutput :=
  DataOutput.write (vlong v)

def DataOutput.WriteBytes (bs : List Nat) : DataOutput → Option GoError × DataOutput :=
  DataOutput.write (bs.map (· % 256))

/-- The collaborators of `Save` and `loadFST3` that live in other packages:
the header utility of `codec` and the packed-integer table of `packed`. -/
structure Codec where
  WriteHeader : Int → DataOutput → Option GoError × DataOutput
  CheckHeader : Int → Int → StM DataInput Int
  NewPackedReader : StM DataInput PackedReader
  SavePacked : PackedReader → DataOutput → Option GoError × DataOutput

/-- The magic number that opens a header. -/
def CODEC_MAGIC : Int := 1071082519

/-- The format name `FST_FILE_FORMAT_NAME`, as bytes. -/
def FST_FILE_FORMAT_NAME : List Nat := [70, 83, 84]

/-- Modelled from the spec: `codec.WriteHeader`, which writes the magic
number, the length-counted format name and the version. -/
def writeHeader (version : Int) (out : DataOutput) : Option GoError × DataOutput :=
  match out.WriteInt CODEC_MAGIC with
  | (some e, out) => (some e, out)
  | (none, out) =>
    match out.write (encodeVar 4 FST_FILE_FORMAT_NAME.length ++ FST_FILE_FORMAT_NAME) with
    | (some e, out) => (some e, out)
    | (none, out) => out.WriteInt version

/-- Modelled from the spec: `codec.CheckHeader`, which checks the magic
number and the format name and accepts a version inside the supported
range. -/
def checkHeader (minVersion maxVersion : Int) : StM DataInput Int := do
  let magic ← DataInput.ReadInt
  if magic ≠ CODEC_MAGIC then StM.err GoError.badHeader
  else do
    let len ← DataInput.ReadVInt
    let name ← DataInput.ReadBytes len.toNat
    if name ≠ FST_FILE_FORMAT_NAME then StM.err GoError.badHeader
    else do
      let version ← DataInput.ReadInt
      if version < minVersion ∨ version > maxVersion then StM.err GoError.badHeader
      else pure version

/-- The header utility as modelled above, for an FST without a packed table. -/
def plainCodec : Codec :=
  { WriteHeader := writeHeader,
    CheckHeader := checkHeader,
    NewPackedReader := StM.err GoError.badHeader,
    SavePacked := fun _ out => (some GoError.badHeader, out) }

/-! ## Construction, saving and loading -/

/-- `newFST`. -/
def newFST (o : Outputs) (inputType : Int) (willPackFST allowArrayArcs : Bool) : FST :=
  { inputType := inputType, emptyOutput := Value.nil, bytes := some { data := [0] },
    startNode := -1, NO_OUTPUT := o.NoOutput, nodeCount := 0, arcCount := 0,
    arcWithOutputCount := 0, packed := false, nodeRefToAddress := none,
    allowArrayArcs := allowArrayArcs, cachedRootArcs := none,
    assertingCachedRootArcs := none, version := VERSION_CURRENT,
    nodeAddress := if willPackFST then some (List.replicate 8 0) else none,
    inCounts := if willPackFST then some (List.replicate 8 0) else none }

/-- `FST.EmptyOutput`. -/
def FST.EmptyOutput (t : FST) : Value := t.emptyOutput

/-- `FST.setEmptyOutput`. -/
def FST.setEmptyOutput (o : Outputs) (t : FST) (v : Value) : FST :=
  if t.emptyOutput ≠ Value.nil then { t with emptyOutput := o.merge t.emptyOutput v }
  else { t with emptyOutput := v }

/-- The loop of `Save` that reverses the empty-output bytes in place:
`k` rounds from index `upto`, each swapping the bytes at `upto` and
`length-upto-1`. -/
def reverseLoop (length : Nat) : Nat → Nat → List Nat → List Nat
  | 0, _, bs => bs
  | k + 1, upto, bs =>
    let x := bs.getD upto 0
    let y := bs.getD (length - upto - 1) 0
    reverseLoop length k (upto + 1) ((bs.set upto y).set (length - upto - 1) x)

/-- The empty-output part of `Save`, entered with a nil `err`. -/
def FST.saveEmptyOutput (o : Outputs) (t : FST) (out : DataOutput) : Option GoError × DataOutput :=
  match out.WriteByte 1 with
  | (some e, out) => (some e, out)
  | (none, out) =>
    match o.writeFinalOutput t.emptyOutput with
    | Except.ok emptyOutputBytes =>
      let length := emptyOutputBytes.length
      let emptyOutputBytes :=
        if !t.packed then reverseLoop length (length / 2) 0 emptyOutputBytes else emptyOutputBytes
      match out.WriteVInt (wrap32 length) with
      | (some e, out) => (some e, out)
      | (none, out) => out.WriteBytes emptyOutputBytes
    | Except.error e => (some e, out)

/-- The counters and the body, the last part of `Save`. -/
def FST.saveBody (t : FST) (body : BytesStore) (out : DataOutput) : Option GoError × DataOutput :=
  match out.WriteVLong t.startNode with
  | (some e, out) => (some e, out)
  | (none, out) =>
    match out.WriteVLong t.nodeCount with
    | (some e, out) => (some e, out)
    | (none, out) =>
      match out.WriteVLong t.arcCount with
      | (some e, out) => (some e, out)
      | (none, out) =>
        match out.WriteVLong t.arcWithOutputCount with
        | (some e, out) => (some e, out)
        | (none, out) =>
          match out.WriteVLong body.position with
          | (some e, out) => (some e, out)
          | (none, out) => out.WriteBytes body.data

/-- Turn the `error` a Go function returns into an outcome. -/
def returnError (err : Option GoError) : Res Unit :=
  match err with
  | some e => Res.err e
  | none => Res.ok ()

/-- The four counters `Save` writes before it touches the byte store. -/
def FST.saveCounters (t : FST) (out : DataOutput) : Option GoError × DataOutput :=
  match out.WriteVLong t.startNode with
  | (some e, out) => (some e, out)
  | (none, out) =>
    match out.WriteVLong t.nodeCount with
    | (some e, out) => (some e, out)
    | (none, out) =>
      match out.WriteVLong t.arcCount with
      | (some e, out) => (some e, out)
      | (none, out) => out.WriteVLong t.arcWithOutputCount

/-- The end of `Save`, from the check of the error of the input-type byte
and the table on.  The byte store is first touched by `t.bytes.position()`,
after the four counters are written: on a nil store the counters are
written, or the error of their write is returned, before the panic. -/
def FST.saveTail (t : FST) (err : Option GoError) (out : DataOutput) : Res Unit × DataOutput :=
  match err with
  | some e => (Res.err e, out)
  | none =>
    match t.bytes with
    | none =>
      match t.saveCounters out with
      | (some e, out) => (Res.err e, out)
      | (none, out) => (Res.panic Panic.nilDereference, out)
    | some body =>
      let (err, out) := t.saveBody body out
      (returnError err, out)

/-- The part of `Save` that writes the input-type byte and, for a packed
FST, the node-address table, and then goes on to counters and body. -/
def FST.saveInputType (c : Codec) (t : FST) (out : DataOutput) : Res Unit × DataOutput :=
  let tb : Nat :=
    if t.inputType = INPUT_TYPE_BYTE1 then 0
    else if t.inputType = INPUT_TYPE_BYTE2 then 1
    else 2
  match out.WriteByte tb with
  | (err, out) =>
    if err.isNone && t.packed then
      match t.nodeRefToAddress with
      | some p =>
        if p.isMutable then
          match c.SavePacked p out with
          | (err, out) => t.saveTail err out
        else (Res.panic Panic.typeAssertion, out)
      | none => (Res.panic Panic.typeAssertion, out)
    else t.saveTail err out

/-- The packed flag and the empty output as `Save` writes them, entered
with the error `err` of `codec.WriteHeader`: the `error` left in `err`
after them, and the output. -/
def FST.saveFlags (o : Outputs) (t : FST) (err : Option GoError) (out : DataOutput) :
    Option GoError × DataOutput :=
  match (if err.isNone && t.packed then out.WriteByte 1 else out.WriteByte 0) with
  | (err, out) =>
    if err.isNone && t.emptyOutput ≠ Value.nil then t.saveEmptyOutput o out
    else if err.isNone then out.WriteByte 0
    else (err, out)

/-- The writes of `Save`, entered after the precondition checks with the
result of `codec.WriteHeader`. -/
def FST.saveAfterHeader (c : Codec) (o : Outputs) (t : FST) (header : Option GoError × DataOutput) :
    Res Unit × DataOutput :=
  match t.saveFlags o header.1 header.2 with
  | (some e, out) => (Res.err e, out)
  | (none, out) => t.saveInputType c out

/-- The dynamic type of `t.nodeRefToAddress` implements `packed.Mutable`
(the `ok` of the type assertion in `Save`). -/
def FST.tableIsMutable (t : FST) : Bool :=
  match t.nodeRefToAddress with
  | some p => p.isMutable
  | none => false

/-- `FST.Save`: the outcome and the output stream as the call leaves it. -/
def FST.Save (c : Codec) (o : Outputs) (t : FST) (out : DataOutput) : Res Unit × DataOutput :=
  match assert2 (decide (t.startNode ≠ -1)) Panic.callFinishFirst with
  | Res.ok _ =>
    match assert2 t.nodeAddress.isNone Panic.mustFirstBePacked with
    | Res.ok _ =>
      match assert2 (!t.packed || t.tableIsMutable) Panic.loadedFromDisk with
      | Res.ok _ => t.saveAfterHeader c o (c.WriteHeader VERSION_CURRENT out)
      | r => (r, out)
    | r => (r, out)
  | r => (r, out)

/-- What `loadFST3` returns: the FST pointer (`none` is nil) and the error. -/
structure Loaded where
  fst : Option FST
  err : Option GoError
deriving DecidableEq, Repr

/-- The FST `loadFST3` starts from, `&FST{outputs: outputs, startNode: -1}`. -/
def FST.blank : FST :=
  { inputType := 0, emptyOutput := Value.nil, bytes := none, startNode := -1,
    NO_OUTPUT := Value.nil, nodeCount := 0, arcCount := 0, arcWithOutputCount := 0,
    packed := false, nodeRefToAddress := none, allowArrayArcs := false,
    cachedRootArcs := none, assertingCachedRootArcs := none, version := 0,
    nodeAddress := none, inCounts := none }

/-- The reader `loadFST3` decodes the empty output with: the forward reader
on the copied bytes for a packed FST, else the reverse reader, placed on
the last byte when there is one. -/
def emptyOutputReader (packed : Bool) (emptyBytes : BytesStore) (numBytes : Int) :
    GoLucene.BytesReader :=
  if packed then emptyBytes.forwardReader
  else
    let reader := emptyBytes.reverseReader
    if numBytes > 0 then { reader with pos := wrap64 (numBytes - 1) } else reader

/-- The empty-output part of `loadFST3`.  Every error in it is bound to a
variable local to its `if`, so none reaches the check that follows: the
part only updates the FST and the input. -/
def loadEmptyOutput (o : Outputs) (fst : FST) (inp : DataInput) : Res FST × DataInput :=
  match DataInput.ReadByte inp with
  | (Res.ok b, inp) =>
    if b = 1 then
      match DataInput.ReadVInt inp with
      | (Res.ok numBytes, inp) =>
        let (emptyBytes, inp) := CopyBytes numBytes inp
        match o.ReadFinalOutput (emptyOutputReader fst.packed emptyBytes numBytes) with
        | (Res.ok v, _) => (Res.ok { fst with emptyOutput := v }, inp)
        | (Res.err _, _) => (Res.ok { fst with emptyOutput := Value.nil }, inp)
        | (Res.panic p, _) => (Res.panic p, inp)
        | (Res.outOfFuel, _) => (Res.outOfFuel, inp)
      | (_, inp) => (Res.ok fst, inp)
    else (Res.ok fst, inp)
  | (_, inp) => (Res.ok fst, inp)

/-- The input-type part of `loadFST3`; the error of the read is local to the `if`. -/
def loadInputType (fst : FST) (inp : DataInput) : Res FST × DataInput :=
  match DataInput.ReadByte inp with
  | (Res.ok t, inp) =>
    if t = 0 then (Res.ok { fst with inputType := INPUT_TYPE_BYTE1 }, inp)
    else if t = 1 then (Res.ok { fst with inputType := INPUT_TYPE_BYTE2 }, inp)
    else if t = 2 then (Res.ok { fst with inputType := INPUT_TYPE_BYTE4 }, inp)
    else (Res.panic Panic.invalidInputType, inp)
  | (_, inp) => (Res.ok fst, inp)

/-- The value a failed read hands back next to its error. -/
def valueOr (r : Res Int) : Int :=
  match r with
  | Res.ok v => v
  | _ => 0

/-- The error a read hands back. -/
def errorOf {α : Type} (r : Res α) : Option GoError :=
  match r with
  | Res.err e => some e
  | _ => none

/-- The last part of `loadFST3`: the four counters, then body length and
body.  The errors of the counters are assigned to the function's `err`;
from the body length on they are bound to a variable local to the `if`. -/
def loadCounters (o : Outputs) (g : Value) (fuel : Nat) (fst : FST) (inp : DataInput) : Res Loaded :=
  let (r, inp) := DataInput.ReadVLong inp
  let fst := { fst with startNode := valueOr r }
  if (errorOf r).isSome then Res.ok { fst := some fst, err := errorOf r } else
  let (r, inp) := DataInput.ReadVLong inp
  let fst := { fst with nodeCount := valueOr r }
  if (errorOf r).isSome then Res.ok { fst := some fst, err := errorOf r } else
  let (r, inp) := DataInput.ReadVLong inp
  let fst := { fst with arcCount := valueOr r }
  if (errorOf r).isSome then Res.ok { fst := some fst, err := errorOf r } else
  let (r, inp) := DataInput.ReadVLong inp
  let fst := { fst with arcWithOutputCount := valueOr r }
  if (errorOf r).isSome then Res.ok { fst := some fst, err := errorOf r } else
  match DataInput.ReadVLong inp with
  | (Res.ok numBytes, inp) =>
    match newBytesStoreFromInput numBytes inp with
    | (Res.ok body, _) =>
      let fst := { fst with bytes := some body }
      let fst := { fst with NO_OUTPUT := o.NoOutput }
      match fst.cacheRootArcs o g fuel with
      | (_, Res.panic p) => Res.panic p
      | (_, Res.outOfFuel) => Res.outOfFuel
      | (fst, _) => Res.ok { fst := some fst, err := none }
    | (_, _) => Res.ok { fst := some { fst with bytes := none }, err := none }
  | (_, _) => Res.ok { fst := some fst, err := none }

/-- `loadFST3`. -/
def loadFST3 (c : Codec) (o : Outputs) (g : Value) (fuel : Nat) (inp : DataInput)
    (maxBlockBits : Nat) : Res Loaded :=
  let fst := FST.blank
  if maxBlockBits < 1 ∨ maxBlockBits > 30 then Res.panic Panic.badMaxBlockBits
  else
    match c.CheckHeader FST_VERSION_PACKED FST_VERSION_VINT_TARGET inp with
    | (Res.ok version, inp) =>
      let fst := { fst with version := version }
      match DataInput.ReadByte inp with
      | (Res.ok b, inp) =>
        let fst := { fst with packed := decide (b = 1) }
        match loadEmptyOutput o fst inp with
        | (Res.ok fst, inp) =>
          match loadInputType fst inp with
          | (Res.ok fst, inp) =>
            if fst.packed then
              match c.NewPackedReader inp with
              | (Res.ok tbl, inp) =>
                loadCounters o g fuel { fst with nodeRefToAddress := some tbl } inp
              | (Res.err e, _) => Res.ok { fst := some fst, err := some e }
              | (Res.panic p, _) => Res.panic p
              | (Res.outOfFuel, _) => Res.outOfFuel
            else loadCounters o g fuel fst inp
          | (Res.err e, _) => Res.err e
          | (Res.panic p, _) => Res.panic p
          | (Res.outOfFuel, _) => Res.outOfFuel
        | (Res.err e, _) => Res.err e
        | (Res.panic p, _) => Res.panic p
        | (Res.outOfFuel, _) => Res.outOfFuel
      | (Res.err e, _) => Res.ok { fst := some fst, err := some e }
      | (Res.panic p, _) => Res.panic p
      | (Res.outOfFuel, _) => Res.outOfFuel
    | (Res.err e, _) => Res.ok { fst := some fst, err := some e }
    | (Res.panic p, _) => Res.panic p
    | (Res.outOfFuel, _) => Res.outOfFuel

/-- `LoadFST`. -/
def LoadFST (c : Codec) (o : Outputs) (g : Value) (fuel : Nat) (inp : DataInput) : Res Loaded :=
  loadFST3 c o g fuel inp FST_DEFAULT_MAX_BLOCK_BITS

/-- Apply a function to the value of a normal return. -/
def Res.map {α β : Type} (f : α → β) : Res α → Res β
  | Res.ok a => Res.ok (f a)
  | Res.err e => Res.err e
  | Res.panic p => Res.panic p
  | Res.outOfFuel => Res.outOfFuel

/-! ## Sample automata -/

/-- An output value type for the examples: a value is an `int64` in
`0..255` stored in one byte, and `0` is the no-output value. -/
def sampleOutputs : Outputs :=
  { NoOutput := Value.int64 0,
    Read := do
      let b ← BytesReader.ReadByte
      pure (Value.int64 b),
    ReadFinalOutput := do
      let b ← BytesReader.ReadByte
      pure (Value.int64 b),
    SkipOutput := do
      let _ ← BytesReader.ReadByte
      pure (),
    SkipFinalOutput := do
      let _ ← BytesReader.ReadByte
      pure (),
    writeFinalOutput := fun v =>
      match v with
      | Value.int64 x => Except.ok [x.toNat % 256]
      | _ => Except.error (GoError.io 0),
    merge := fun a _ => a }

/-- An unfinished, unpacked FST with one-byte labels over the given body. -/
def sampleFst (body : List Nat) : FST :=
  { newFST sampleOutputs INPUT_TYPE_BYTE1 false true with bytes := some { data := body } }

/-- Body of an automaton accepting the one-byte keys 130, 140, 150, 160 and
170: after the padding byte, one node stored as a fixed array of five
records of stride 2 (flags, label).  The reverse reader meets the array
marker 32 at address 13, then the arc count 5 and the stride 2. -/
def arrayBody : List Nat := [0, 170, 11, 160, 9, 150, 9, 140, 9, 130, 9, 2, 5, 32]

/-- The five-key automaton, finished with start node 13. -/
def arrayFst : FST := ((sampleFst arrayBody).finish sampleOutputs (Value.int64 0) 16 13).1

/-- The arc `FirstArc` yields on an FST without empty output whose start node is `node`. -/
def rootArc (node : Int) : Arc :=
  { Arc.zero with flags := FST_BIT_LAST_ARC, Output := Value.int64 0,
                  NextFinalOutput := Value.int64 0, target := node }

/-- A fresh reverse reader over a body. -/
def readerOn (body : List Nat) : GoLucene.BytesReader := { data := body, pos := 0, reversed := true }

/-- Body of an automaton accepting the single one-byte key 200: one node in
linked encoding whose only arc (flags final, last, stop-node; label 200)
sits at address 2. -/
def linkedBody : List Nat := [0, 200, 11]

/-- The one-key automaton in linked encoding, finished with start node 2. -/
def linkedFst : FST := ((sampleFst linkedBody).finish sampleOutputs (Value.int64 0) 16 2).1

/-- The stride `FindTargetArc` reads from the header of the node `follow`
points to, when that node is stored as a fixed array and its header can be
read; `none` otherwise. -/
def FST.strideAt (t : FST) (follow : Arc) (rd : GoLucene.BytesReader) : Option Int :=
  match t.getNodeAddress follow.target with
  | Res.ok address =>
    match BytesReader.ReadByte { rd with pos := address } with
    | (Res.ok b, rd1) =>
      if b = FST_ARCS_AS_FIXED_ARRAY then
        match t.readArrayHeader Arc.zero rd1 with
        | (Res.ok header, _) => some header.bytesPerArc
        | _ => none
      else none
    | _ => none
  | _ => none

/-- A body whose node at address 7 has a fixed-array header announcing two
records of stride 0; the bytes 150 and 77 sit where labels are read. -/
def strideZeroBody : List Nat := [0, 77, 11, 150, 9, 0, 2, 32]

/-- The FST over the stride-0 body, finished with start node 7. -/
def strideZeroFst : FST := ((sampleFst strideZeroBody).finish sampleOutputs (Value.int64 0) 16 7).1

/-- The lookup result of the label 150 from the root of the five-key automaton. -/
def arrayLookup150 : Lookup :=
  { target := some ArcRef.arc,
    arc := { Label := 150, Output := Value.int64 0, node := 13, target := -1, flags := 9,
             NextFinalOutput := Value.int64 0, nextArc := 4, posArcsStart := 10,
             bytesPerArc := 2, arcIdx := 2, numArcs := 5 },
    rd := { data := arrayBody, pos := 4, reversed := true } }

/-- The bytes `Save` writes for the five-key automaton: header (12 bytes),
packed flag 0, empty-output presence 0, input type 0, the counters 13, 0,
0, 0, the body length 14 and the body. -/
def arraySaved : List Nat :=
  [63, 215, 108, 23, 3, 70, 83, 84, 0, 0, 0, 4, 0, 0, 0, 13, 0, 0, 0, 14,
   0, 170, 11, 160, 9, 150, 9, 140, 9, 130, 9, 2, 5, 32]

/-- An input stream over the given bytes that reports `EOF` at its end. -/
def streamOf (bs : List Nat) : DataInput := { rest := bs, failure := GoError.EOF }

/-- An output stream on which nothing was written and no write fails. -/
def freshOutput : DataOutput := { written := [], schedule := [] }

/-- A new FST under construction with no node written: only the padding byte. -/
def emptyFst : FST := newFST sampleOutputs INPUT_TYPE_BYTE1 false true

/-- The header `writeHeader` writes for format version 4. -/
def plainHeader : List Nat := [63, 215, 108, 23, 3, 70, 83, 84, 0, 0, 0, 4]

/-- The five-key automaton accepting the empty key as well, with output 7:
built over `arrayBody`, empty output set, finished with start node 13. -/
def emptyKeyFst : FST :=
  (((sampleFst arrayBody).setEmptyOutput sampleOutputs (Value.int64 7)).finish
    sampleOutputs (Value.int64 0) 16 13).1

/-! ## Node serialization -/

/-- The fields of the builder's `UnCompiledNode` (declared outside `fst.go`)
that `addNode` reads. -/
structure UnCompiledNode where
  NumArcs : Int
  IsFinal : Bool
deriving DecidableEq, Repr

/-- `FST.addNode`: the FST as the call leaves it, and the outcome.  The
call first prints `t.bytes.position()`. -/
def FST.addNode (t : FST) (nodeIn : UnCompiledNode) : FST × Res Int :=
  match t.bytes with
  | none => (t, Res.panic Panic.nilDereference)
  | some _ =>
    if nodeIn.NumArcs = 0 then
      if nodeIn.IsFinal then (t, Res.ok FST_FINAL_END_NODE)
      else (t, Res.ok FST_NON_FINAL_END_NODE)
    else (t, Res.panic Panic.notImplementedYet)

/-- `FST.NodeCount`. -/
def FST.NodeCount (t : FST) : Int := wrap64 (t.nodeCount + 1)

/-! ## The fields of an arc before its target -/

/-- The steps of `readNextRealArc` that come before the target: the seek to
the arc to decode, then the flags byte, the label, the output and the final
output. -/
def FST.readArcFields (o : Outputs) (t : FST) (arc : Arc) : StM GoLucene.BytesReader Arc := do
  let arc ← arc.seekRecord
  let flags ← BytesReader.ReadByte
  let label ← t.readLabel
  let arc ← Arc.readOutput o { arc with flags := flags, Label := label }
  Arc.readFinalOutput o arc

/-! ## The arcs of a node, in stored order -/

/-- The arcs of a node from a decoded arc on: that arc, then the arcs
`readNextRealArc` yields, up to and including the first one that carries
the last-arc flag. -/
def FST.arcsFrom (o : Outputs) (t : FST) (fuel : Nat) :
    Nat → Arc → GoLucene.BytesReader → Res (List Arc)
  | 0, _, _ => Res.outOfFuel
  | n + 1, arc, rd =>
    if arc.isLast then Res.ok [arc]
    else
      match t.readNextRealArc o fuel arc rd with
      | (Res.ok arc1, rd1) => (FST.arcsFrom o t fuel n arc1 rd1).map (fun rest => arc :: rest)
      | (Res.err e, _) => Res.err e
      | (Res.panic p, _) => Res.panic p
      | (Res.outOfFuel, _) => Res.outOfFuel

/-- The arcs leaving the start node, decoded the way `readRootArcs` decodes
them: from the arc of `FirstArc`, with `readFirstRealTargetArc` and then
`readNextRealArc`; no arcs when the start node is a stop sentinel. -/
def FST.rootArcs (o : Outputs) (g : Value) (t : FST) (fuel budget : Nat) : Res (List Arc) :=
  match t.FirstArc g Arc.zero with
  | Res.ok arc =>
    match t.BytesReader with
    | Res.ok rd =>
      if targetHasArcs arc then
        match t.readFirstRealTargetArc o fuel arc.target arc rd with
        | (Res.ok arc1, rd1) => t.arcsFrom o fuel budget arc1 rd1
        | (Res.err e, _) => Res.err e
        | (Res.panic p, _) => Res.panic p
        | (Res.outOfFuel, _) => Res.outOfFuel
      else Res.ok []
    | Res.err e => Res.err e
    | Res.panic p => Res.panic p
    | Res.outOfFuel => Res.outOfFuel
  | Res.err e => Res.err e
  | Res.panic p => Res.panic p
  | Res.outOfFuel => Res.outOfFuel

/-! ## Documents (`core/document/document.go`) -/

/-- A `model.IndexableField` as `Document` uses it: the results of its
`Name()` and `StringValue()` methods. -/
structure IndexableField where
  Name : String
  StringValue : String
deriving DecidableEq, Repr

/-- The `Document` struct. -/
structure Document where
  fields : List IndexableField
deriving DecidableEq, Repr

/-- `NewDocument`. -/
def NewDocument : Document := { fields := [] }

/-- `Document.Fields`. -/
def Document.Fields (doc : Document) : List IndexableField := doc.fields

/-- `Document.Add`. -/
def Document.Add (doc : Document) (field : IndexableField) : Document :=
  { doc with fields := doc.fields ++ [field] }

/-- The `range` loop of `Document.Get` over the fields still to visit. -/
def getLoop (name : String) : List IndexableField → String
  | [] => ""
  | field :: rest =>
    if field.Name = name ∧ field.StringValue ≠ "" then field.StringValue
    else getLoop name rest

/-- `Document.Get`. -/
def Document.Get (doc : Document) (name : String) : String := getLoop name doc.fields

/-! ## More sample automata -/

/-- A body whose node at address 9 is in linked encoding with the arcs
labelled 97 (flags final, stop-node), 98 (flags target-is-next) and 99
(flags final, last, stop-node), read by the reverse reader from address 9
down to address 4; below them, from address 3, a second node with the
single arc 100 (flags final, last, stop-node). -/
def linkedThreeBody : List Nat := [0, 0, 100, 11, 99, 11, 98, 4, 97, 9]

/-- The FST over `linkedThreeBody`, finished with start node 9. -/
def linkedThreeFst : FST :=
  ((sampleFst linkedThreeBody).finish sampleOutputs (Value.int64 0) 16 9).1


/-- A reverse reader over a body, at a position. -/
def readerAt (body : List Nat) (pos : Int) : GoLucene.BytesReader :=
  { data := body, pos := pos, reversed := true }

/-- The fields of the arc labelled 97 of `linkedThreeBody` before its target
is resolved, decoded from a cursor whose `nextArc` is 9. -/
def fields97 : Arc :=
  { Arc.zero with nextArc := 9, flags := 9, Label := 97, Output := Value.int64 0,
                  NextFinalOutput := Value.int64 0 }

/-- The fields of the arc labelled 98 of `linkedThreeBody` before its target
is resolved, decoded from a cursor whose `nextArc` is 7. -/
def fields98 : Arc :=
  { Arc.zero with nextArc := 7, flags := 4, Label := 98, Output := Value.int64 0,
                  NextFinalOutput := Value.int64 0 }

/-- An arc of the start node of `linkedThreeFst` as the decoders return it. -/
def linkedThreeArc (label target : Int) (flags : Nat) (nextArc : Int) : Arc :=
  { Arc.zero with Label := label, Output := Value.int64 0, node := 9, target := target,
                  flags := flags, NextFinalOutput := Value.int64 0, nextArc := nextArc }

/-- The three arcs of the start node of `linkedThreeFst`, in stored order. -/
def linkedThreeArcs : List Arc :=
  [linkedThreeArc 97 (-1) 9 7, linkedThreeArc 98 3 4 5, linkedThreeArc 99 (-1) 11 3]

/-! ## Bodies that end inside an arc -/

/-- A body that ends after the flags byte of an arc: the reverse reader
finds the flags 11 (final, last, stop-node) at address 0 and no label byte
behind it. -/
def cutBody : List Nat := [11]

/-- The arc `readNextRealArc` hands back on `cutBody`. -/
def cutArc : Arc :=
  { Arc.zero with flags := 11, Output := Value.int64 0, NextFinalOutput := Value.int64 0,
                  target := -1, nextArc := -1 }

/-- A body whose node at address 3 announces a fixed array of three records
of stride 5 (marker 32, arc count 3, stride 5) that are not there: the
records would lie below address 0. -/
def cutArrayBody : List Nat := [0, 5, 3, 32]

/-- The cursor `FindTargetArc` leaves on `cutArrayBody`. -/
def cutArrayCursor : Arc :=
  { Arc.zero with node := 3, bytesPerArc := 5, numArcs := 3 }

/-! ## An arc with an explicit target -/

/-- A body whose arc at address 3 (flags last-arc only, label 100) stores
its target, 7, as a variable-length long at address 1. -/
def explicitBody : List Nat := [0, 7, 100, 2]

/-- The fields of that arc before its target is resolved, decoded from a
cursor whose `nextArc` is 3. -/
def explicitFields : Arc :=
  { Arc.zero with nextArc := 3, flags := 2, Label := 100, Output := Value.int64 0,
                  NextFinalOutput := Value.int64 0 }

/-! ## The rounds of the binary search -/

/-- How the binary search loop of `FindTargetArc` is left: by the loop
condition (not found), by a probe whose label equals the label wanted
(`mid` is its index, the reader stands behind its label), or by a label
read that does not return a label. -/
inductive SearchEnd
  | notFound (rd : GoLucene.BytesReader)
  | found (mid : Int) (rd : GoLucene.BytesReader)
  | labelError (e : GoError)
  | labelPanic (p : Panic)
  | labelOutOfFuel
deriving DecidableEq, Repr

/-- The loop of `binarySearch`, round for round with the same conditions
and the same reader moves, that hands back how the loop is left instead of
acting on it, together with the index `mid` and the reader position of the
label read of every round; `none` when the budget of rounds runs out.
`binarySearch` is `searchResult` of what this loop hands back. -/
def FST.searchRounds (t : FST) (labelToMatch : Int) (arc : Arc) :
    Nat → Int → Int → GoLucene.BytesReader → Option (List (Int × Int) × SearchEnd)
  | 0, _, _, _ => none
  | n + 1, low, high, rd =>
    if low < high then
      let mid := midpoint low high
      let rd1 := (BytesReader.setPosition arc.posArcsStart rd).2
      let rd2 := (BytesReader.skipBytes (wrap64 (wrap64 (arc.bytesPerArc * mid) + 1)) rd1).2
      match t.readLabel rd2 with
      | (Res.ok midLabel, rd3) =>
        let cmp := wrap64 (midLabel - labelToMatch)
        if cmp < 0 then
          (FST.searchRounds t labelToMatch arc n (wrap64 (mid + 1)) high rd3).map
            (fun r => ((mid, rd2.pos) :: r.1, r.2))
        else if cmp > 0 then
          (FST.searchRounds t labelToMatch arc n low (wrap64 (mid - 1)) rd3).map
            (fun r => ((mid, rd2.pos) :: r.1, r.2))
        else some ([(mid, rd2.pos)], SearchEnd.found mid rd3)
      | (Res.err e, _) => some ([(mid, rd2.pos)], SearchEnd.labelError e)
      | (Res.panic p, _) => some ([(mid, rd2.pos)], SearchEnd.labelPanic p)
      | (Res.outOfFuel, _) => some ([(mid, rd2.pos)], SearchEnd.labelOutOfFuel)
    else some ([], SearchEnd.notFound rd)

/-- What `binarySearch` returns once its loop is left: not-found with the
cursor as it is, the arc `readNextRealArc` decodes at the matched index, or
the failure of the label read. -/
def FST.searchResult (o : Outputs) (t : FST) (fuel : Nat) (arc : Arc) : SearchEnd → Res Lookup
  | SearchEnd.notFound rd => Res.ok { target := none, arc := arc, rd := rd }
  | SearchEnd.found mid rd3 =>
    match t.readNextRealArc o fuel { arc with arcIdx := wrap64 (mid - 1) } rd3 with
    | (Res.ok arc1, rd4) => Res.ok { target := some ArcRef.arc, arc := arc1, rd := rd4 }
    | (Res.err e, _) => Res.err e
    | (Res.panic p, _) => Res.panic p
    | (Res.outOfFuel, _) => Res.outOfFuel
  | SearchEnd.labelError e => Res.err e
  | SearchEnd.labelPanic p => Res.panic p
  | SearchEnd.labelOutOfFuel => Res.outOfFuel

/-- The header `FindTargetArc` reads on `strideZeroBody` behind the marker
byte: two records of stride 0, starting at address 4. -/
def strideZeroHeader : Arc :=
  { Arc.zero with numArcs := 2, bytesPerArc := 0, posArcsStart := 4 }

/-- The header `FindTargetArc` reads on `arrayBody` behind the marker byte:
five records of stride 2, starting at address 10. -/
def arrayHeader : Arc :=
  { Arc.zero with numArcs := 5, bytesPerArc := 2, posArcsStart := 10 }

/-! ## A cursor for the root shortcut -/

/-- A cursor that carries values of an earlier use. -/
def usedCursor : Arc := { Arc.zero with target := 77, flags := 1, numArcs := 6 }

/-- The cursor `usedCursor` after the arc labelled 98 of `linkedThreeFst`
has been copied into it from the root cache: the arc count, a fixed-array
field, is the one the cursor had. -/
def usedCursor98 : Arc := { linkedThreeArc 98 3 4 5 with numArcs := 6 }

/-! ## Notions used in the statements and proofs -/

/-- Two readers over the same bytes in the same direction. -/
def SameStore (a b : GoLucene.BytesReader) : Prop := a.data = b.data ∧ a.reversed = b.reversed

/-- A reader computation that never touches the bytes or the direction. -/
def KeepsStore {α : Type} (m : StM GoLucene.BytesReader α) : Prop :=
  ∀ rd, SameStore rd (m rd).2

/-- A result that is a value or an error: the call returned. -/
def Res.Returned {α : Type} : Res α → Prop
  | Res.ok _ => True
  | Res.err _ => True
  | Res.panic _ => False
  | Res.outOfFuel => False

/-- A computation that returns, with a value or an error, from every state. -/
def AlwaysReturns {σ α : Type} (m : StM σ α) : Prop :=
  ∀ s, Res.Returned (m s).1

/-- The reader position `readNextRealArc` decodes a record of a fixed array at. -/
def recordStart (arc : Arc) (rd : GoLucene.BytesReader) : GoLucene.BytesReader :=
  { rd with pos := wrap64 (if rd.reversed
      then arc.posArcsStart - wrap64 (wrap64 (arc.arcIdx + 1) * arc.bytesPerArc)
      else arc.posArcsStart + wrap64 (wrap64 (arc.arcIdx + 1) * arc.bytesPerArc)) }

/-- Each non-nil entry of the slice carries the label that is its index. -/
def LabelIndexed (arcs : List (Option Arc)) : Prop :=
  ∀ (i : Nat) (a : Arc), arcs.getD i none = some a → a.Label = (i : Int)

/-- Two FSTs that agree on every field the decoders read: all but the two
root-arc caches, `allowArrayArcs`, the counters and `inCounts`. -/
structure SameCode (a b : FST) : Prop where
  inputType : a.inputType = b.inputType
  emptyOutput : a.emptyOutput = b.emptyOutput
  bytes : a.bytes = b.bytes
  startNode : a.startNode = b.startNode
  noOutput : a.NO_OUTPUT = b.NO_OUTPUT
  packed : a.packed = b.packed
  table : a.nodeRefToAddress = b.nodeRefToAddress
  version : a.version = b.version
  nodeAddress : a.nodeAddress = b.nodeAddress

/-- The header utility round-trips: on an output that does not fail
`WriteHeader` appends the bytes `hdr` for the current version, and
`CheckHeader` reads them back as that version and leaves what follows. -/
def Codec.HeaderRoundTrip (c : Codec) (hdr : List Nat) : Prop :=
  (∀ written, c.WriteHeader VERSION_CURRENT { written := written, schedule := [] }
      = (none, { written := written ++ hdr, schedule := [] }))
  ∧ ∀ rest failure,
      c.CheckHeader FST_VERSION_PACKED FST_VERSION_VINT_TARGET { rest := hdr ++ rest, failure := failure }
        = (Res.ok VERSION_CURRENT, { rest := rest, failure := failure })

/-- The output value type round-trips on the value `v`: `writeFinalOutput`
writes the bytes `bs`, and `ReadFinalOutput` gets `v` back from them when
they are stored reversed and read through the reverse reader of an
unpacked FST. -/
def Outputs.FinalOutputRoundTrip (o : Outputs) (v : Value) (bs : List Nat) : Prop :=
  o.writeFinalOutput v = Except.ok bs
  ∧ bs.length < 2147483648
  ∧ (∀ b ∈ bs, b < 256)
  ∧ (o.ReadFinalOutput (emptyOutputReader false { data := bs.reverse } bs.length)).1 = Res.ok v

/-- A finished, unpacked FST created for building, whose body is `body`:
format version current, no node-address tables, a start node and counters
that are non-negative `int64`s, a one-, two- or four-byte input type, and
root-arc caches as `cacheRootArcs` computes them on it. -/
structure FST.BuiltAndFinished (o : Outputs) (g : Value) (fuel : Nat) (t : FST) (body : List Nat) :
    Prop where
  version : t.version = VERSION_CURRENT
  unpacked : t.packed = false
  noTable : t.nodeRefToAddress = none
  noAddress : t.nodeAddress = none
  noCounts : t.inCounts = none
  noOutput : t.NO_OUTPUT = o.NoOutput
  inputType : t.inputType = INPUT_TYPE_BYTE1 ∨ t.inputType = INPUT_TYPE_BYTE2
    ∨ t.inputType = INPUT_TYPE_BYTE4
  startNode : 0 ≤ t.startNode ∧ t.startNode < 9223372036854775808
  nodeCount : 0 ≤ t.nodeCount ∧ t.nodeCount < 9223372036854775808
  arcCount : 0 ≤ t.arcCount ∧ t.arcCount < 9223372036854775808
  arcWithOutputCount : 0 ≤ t.arcWithOutputCount ∧ t.arcWithOutputCount < 9223372036854775808
  store : t.bytes = some { data := body }
  bodyBytes : ∀ b ∈ body, b < 256
  bodyLength : (body.length : Int) < 9223372036854775808
  cached : ∃ r, t.cacheRootArcs o g fuel = (t, r) ∧ (r = Res.ok () ∨ ∃ e, r = Res.err e)

/-- The empty-output field of the saved format for an unpacked FST: the
presence byte, and for a present output the byte count and the bytes `bs`
of the output in reverse order. -/
def savedEmptyOutput (t : FST) (bs : List Nat) : List Nat :=
  if t.emptyOutput = Value.nil then [0]
  else 1 :: (vint (wrap32 bs.length) ++ bs.reverse)

/-- The input-type byte of the saved format. -/
def savedInputType (t : FST) : Nat :=
  if t.inputType = INPUT_TYPE_BYTE1 then 0 else if t.inputType = INPUT_TYPE_BYTE2 then 1 else 2

/-- The saved format of an unpacked FST: header, packed flag 0, empty
output, input type, the four counters, body length and body. -/
def savedLayout (hdr : List Nat) (t : FST) (bs body : List Nat) : List Nat :=
  hdr ++ (0 :: (savedEmptyOutput t bs ++ (savedInputType t :: (vlong t.startNode
    ++ (vlong t.nodeCount ++ (vlong t.arcCount ++ (vlong t.arcWithOutputCount
    ++ (vlong (body.length : Int) ++ body))))))))

/-- The FST `loadFST3` has filled in from the saved format of the unpacked
FST `t` with body `body` at the moment it calls `cacheRootArcs`. -/
def FST.reloaded (o : Outputs) (t : FST) (body : List Nat) : FST :=
  { FST.blank with version := VERSION_CURRENT, packed := decide (0 % 256 = 1),
                   emptyOutput := t.emptyOutput, inputType := t.inputType,
                   startNode := t.startNode, nodeCount := t.nodeCount,
                   arcCount := t.arcCount, arcWithOutputCount := t.arcWithOutputCount,
                   bytes := some { data := body }, NO_OUTPUT := o.NoOutput }

/-! ## Machine arithmetic -/

theorem wrap64_idem (x : Int) : wrap64 (wrap64 x) = wrap64 x := by
  unfold wrap64; omega

theorem wrap64_of_range (x : Int) (h : IsInt64 x) : wrap64 x = x := by
  unfold IsInt64 at h; unfold wrap64; omega

theorem wrap64_range (x : Int) : IsInt64 (wrap64 x) := by
  unfold IsInt64 wrap64; omega

theorem wrap64_eq_zero_sub {a b : Int} (ha : IsInt64 a) (hb : IsInt64 b)
    (h : wrap64 (a - b) = 0) : a = b := by
  unfold IsInt64 at ha hb; unfold wrap64 at h; omega

theorem wrap32_range (x : Int) : IsInt64 (wrap32 x) := by
  unfold IsInt64 wrap32; omega

theorem wrap16_range (x : Int) : IsInt64 (wrap16 x) := by
  unfold IsInt64 wrap16; omega

/-! ## The state monad -/

@[simp] theorem StM.pure_apply {σ α : Type} (a : α) (s : σ) :
    (pure a : StM σ α) s = (Res.ok a, s) := rfl

theorem StM.bind_apply {σ α β : Type} (m : StM σ α) (f : α → StM σ β) (s : σ) :
    (m >>= f) s =
      match m s with
      | (Res.ok a, s1) => f a s1
      | (Res.err e, s1) => (Res.err e, s1)
      | (Res.panic p, s1) => (Res.panic p, s1)
      | (Res.outOfFuel, s1) => (Res.outOfFuel, s1) := rfl

theorem StM.bind_ok {σ α β : Type} {m : StM σ α} {f : α → StM σ β} {s s1 : σ} {a : α}
    (h : m s = (Res.ok a, s1)) : (m >>= f) s = f a s1 := by
  rw [StM.bind_apply, h]

/-- A bind returns normally only if both of its parts do. -/
theorem StM.bind_eq_ok {σ α β : Type} {m : StM σ α} {f : α → StM σ β} {s s2 : σ} {b : β}
    (h : (m >>= f) s = (Res.ok b, s2)) :
    ∃ a s1, m s = (Res.ok a, s1) ∧ f a s1 = (Res.ok b, s2) := by
  rw [StM.bind_apply] at h
  split at h
  · next a s1 hm => exact ⟨a, s1, hm, h⟩
  · simp at h
  · simp at h
  · simp at h

/-! ## The byte reader keeps its store -/

theorem SameStore.refl (a : GoLucene.BytesReader) : SameStore a a := ⟨rfl, rfl⟩

theorem SameStore.trans {a b c : GoLucene.BytesReader} (h1 : SameStore a b) (h2 : SameStore b c) :
    SameStore a c := ⟨h1.1.trans h2.1, h1.2.trans h2.2⟩

theorem KeepsStore.pure {α : Type} (a : α) : KeepsStore (pure a : StM GoLucene.BytesReader α) :=
  fun rd => SameStore.refl rd

theorem KeepsStore.bind {α β : Type} {m : StM GoLucene.BytesReader α}
    {f : α → StM GoLucene.BytesReader β} (hm : KeepsStore m) (hf : ∀ a, KeepsStore (f a)) :
    KeepsStore (m >>= f) := by
  intro rd
  have h := hm rd
  rw [StM.bind_apply]
  split
  · next a s1 heq =>
      rw [heq] at h
      exact h.trans (hf a s1)
  · next e s1 heq => rw [heq] at h; exact h
  · next p s1 heq => rw [heq] at h; exact h
  · next s1 heq => rw [heq] at h; exact h

theorem KeepsStore.ReadByte : KeepsStore BytesReader.ReadByte := by
  intro rd
  unfold BytesReader.ReadByte
  split <;> exact ⟨rfl, rfl⟩

theorem KeepsStore.err {α : Type} (e : GoError) :
    KeepsStore (StM.err e : StM GoLucene.BytesReader α) := fun rd => SameStore.refl rd

theorem KeepsStore.readBE (k acc : Nat) : KeepsStore (readBE BytesReader.ReadByte k acc) := by
  induction k generalizing acc with
  | zero => exact KeepsStore.pure acc
  | succ k ih =>
    unfold GoLucene.readBE
    exact KeepsStore.bind KeepsStore.ReadByte (fun b => ih _)

theorem KeepsStore.readVar (k shift acc : Nat) :
    KeepsStore (readVar BytesReader.ReadByte k shift acc) := by
  induction k generalizing shift acc with
  | zero => exact KeepsStore.err _
  | succ k ih =>
    unfold GoLucene.readVar
    refine KeepsStore.bind KeepsStore.ReadByte (fun b => ?_)
    split
    · exact KeepsStore.pure _
    · exact ih _ _

theorem KeepsStore.ReadShort : KeepsStore BytesReader.ReadShort :=
  KeepsStore.bind (KeepsStore.readBE 2 0) (fun _ => KeepsStore.pure _)

theorem KeepsStore.ReadVInt : KeepsStore BytesReader.ReadVInt :=
  KeepsStore.bind (KeepsStore.readVar 5 0 0) (fun _ => KeepsStore.pure _)

theorem KeepsStore.readLabel (t : FST) : KeepsStore t.readLabel := by
  intro rd
  unfold FST.readLabel
  split
  · have h := KeepsStore.ReadByte rd
    split <;> simp_all
  · split
    · have h := KeepsStore.ReadShort rd
      split <;> simp_all
    · exact KeepsStore.ReadVInt rd

/-- Two readers over the same store at the same position are the same reader. -/
theorem reader_ext {a b : GoLucene.BytesReader} (h : SameStore a b) (hp : a.pos = b.pos) : a = b := by
  cases a; cases b
  obtain ⟨h1, h2⟩ := h
  simp_all

/-! ## Labels are machine integers -/

theorem readLabel_range (t : FST) (rd rd1 : GoLucene.BytesReader) (l : Int)
    (h : t.readLabel rd = (Res.ok l, rd1)) : IsInt64 l := by
  unfold FST.readLabel at h
  split at h
  · split at h
    · next b r1 hb =>
        simp only [Prod.mk.injEq, Res.ok.injEq] at h
        have hb' : BytesReader.ReadByte rd = (Res.ok b, r1) := hb
        unfold BytesReader.ReadByte at hb'
        split at hb'
        · simp only [Prod.mk.injEq, Res.ok.injEq] at hb'
          unfold IsInt64
          omega
        · simp at hb'
    · simp only [Prod.mk.injEq, Res.ok.injEq] at h
      unfold IsInt64; omega
    · simp at h
    · simp at h
  · split at h
    · split at h
      · next s r1 hs =>
          simp only [Prod.mk.injEq, Res.ok.injEq] at h
          have hs' : BytesReader.ReadShort rd = (Res.ok s, r1) := hs
          unfold BytesReader.ReadShort readShortWith at hs'
          obtain ⟨v, s1, _, h2⟩ := StM.bind_eq_ok hs'
          simp only [StM.pure_apply, Prod.mk.injEq, Res.ok.injEq] at h2
          rw [← h.1, ← h2.1]
          exact wrap16_range _
      · simp only [Prod.mk.injEq, Res.ok.injEq] at h
        unfold IsInt64; omega
      · simp at h
      · simp at h
    · unfold BytesReader.ReadVInt readVIntWith at h
      obtain ⟨v, s1, _, h2⟩ := StM.bind_eq_ok h
      simp only [StM.pure_apply, Prod.mk.injEq, Res.ok.injEq] at h2
      rw [← h2.1]
      exact wrap32_range _

/-! ## Where `readNextRealArc` takes the label from -/

theorem seekRecord_array (arc : Arc) (rd : GoLucene.BytesReader) (hstride : arc.bytesPerArc ≠ 0) :
    arc.seekRecord rd = (Res.ok { arc with arcIdx := wrap64 (arc.arcIdx + 1) }, recordStart arc rd) := by
  unfold Arc.seekRecord
  simp only [hstride, ne_eq, not_false_eq_true, if_true]
  rfl

theorem readOutput_keeps (o : Outputs) (arc arc1 : Arc) (rd rd1 : GoLucene.BytesReader)
    (h : Arc.readOutput o arc rd = (Res.ok arc1, rd1)) :
    arc1.Label = arc.Label ∧ arc1.bytesPerArc = arc.bytesPerArc ∧ arc1.flags = arc.flags := by
  unfold Arc.readOutput at h
  split at h
  · obtain ⟨v, s1, _, h2⟩ := StM.bind_eq_ok h
    simp only [StM.pure_apply, Prod.mk.injEq, Res.ok.injEq] at h2
    rw [← h2.1]; exact ⟨rfl, rfl, rfl⟩
  · simp only [StM.pure_apply, Prod.mk.injEq, Res.ok.injEq] at h
    rw [← h.1]; exact ⟨rfl, rfl, rfl⟩

theorem readFinalOutput_keeps (o : Outputs) (arc arc1 : Arc) (rd rd1 : GoLucene.BytesReader)
    (h : Arc.readFinalOutput o arc rd = (Res.ok arc1, rd1)) :
    arc1.Label = arc.Label ∧ arc1.bytesPerArc = arc.bytesPerArc ∧ arc1.flags = arc.flags := by
  unfold Arc.readFinalOutput at h
  split at h
  · obtain ⟨v, s1, _, h2⟩ := StM.bind_eq_ok h
    simp only [StM.pure_apply, Prod.mk.injEq, Res.ok.injEq] at h2
    rw [← h2.1]; exact ⟨rfl, rfl, rfl⟩
  · simp only [StM.pure_apply, Prod.mk.injEq, Res.ok.injEq] at h
    rw [← h.1]; exact ⟨rfl, rfl, rfl⟩

theorem resolveTarget_keeps (o : Outputs) (t : FST) (fuel : Nat) (arc arc1 : Arc)
    (rd rd1 : GoLucene.BytesReader) (h : t.resolveTarget o fuel arc rd = (Res.ok arc1, rd1)) :
    arc1.Label = arc.Label ∧ arc1.bytesPerArc = arc.bytesPerArc ∧ arc1.flags = arc.flags := by
  unfold FST.resolveTarget at h
  split at h
  · obtain ⟨v, s1, _, h2⟩ := StM.bind_eq_ok h
    simp only [StM.pure_apply, Prod.mk.injEq, Res.ok.injEq] at h2
    rw [← h2.1]; exact ⟨rfl, rfl, rfl⟩
  · split at h
    · obtain ⟨v, s1, _, h⟩ := StM.bind_eq_ok h
      split at h
      · obtain ⟨v2, s2, _, h⟩ := StM.bind_eq_ok h
        obtain ⟨v3, s3, _, h2⟩ := StM.bind_eq_ok h
        simp only [StM.pure_apply, Prod.mk.injEq, Res.ok.injEq] at h2
        rw [← h2.1]; exact ⟨rfl, rfl, rfl⟩
      · simp only [StM.pure_apply, Prod.mk.injEq, Res.ok.injEq] at h
        rw [← h.1]; exact ⟨rfl, rfl, rfl⟩
    · obtain ⟨v, s1, _, h⟩ := StM.bind_eq_ok h
      obtain ⟨v3, s3, _, h2⟩ := StM.bind_eq_ok h
      simp only [StM.pure_apply, Prod.mk.injEq, Res.ok.injEq] at h2
      rw [← h2.1]; exact ⟨rfl, rfl, rfl⟩

/-- `readNextRealArc` on a fixed array takes flags and label from the record
at index `arcIdx + 1`, and leaves the stride as it is. -/
theorem readNextRealArc_label (o : Outputs) (t : FST) (fuel : Nat) (arc arc1 : Arc)
    (rd rd1 : GoLucene.BytesReader) (hstride : arc.bytesPerArc ≠ 0)
    (h : t.readNextRealArc o fuel arc rd = (Res.ok arc1, rd1)) :
    ∃ flags rdA rdB, BytesReader.ReadByte (recordStart arc rd) = (Res.ok flags, rdA)
      ∧ t.readLabel rdA = (Res.ok arc1.Label, rdB) ∧ arc1.bytesPerArc = arc.bytesPerArc := by
  unfold FST.readNextRealArc at h
  obtain ⟨arcA, sA, hA, h⟩ := StM.bind_eq_ok h
  rw [seekRecord_array arc rd hstride] at hA
  simp only [Prod.mk.injEq, Res.ok.injEq] at hA
  obtain ⟨flags, sB, hB, h⟩ := StM.bind_eq_ok h
  obtain ⟨label, sC, hC, h⟩ := StM.bind_eq_ok h
  obtain ⟨arcD, sD, hD, h⟩ := StM.bind_eq_ok h
  obtain ⟨arcE, sE, hE, h⟩ := StM.bind_eq_ok h
  have k1 := readOutput_keeps o _ _ _ _ hD
  have k2 := readFinalOutput_keeps o _ _ _ _ hE
  have k3 := resolveTarget_keeps o t fuel _ _ _ _ h
  refine ⟨flags, sB, sC, ?_, ?_, ?_⟩
  · rw [hA.2]; exact hB
  · rw [k3.1, k2.1, k1.1]; exact hC
  · rw [k3.2.1, k2.2.1, k1.2.1, ← hA.1]


/-! ## The binary search returns the record it matched -/

/-- The position the binary search reads the label of record `mid` at is
the position `readNextRealArc` reaches after the flags byte of that record. -/
theorem probe_position (P X p1 : Int) (rev : Bool)
    (hp : p1 = wrap64 (if rev then P - wrap64 X else P + wrap64 X)) :
    wrap64 (if rev then p1 - 1 else p1 + 1)
      = wrap64 (if rev then P - wrap64 (wrap64 X + 1) else P + wrap64 (wrap64 X + 1)) := by
  subst hp
  cases rev <;> simp only [if_true, if_false, Bool.false_eq_true] <;> unfold wrap64 <;> omega

theorem binarySearch_found_label (o : Outputs) (t : FST) (fuel : Nat) (label : Int) (arc : Arc)
    (hstride : arc.bytesPerArc ≠ 0) (hlabel : IsInt64 label) :
    ∀ (n : Nat) (low high : Int) (rd : GoLucene.BytesReader) (lk : Lookup),
      t.binarySearch o fuel label arc n low high rd = Res.ok lk →
      lk.target = none ∨ (lk.target = some ArcRef.arc ∧ lk.arc.Label = label) := by
  intro n
  induction n with
  | zero => intro low high rd lk h; simp [FST.binarySearch] at h
  | succ n ih =>
    intro low high rd lk h
    unfold FST.binarySearch at h
    split at h
    · simp only at h
      split at h
      · next midLabel rd3 hlab =>
          split at h
          · exact ih _ _ _ _ h
          · split at h
            · exact ih _ _ _ _ h
            · next hneg hpos =>
                split at h
                · next arc1 rd4 hnext =>
                    simp only [Res.ok.injEq] at h
                    subst h
                    right
                    refine ⟨rfl, ?_⟩
                    have hcmp : wrap64 (midLabel - label) = 0 := by omega
                    have hmid : midLabel = label :=
                      wrap64_eq_zero_sub (readLabel_range t _ _ _ hlab) hlabel hcmp
                    obtain ⟨flags, rdA, rdB, hA, hB, _⟩ :=
                      readNextRealArc_label o t fuel
                        { arc with arcIdx := wrap64 (midpoint low high - 1) } arc1 rd3 rd4 hstride hnext
                    -- the reader after the flags byte is the reader the probe read from
                    have hstore := KeepsStore.readLabel t
                      (BytesReader.skipBytes (wrap64 (wrap64 (arc.bytesPerArc * midpoint low high) + 1))
                        (BytesReader.setPosition arc.posArcsStart rd).2).2
                    rw [hlab] at hstore
                    unfold BytesReader.ReadByte at hA
                    split at hA
                    · simp only [Prod.mk.injEq, Res.ok.injEq] at hA
                      have hsame : rdA = (BytesReader.skipBytes
                          (wrap64 (wrap64 (arc.bytesPerArc * midpoint low high) + 1))
                          (BytesReader.setPosition arc.posArcsStart rd).2).2 := by
                        apply reader_ext
                        · rw [← hA.2]
                          exact ⟨hstore.1.symm, hstore.2.symm⟩
                        · rw [← hA.2]
                          simp only [recordStart, BytesReader.skipBytes, BytesReader.setPosition]
                          have hidx : wrap64 (wrap64 (midpoint low high - 1) + 1) = midpoint low high := by
                            unfold midpoint wrap64; omega
                          rw [hidx, ← hstore.2, mul_comm (midpoint low high) arc.bytesPerArc]
                          exact probe_position _ _ _ _ rfl
                      rw [hsame, hlab] at hB
                      simp only [Prod.mk.injEq, Res.ok.injEq] at hB
                      rw [← hB.1, hmid]
                    · simp at hA
                · simp at h
                · simp at h
                · simp at h
      · simp at h
      · simp at h
      · simp at h
    · simp only [Res.ok.injEq] at h
      subst h
      left; rfl


/-! ## Every cached root arc sits in the slot of its label -/

theorem LabelIndexed.replicate (n : Nat) : LabelIndexed (List.replicate n none) := by
  intro i a h
  rw [List.getD_eq_getElem?_getD, List.getElem?_replicate] at h
  split at h <;> simp at h

theorem LabelIndexed.set {arcs : List (Option Arc)} (h : LabelIndexed arcs) (k : Nat) (a : Arc)
    (ha : a.Label = (k : Int)) : LabelIndexed (arcs.set k (some a)) := by
  intro i b hb
  rw [List.getD_eq_getElem?_getD, List.getElem?_set] at hb
  split at hb
  · next hik =>
      split at hb
      · simp only [Option.getD_some, Option.some.injEq] at hb
        rw [← hb, ha, hik]
      · simp at hb
  · exact h i b (by rw [List.getD_eq_getElem?_getD]; exact hb)

theorem copyFrom_label (arc other : Arc) : (arc.copyFrom other).Label = other.Label := by
  unfold Arc.copyFrom
  split <;> rfl

theorem readRootArcsLoop_labelIndexed (o : Outputs) (t : FST) (fuel : Nat) :
    ∀ (n : Nat) (arcs : List (Option Arc)) (arc : Arc) (rd : GoLucene.BytesReader),
      LabelIndexed arcs → LabelIndexed (t.readRootArcsLoop o fuel n arcs arc rd).1 := by
  intro n
  induction n with
  | zero => intro arcs arc rd h; simpa [FST.readRootArcsLoop] using h
  | succ n ih =>
    intro arcs arc rd h
    unfold FST.readRootArcsLoop
    split
    · exact h
    · split
      · exact h
      · split
        · exact h
        · next hidx =>
            have hset : LabelIndexed (arcs.set arc.Label.toNat (some (Arc.zero.copyFrom arc))) := by
              apply h.set
              rw [copyFrom_label]
              have : 0 ≤ arc.Label := by
                by_contra hc
                exact hidx (fun hh => hc hh.1)
              omega
            simp only
            split
            · exact hset
            · split
              · exact ih _ _ _ hset
              · exact hset
              · exact hset
              · exact hset

theorem readRootArcs_labelIndexed (o : Outputs) (g : Value) (t : FST) (fuel : Nat)
    (arcs : List (Option Arc)) (h : LabelIndexed arcs) :
    LabelIndexed (t.readRootArcs o g fuel arcs).1 := by
  unfold FST.readRootArcs
  split
  · split
    · split
      · split
        · exact readRootArcsLoop_labelIndexed o t fuel _ _ _ _ h
        · exact h
        · exact h
        · exact h
      · exact h
    · exact h
    · exact h
    · exact h
  · exact h
  · exact h
  · exact h

/-- Whatever its outcome, `cacheRootArcs` leaves a cache in which every
entry sits in the slot of its label. -/
theorem cacheRootArcs_labelIndexed (o : Outputs) (g : Value) (fuel : Nat) (t : FST) :
    ∃ arcs, (t.cacheRootArcs o g fuel).1.cachedRootArcs = some arcs ∧ LabelIndexed arcs := by
  have key := readRootArcs_labelIndexed o g
    { t with cachedRootArcs := some (List.replicate 128 none) } fuel
    (List.replicate 128 none) (LabelIndexed.replicate 128)
  unfold FST.cacheRootArcs
  simp only
  split
  · next arcs p heq => rw [heq] at key; exact ⟨arcs, rfl, key⟩
  · next arcs heq => rw [heq] at key; exact ⟨arcs, rfl, key⟩
  · next arcs r _ _ heq =>
      rw [heq] at key
      split
      · exact ⟨arcs, rfl, key⟩
      · exact ⟨arcs, rfl, key⟩

/-! ## Variable-length integers round-trip through a stream -/

theorem DataInput.ReadByte_cons (b : Nat) (rest : List Nat) (f : GoError) :
    DataInput.ReadByte { rest := b :: rest, failure := f }
      = (Res.ok (b % 256), { rest := rest, failure := f }) := rfl

/-- Reading back what `encodeVar` wrote gives the value and leaves the rest
of the stream, whenever the value fits the bytes the reader may take. -/
theorem readVar_encodeVar (f : GoError) :
    ∀ (k j n shift acc : Nat) (rest : List Nat), n < 2 ^ (7 * (k + 1)) → k ≤ j →
      readVar DataInput.ReadByte (k + 1) shift acc { rest := encodeVar j n ++ rest, failure := f }
        = (Res.ok (acc + n * 2 ^ shift), { rest := rest, failure := f }) := by
  intro k
  induction k with
  | zero =>
    intro j n shift acc rest hn _
    have hn' : n < 128 := by simpa using hn
    have henc : encodeVar j n = [n] := by
      cases j with
      | zero => simp [encodeVar]; omega
      | succ j => simp [encodeVar, hn']
    rw [henc]
    unfold readVar
    rw [StM.bind_apply]
    simp only [List.singleton_append, DataInput.ReadByte_cons]
    have : n % 256 = n := by omega
    simp [this, hn']
  | succ k ih =>
    intro j n shift acc rest hn hj
    obtain ⟨j', rfl⟩ : ∃ j', j = j' + 1 := ⟨j - 1, by omega⟩
    unfold readVar encodeVar
    by_cases h128 : n < 128
    · rw [StM.bind_apply]
      simp only [h128, if_true, List.singleton_append, DataInput.ReadByte_cons]
      have : n % 256 = n := by omega
      simp [this, h128]
    · rw [StM.bind_apply]
      simp only [h128, if_false, List.cons_append, DataInput.ReadByte_cons]
      have hb : (n % 128 + 128) % 256 = n % 128 + 128 := by omega
      have hb2 : ¬ (n % 128 + 128 < 128) := by omega
      have hb3 : (n % 128 + 128) % 128 = n % 128 := by omega
      simp only [hb, hb2, if_false, hb3]
      have hdiv : n / 128 < 2 ^ (7 * (k + 1)) := by
        have : 2 ^ (7 * (k + 1 + 1)) = 128 * 2 ^ (7 * (k + 1)) := by
          rw [show 7 * (k + 1 + 1) = 7 + 7 * (k + 1) by ring, pow_add]; norm_num
        rw [this] at hn
        exact Nat.div_lt_of_lt_mul hn
      rw [ih j' (n / 128) (shift + 7) _ rest hdiv (by omega)]
      have hsplit : n % 128 * 2 ^ shift + n / 128 * 2 ^ (shift + 7) = n * 2 ^ shift := by
        have h1 : n = 128 * (n / 128) + n % 128 := (Nat.div_add_mod n 128).symm
        rw [pow_add]
        nth_rewrite 3 [h1]
        ring
      rw [add_assoc, hsplit]

/-- `ReadVLong` reads back a non-negative `int64` written by `WriteVLong`. -/
theorem ReadVLong_encode (v : Int) (h0 : 0 ≤ v) (h1 : v < 9223372036854775808)
    (rest : List Nat) (f : GoError) :
    DataInput.ReadVLong
        { rest := vlong v ++ rest, failure := f }
      = (Res.ok v, { rest := rest, failure := f }) := by
  unfold DataInput.ReadVLong readVLongWith vlong
  have hn : (v % 18446744073709551616).toNat < 2 ^ (7 * (8 + 1)) := by
    have : v % 18446744073709551616 = v := by omega
    rw [this]; norm_num; omega
  rw [StM.bind_ok (readVar_encodeVar f 8 9 _ 0 0 rest hn (by omega))]
  simp only [StM.pure_apply, pow_zero, mul_one, zero_add, Prod.mk.injEq, Res.ok.injEq, and_true]
  have : v % 18446744073709551616 = v := by omega
  rw [this]
  unfold wrap64
  omega

/-- `ReadVInt` reads back a non-negative `int32` written by `WriteVInt`. -/
theorem ReadVInt_encode (v : Int) (h0 : 0 ≤ v) (h1 : v < 2147483648)
    (rest : List Nat) (f : GoError) :
    DataInput.ReadVInt
        { rest := vint v ++ rest, failure := f }
      = (Res.ok v, { rest := rest, failure := f }) := by
  unfold DataInput.ReadVInt readVIntWith vint
  have hn : (v % 4294967296).toNat < 2 ^ (7 * (4 + 1)) := by
    have : v % 4294967296 = v := by omega
    rw [this]; norm_num; omega
  rw [StM.bind_ok (readVar_encodeVar f 4 4 _ 0 0 rest hn (by omega))]
  simp only [StM.pure_apply, pow_zero, mul_one, zero_add, Prod.mk.injEq, Res.ok.injEq, and_true]
  have : v % 4294967296 = v := by omega
  rw [this]
  unfold wrap32
  omega


/-! ## The in-place reversal of `Save` -/

theorem getD_set_nat (l : List Nat) (j i a : Nat) :
    (l.set j a).getD i 0 = if j = i ∧ j < l.length then a else l.getD i 0 := by
  rw [List.getD_eq_getElem?_getD, List.getElem?_set, List.getD_eq_getElem?_getD]
  by_cases h1 : j = i
  · by_cases h2 : j < l.length
    · subst h1
      simp [h2]
    · subst h1
      simp [h2]
      have : l[j]? = none := List.getElem?_eq_none (by omega)
      simp [this]
  · simp [h1]

theorem list_eq_of_getD (a b : List Nat) (hl : a.length = b.length)
    (h : ∀ i, i < a.length → a.getD i 0 = b.getD i 0) : a = b := by
  apply List.ext_getElem hl
  intro i h1 h2
  have := h i h1
  rwa [List.getD_eq_getElem _ _ h1, List.getD_eq_getElem _ _ h2] at this

/-- After `k` rounds from index `upto` the outer `upto + k` bytes of both ends are swapped. -/
theorem reverseLoop_spec (bs : List Nat) :
    ∀ (k upto : Nat) (cur : List Nat), cur.length = bs.length → upto + k ≤ bs.length / 2 →
      (∀ i, i < bs.length → cur.getD i 0
        = if i < upto ∨ bs.length - upto ≤ i then bs.getD (bs.length - 1 - i) 0 else bs.getD i 0) →
      (reverseLoop bs.length k upto cur).length = bs.length
      ∧ ∀ i, i < bs.length → (reverseLoop bs.length k upto cur).getD i 0
        = if i < upto + k ∨ bs.length - (upto + k) ≤ i then bs.getD (bs.length - 1 - i) 0
          else bs.getD i 0 := by
  intro k
  induction k with
  | zero =>
    intro upto cur hl _ hinv
    exact ⟨hl, hinv⟩
  | succ k ih =>
    intro upto cur hl hk hinv
    unfold reverseLoop
    simp only
    have hu : upto < bs.length - upto - 1 := by omega
    have hx : cur.getD upto 0 = bs.getD upto 0 := by
      rw [hinv upto (by omega)]
      have : ¬ (upto < upto ∨ bs.length - upto ≤ upto) := by omega
      rw [if_neg this]
    have hy : cur.getD (bs.length - upto - 1) 0 = bs.getD (bs.length - upto - 1) 0 := by
      rw [hinv _ (by omega)]
      have : ¬ (bs.length - upto - 1 < upto ∨ bs.length - upto ≤ bs.length - upto - 1) := by omega
      rw [if_neg this]
    have key := ih (upto + 1)
      ((cur.set upto (cur.getD (bs.length - upto - 1) 0)).set (bs.length - upto - 1) (cur.getD upto 0))
      (by simp [hl]) (by omega)
    have hstep : ∀ i, i < bs.length →
        ((cur.set upto (cur.getD (bs.length - upto - 1) 0)).set (bs.length - upto - 1)
          (cur.getD upto 0)).getD i 0
        = if i < upto + 1 ∨ bs.length - (upto + 1) ≤ i then bs.getD (bs.length - 1 - i) 0
          else bs.getD i 0 := by
      intro i hi
      rw [getD_set_nat, getD_set_nat, hx, hy, hinv i hi]
      simp only [List.length_set, hl]
      by_cases h1 : i = bs.length - upto - 1
      · subst h1
        have e1 : bs.length - 1 - (bs.length - upto - 1) = upto := by omega
        have c1 : (bs.length - upto - 1 = bs.length - upto - 1 ∧ bs.length - upto - 1 < bs.length) := by
          omega
        have c2 : (bs.length - upto - 1 < upto + 1 ∨ bs.length - (upto + 1) ≤ bs.length - upto - 1) := by
          omega
        rw [if_pos c1, if_pos c2, e1]
      · by_cases h2 : i = upto
        · subst h2
          have c1 : ¬ (bs.length - i - 1 = i ∧ bs.length - i - 1 < bs.length) := by omega
          have c2 : (i = i ∧ i < bs.length) := by omega
          have c3 : (i < i + 1 ∨ bs.length - (i + 1) ≤ i) := by omega
          have e1 : bs.length - 1 - i = bs.length - i - 1 := by omega
          rw [if_neg c1, if_pos c2, if_pos c3, e1]
        · have c1 : ¬ (bs.length - upto - 1 = i ∧ bs.length - upto - 1 < bs.length) := by omega
          have c2 : ¬ (upto = i ∧ upto < bs.length) := by omega
          rw [if_neg c1, if_neg c2]
          by_cases h3 : i < upto ∨ bs.length - upto ≤ i
          · have c3 : (i < upto + 1 ∨ bs.length - (upto + 1) ≤ i) := by omega
            rw [if_pos h3, if_pos c3]
          · have c3 : ¬ (i < upto + 1 ∨ bs.length - (upto + 1) ≤ i) := by omega
            rw [if_neg h3, if_neg c3]
    have := key hstep
    refine ⟨this.1, ?_⟩
    intro i hi
    rw [this.2 i hi]
    have : upto + 1 + k = upto + (k + 1) := by omega
    rw [this]

/-- The swap loop of `Save` reverses the bytes. -/
theorem reverseLoop_reverse (bs : List Nat) :
    reverseLoop bs.length (bs.length / 2) 0 bs = bs.reverse := by
  have h := reverseLoop_spec bs (bs.length / 2) 0 bs rfl (by omega) (by
    intro i hi
    have : ¬ (i < 0 ∨ bs.length - 0 ≤ i) := by omega
    rw [if_neg this])
  apply list_eq_of_getD
  · rw [h.1, List.length_reverse]
  · intro i hi
    rw [h.1] at hi
    rw [h.2 i hi]
    have hrev : bs.reverse.getD i 0 = bs.getD (bs.length - 1 - i) 0 := by
      rw [List.getD_eq_getElem _ _ (by simpa using hi), List.getD_eq_getElem _ _ (by omega),
        List.getElem_reverse]
    rw [hrev]
    split
    · rfl
    · next hmid =>
        have : bs.length - 1 - i = i := by omega
        rw [this]

/-! ## The decoders read only the code fields of the FST -/

theorem readLabel_congr {a b : FST} (h : SameCode a b) : a.readLabel = b.readLabel := by
  unfold FST.readLabel; rw [h.inputType]

theorem readUnpackedNodeTarget_congr {a b : FST} (h : SameCode a b) :
    a.readUnpackedNodeTarget = b.readUnpackedNodeTarget := by
  unfold FST.readUnpackedNodeTarget; rw [h.version]

theorem skipTarget_congr {a b : FST} (h : SameCode a b) : a.skipTarget = b.skipTarget := by
  unfold FST.skipTarget; rw [h.packed, readUnpackedNodeTarget_congr h]

theorem seekToNextNode_congr (o : Outputs) {a b : FST} (h : SameCode a b) :
    ∀ n, a.seekToNextNode o n = b.seekToNextNode o n := by
  intro n
  induction n with
  | zero => rfl
  | succ n ih =>
    unfold FST.seekToNextNode
    rw [readLabel_congr h, skipTarget_congr h, ih]

theorem readTarget_congr {a b : FST} (h : SameCode a b) : a.readTarget = b.readTarget := by
  funext arc
  unfold FST.readTarget; rw [h.packed, h.table, readUnpackedNodeTarget_congr h]

theorem skipRestOfNode_congr (o : Outputs) {a b : FST} (h : SameCode a b) :
    a.skipRestOfNode o = b.skipRestOfNode o := by
  funext fuel arc
  unfold FST.skipRestOfNode; rw [seekToNextNode_congr o h]

theorem resolveTarget_congr (o : Outputs) {a b : FST} (h : SameCode a b) :
    a.resolveTarget o = b.resolveTarget o := by
  funext fuel arc
  unfold FST.resolveTarget
  rw [h.nodeAddress, skipRestOfNode_congr o h, readTarget_congr h]

theorem readNextRealArc_congr (o : Outputs) {a b : FST} (h : SameCode a b) :
    a.readNextRealArc o = b.readNextRealArc o := by
  funext fuel arc
  unfold FST.readNextRealArc
  rw [readLabel_congr h, resolveTarget_congr o h]

theorem readStride_congr {a b : FST} (h : SameCode a b) : a.readStride = b.readStride := by
  unfold FST.readStride; rw [h.packed, h.version]

theorem readNodeHeader_congr {a b : FST} (h : SameCode a b) :
    a.readNodeHeader = b.readNodeHeader := by
  funext address flag arc
  unfold FST.readNodeHeader; rw [readStride_congr h]

theorem getNodeAddress_congr {a b : FST} (h : SameCode a b) :
    a.getNodeAddress = b.getNodeAddress := by
  funext node
  unfold FST.getNodeAddress; rw [h.nodeAddress]

theorem readFirstRealTargetArc_congr (o : Outputs) {a b : FST} (h : SameCode a b) :
    a.readFirstRealTargetArc o = b.readFirstRealTargetArc o := by
  funext fuel node arc
  unfold FST.readFirstRealTargetArc
  rw [getNodeAddress_congr h, readNodeHeader_congr h, readNextRealArc_congr o h]

theorem FirstArc_congr (g : Value) {a b : FST} (h : SameCode a b) :
    a.FirstArc g = b.FirstArc g := by
  funext arc
  unfold FST.FirstArc FST.firstArcFlags; rw [h.emptyOutput, h.noOutput, h.startNode]

theorem BytesReader_congr {a b : FST} (h : SameCode a b) : a.BytesReader = b.BytesReader := by
  unfold FST.BytesReader; rw [h.bytes, h.packed]

theorem readRootArcsLoop_congr (o : Outputs) {a b : FST} (h : SameCode a b)
    (hlen : a.cacheLen = b.cacheLen) (fuel : Nat) :
    ∀ n arcs arc rd, a.readRootArcsLoop o fuel n arcs arc rd = b.readRootArcsLoop o fuel n arcs arc rd := by
  intro n
  induction n with
  | zero => intro arcs arc rd; rfl
  | succ n ih =>
    intro arcs arc rd
    unfold FST.readRootArcsLoop
    rw [hlen, readNextRealArc_congr o h]
    simp only [ih]

theorem readRootArcs_congr (o : Outputs) (g : Value) {a b : FST} (h : SameCode a b)
    (hlen : a.cacheLen = b.cacheLen) (fuel : Nat) (arcs : List (Option Arc)) :
    a.readRootArcs o g fuel arcs = b.readRootArcs o g fuel arcs := by
  unfold FST.readRootArcs
  rw [FirstArc_congr g h, BytesReader_congr h, readFirstRealTargetArc_congr o h]
  simp only [readRootArcsLoop_congr o h hlen]

theorem readArrayHeader_congr {a b : FST} (h : SameCode a b) :
    a.readArrayHeader = b.readArrayHeader := by
  funext arc
  unfold FST.readArrayHeader; rw [readStride_congr h]

theorem binarySearch_congr (o : Outputs) {a b : FST} (h : SameCode a b) (fuel : Nat) (label : Int)
    (arc : Arc) :
    ∀ n low high rd, a.binarySearch o fuel label arc n low high rd
      = b.binarySearch o fuel label arc n low high rd := by
  intro n
  induction n with
  | zero => intro low high rd; rfl
  | succ n ih =>
    intro low high rd
    unfold FST.binarySearch
    rw [readLabel_congr h, readNextRealArc_congr o h]
    simp only [ih]

/-- `FindTargetArc` gives the same answer on two FSTs that agree on the
code fields and on the two root-arc caches. -/
theorem FindTargetArc_congr (o : Outputs) {a b : FST} (h : SameCode a b)
    (hc : a.cachedRootArcs = b.cachedRootArcs)
    (ha : a.assertingCachedRootArcs = b.assertingCachedRootArcs) :
    a.FindTargetArc o = b.FindTargetArc o := by
  funext fuel label follow arc rd
  have hlen : a.cacheLen = b.cacheLen := by unfold FST.cacheLen; rw [hc]
  have hassert : a.assertRootArcs = b.assertRootArcs := by unfold FST.assertRootArcs; rw [hc, ha]
  unfold FST.FindTargetArc
  rw [h.startNode, hlen, hassert, hc, getNodeAddress_congr h, readArrayHeader_congr h]
  simp only [binarySearch_congr o h]


theorem SameCode.withCaches {a b : FST} (h : SameCode a b)
    (c1 a1 c2 a2 : Option (List (Option Arc))) :
    SameCode { a with cachedRootArcs := c1, assertingCachedRootArcs := a1 }
      { b with cachedRootArcs := c2, assertingCachedRootArcs := a2 } :=
  ⟨h.inputType, h.emptyOutput, h.bytes, h.startNode, h.noOutput, h.packed, h.table, h.version,
    h.nodeAddress⟩

/-- When `cacheRootArcs` returns on one FST, it returns the same on every
FST with the same code fields, and fills in the same two caches. -/
theorem cacheRootArcs_transfer (o : Outputs) (g : Value) (fuel : Nat) {a b cached : FST}
    (h : SameCode a b) (r : Res Unit)
    (hb : b.cacheRootArcs o g fuel = (cached, r))
    (hret : r = Res.ok () ∨ ∃ e, r = Res.err e) :
    a.cacheRootArcs o g fuel
      = ({ a with cachedRootArcs := cached.cachedRootArcs,
                  assertingCachedRootArcs := cached.assertingCachedRootArcs }, r) := by
  have e1 : ∀ arcs, ({ a with cachedRootArcs := some (List.replicate 128 none) } : FST).readRootArcs
        o g fuel arcs
      = ({ b with cachedRootArcs := some (List.replicate 128 none) } : FST).readRootArcs o g fuel arcs :=
    fun arcs => readRootArcs_congr o g
      (h.withCaches _ a.assertingCachedRootArcs _ b.assertingCachedRootArcs) rfl fuel arcs
  unfold FST.cacheRootArcs at hb ⊢
  simp only at hb ⊢
  rw [e1]
  generalize ({ b with cachedRootArcs := some (List.replicate 128 none) } : FST).readRootArcs
    o g fuel (List.replicate 128 none) = q at hb ⊢
  obtain ⟨arcs, r1⟩ := q
  have e2 : ∀ x, ({ a with cachedRootArcs := some arcs, assertingCachedRootArcs := some (List.replicate arcs.length none) } : FST).readRootArcs
        o g fuel x
      = ({ b with cachedRootArcs := some arcs, assertingCachedRootArcs := some (List.replicate arcs.length none) } : FST).readRootArcs
        o g fuel x :=
    fun x => readRootArcs_congr o g (h.withCaches _ _ _ _) rfl fuel x
  cases r1 with
  | panic p =>
    simp only [Prod.mk.injEq] at hb
    rcases hret with hr | ⟨e, hr⟩ <;> rw [hr] at hb <;> simp at hb
  | outOfFuel =>
    simp only [Prod.mk.injEq] at hb
    rcases hret with hr | ⟨e, hr⟩ <;> rw [hr] at hb <;> simp at hb
  | ok u =>
    simp only at hb ⊢
    rw [e2]
    generalize ({ b with cachedRootArcs := some arcs, assertingCachedRootArcs := some (List.replicate arcs.length none) } : FST).readRootArcs
        o g fuel (List.replicate arcs.length none) = q2 at hb ⊢
    obtain ⟨arcs2, r2⟩ := q2
    cases r2 <;> simp only [Prod.mk.injEq] at hb ⊢ <;> obtain ⟨hb1, hb2⟩ := hb <;> subst hb1 <;>
      subst hb2 <;> exact ⟨rfl, rfl⟩
  | err e0 =>
    simp only at hb ⊢
    rw [e2]
    generalize ({ b with cachedRootArcs := some arcs, assertingCachedRootArcs := some (List.replicate arcs.length none) } : FST).readRootArcs
        o g fuel (List.replicate arcs.length none) = q2 at hb ⊢
    obtain ⟨arcs2, r2⟩ := q2
    cases r2 <;> simp only [Prod.mk.injEq] at hb ⊢ <;> obtain ⟨hb1, hb2⟩ := hb <;> subst hb1 <;>
      subst hb2 <;> exact ⟨rfl, rfl⟩

/-! ## What `Save` writes -/

theorem write_no_failure (bs written : List Nat) :
    DataOutput.write bs { written := written, schedule := [] }
      = (none, { written := written ++ bs, schedule := [] }) := by
  simp only [DataOutput.write]

theorem map_mod_of_bytes (bs : List Nat) (h : ∀ b ∈ bs, b < 256) : bs.map (· % 256) = bs := by
  induction bs with
  | nil => rfl
  | cons x xs ih =>
    have hx : x < 256 := h x (List.mem_cons_self x xs)
    have hxs : ∀ b ∈ xs, b < 256 := fun b hb => h b (List.mem_cons_of_mem x hb)
    simp only [List.map_cons, ih hxs]
    rw [Nat.mod_eq_of_lt hx]

theorem saveEmptyOutput_writes (o : Outputs) (t : FST) (bs written : List Nat)
    (hp : t.packed = false) (ho : o.FinalOutputRoundTrip t.emptyOutput bs) :
    t.saveEmptyOutput o { written := written, schedule := [] }
      = (none, { written := written ++ (1 :: (vint (wrap32 bs.length) ++ bs.reverse)),
                 schedule := [] }) := by
  obtain ⟨hw, _, hbytes, _⟩ := ho
  unfold FST.saveEmptyOutput
  simp only [DataOutput.WriteByte, write_no_failure, hw, hp, Bool.not_false, if_true]
  rw [reverseLoop_reverse]
  unfold DataOutput.WriteVInt
  rw [write_no_failure]
  simp only
  unfold DataOutput.WriteBytes
  rw [write_no_failure]
  have hrev : ∀ b ∈ bs.reverse, b < 256 := fun b hb => hbytes b (List.mem_reverse.mp hb)
  rw [map_mod_of_bytes _ hrev]
  generalize vint (wrap32 (bs.length : Int)) = sizeBytes
  generalize bs.reverse = reversed
  have e : ∀ (w a b : List Nat), w ++ [1 % 256] ++ a ++ b = w ++ 1 :: (a ++ b) := by
    intro w a b
    simp
  rw [e]

theorem saveBody_writes (t : FST) (body written : List Nat) (hbytes : ∀ b ∈ body, b < 256) :
    t.saveBody { data := body } { written := written, schedule := [] }
      = (none, { written := written ++ (vlong t.startNode ++ (vlong t.nodeCount
          ++ (vlong t.arcCount ++ (vlong t.arcWithOutputCount
          ++ (vlong (body.length : Int) ++ body))))), schedule := [] }) := by
  unfold FST.saveBody
  simp only [DataOutput.WriteVLong, write_no_failure, DataOutput.WriteBytes, BytesStore.position,
    map_mod_of_bytes _ hbytes, List.append_assoc]

theorem saveFlags_writes (o : Outputs) (t : FST) (bs written : List Nat)
    (hp : t.packed = false)
    (ho : t.emptyOutput ≠ Value.nil → o.FinalOutputRoundTrip t.emptyOutput bs) :
    t.saveFlags o none { written := written, schedule := [] }
      = (none, { written := written ++ (0 :: savedEmptyOutput t bs), schedule := [] }) := by
  unfold FST.saveFlags savedEmptyOutput
  simp only [Option.isNone_none, hp, Bool.and_false, Bool.false_eq_true, if_false,
    DataOutput.WriteByte, write_no_failure, Bool.true_and]
  by_cases he : t.emptyOutput = Value.nil
  · have e : ∀ (w : List Nat), w ++ [0 % 256] ++ [0 % 256] = w ++ [0, 0] := by
      intro w
      simp
    simp only [he, ne_eq, not_true_eq_false, decide_False, Bool.false_eq_true, if_false,
      if_true, write_no_failure, e]
  · have e : ∀ (w a : List Nat), w ++ [0 % 256] ++ a = w ++ 0 :: a := by
      intro w a
      simp
    simp only [he, ne_eq, not_false_eq_true, decide_True, if_true, if_false,
      saveEmptyOutput_writes o t bs _ hp (ho he), e]

theorem saveInputType_writes (c : Codec) (t : FST) (body written : List Nat)
    (hp : t.packed = false) (hstore : t.bytes = some { data := body })
    (hbytes : ∀ b ∈ body, b < 256) :
    t.saveInputType c { written := written, schedule := [] }
      = (Res.ok (), { written := written ++ (savedInputType t :: (vlong t.startNode
          ++ (vlong t.nodeCount ++ (vlong t.arcCount ++ (vlong t.arcWithOutputCount
          ++ (vlong (body.length : Int) ++ body)))))), schedule := [] }) := by
  have htb : savedInputType t % 256 = savedInputType t := by
    unfold savedInputType
    split
    · rfl
    · split <;> rfl
  unfold FST.saveInputType FST.saveTail
  simp only [DataOutput.WriteByte, write_no_failure, Option.isNone_none, hp, Bool.and_false,
    Bool.false_eq_true, if_false, hstore, saveBody_writes _ _ _ hbytes, returnError]
  change (Res.ok (), ({ written := written ++ [savedInputType t % 256] ++ _, schedule := [] } :
    DataOutput)) = _
  rw [htb]
  generalize (vlong t.startNode ++ (vlong t.nodeCount ++ (vlong t.arcCount
    ++ (vlong t.arcWithOutputCount ++ (vlong (body.length : Int) ++ body))))) = tail
  have e : ∀ (w a : List Nat) (x : Nat), w ++ [x] ++ a = w ++ x :: a := by
    intro w a x
    simp
  rw [e]

/-- On an output that does not fail, `Save` writes the saved format. -/
theorem Save_writes_layout (c : Codec) (o : Outputs) (g : Value) (fuel : Nat) (t : FST)
    (body bs hdr : List Nat) (hb : t.BuiltAndFinished o g fuel body) (hc : c.HeaderRoundTrip hdr)
    (ho : t.emptyOutput ≠ Value.nil → o.FinalOutputRoundTrip t.emptyOutput bs) :
    t.Save c o { written := [], schedule := [] }
      = (Res.ok (), { written := savedLayout hdr t bs body, schedule := [] }) := by
  have hstart : t.startNode ≠ -1 := by have := hb.startNode; omega
  unfold FST.Save
  simp only [assert2, hstart, ne_eq, not_false_eq_true, decide_True, if_true, hb.noAddress,
    Option.isNone_none, hb.unpacked, Bool.not_false, Bool.true_or]
  unfold FST.saveAfterHeader
  rw [hc.1 []]
  simp only [List.nil_append, saveFlags_writes o t bs hdr hb.unpacked ho,
    saveInputType_writes c t body _ hb.unpacked hb.store hb.bodyBytes]
  unfold savedLayout
  generalize (vlong t.startNode ++ (vlong t.nodeCount ++ (vlong t.arcCount
    ++ (vlong t.arcWithOutputCount ++ (vlong (body.length : Int) ++ body))))) = tail
  generalize savedEmptyOutput t bs = flags
  have e : ∀ (w a b : List Nat) (x y : Nat), w ++ x :: a ++ y :: b = w ++ x :: (a ++ y :: b) := by
    intro w a b x y
    simp
  rw [e]

/-! ## What `LoadFST` reads back -/

theorem loadEmptyOutput_layout (o : Outputs) (t fst : FST) (bs rest : List Nat) (f : GoError)
    (hp : fst.packed = false) (hnil : fst.emptyOutput = Value.nil)
    (ho : t.emptyOutput ≠ Value.nil → o.FinalOutputRoundTrip t.emptyOutput bs) :
    loadEmptyOutput o fst { rest := savedEmptyOutput t bs ++ rest, failure := f }
      = (Res.ok { fst with emptyOutput := t.emptyOutput }, { rest := rest, failure := f }) := by
  unfold savedEmptyOutput loadEmptyOutput
  by_cases he : t.emptyOutput = Value.nil
  · rw [if_pos he]
    simp only [List.singleton_append, DataInput.ReadByte_cons]
    have h01 : ¬ (0 % 256 = 1) := by decide
    rw [if_neg h01, he, ← hnil]
  · obtain ⟨_, hlen, _, hread⟩ := ho he
    rw [if_neg he]
    have hw : wrap32 (bs.length : Int) = (bs.length : Int) := by unfold wrap32; omega
    have hrd := ReadVInt_encode (wrap32 bs.length) (by rw [hw]; omega) (by rw [hw]; omega)
      (bs.reverse ++ rest) f
    rw [hw] at hrd
    have htake : (bs.reverse ++ rest).take bs.length = bs.reverse := by
      rw [List.take_append_of_le_length (by simp)]
      exact List.take_of_length_le (by simp)
    have hdrop : (bs.reverse ++ rest).drop bs.length = rest := by
      rw [List.drop_append_of_le_length (by simp)]
      simp [List.drop_of_length_le]
    have hcopy : CopyBytes (bs.length : Int) { rest := bs.reverse ++ rest, failure := f }
        = ({ data := bs.reverse }, { rest := rest, failure := f }) := by
      unfold CopyBytes
      simp only [Int.toNat_ofNat, htake, hdrop]
    generalize hq : o.ReadFinalOutput
      (emptyOutputReader false { data := bs.reverse } (bs.length : Int)) = q at hread
    obtain ⟨q1, q2⟩ := q
    simp only at hread
    subst hread
    rw [hw]
    generalize vint (bs.length : Int) = sizeBytes at hrd ⊢
    have e : ∀ (a b c : List Nat), (1 :: (a ++ b)) ++ c = 1 :: (a ++ (b ++ c)) := by
      intro a b c
      simp
    have h11 : 1 % 256 = 1 := by decide
    rw [e, DataInput.ReadByte_cons]
    simp only [h11, if_true, hrd, hcopy, hp, hq]

theorem loadInputType_layout (t fst : FST) (rest : List Nat) (f : GoError)
    (hit : t.inputType = INPUT_TYPE_BYTE1 ∨ t.inputType = INPUT_TYPE_BYTE2
      ∨ t.inputType = INPUT_TYPE_BYTE4) :
    loadInputType fst { rest := savedInputType t :: rest, failure := f }
      = (Res.ok { fst with inputType := t.inputType }, { rest := rest, failure := f }) := by
  unfold loadInputType savedInputType
  rcases hit with h | h | h <;> rw [h] <;>
    simp [DataInput.ReadByte_cons, INPUT_TYPE_BYTE1, INPUT_TYPE_BYTE2, INPUT_TYPE_BYTE4]

theorem errorOf_ok {α : Type} (a : α) : errorOf (Res.ok a) = none := rfl

theorem valueOr_ok (v : Int) : valueOr (Res.ok v) = v := rfl

/-- `loadCounters` when its five reads and the body succeed. -/
theorem loadCounters_reads (o : Outputs) (g : Value) (fuel : Nat) (fst cached : FST)
    (r : Res Unit) (i0 i1 i2 i3 i4 i5 i6 : DataInput) (sn nc ac aw len : Int) (store : BytesStore)
    (h1 : DataInput.ReadVLong i0 = (Res.ok sn, i1))
    (h2 : DataInput.ReadVLong i1 = (Res.ok nc, i2))
    (h3 : DataInput.ReadVLong i2 = (Res.ok ac, i3))
    (h4 : DataInput.ReadVLong i3 = (Res.ok aw, i4))
    (h5 : DataInput.ReadVLong i4 = (Res.ok len, i5))
    (h6 : newBytesStoreFromInput len i5 = (Res.ok store, i6))
    (hcache : FST.cacheRootArcs o g fuel
        { fst with startNode := sn, nodeCount := nc, arcCount := ac, arcWithOutputCount := aw,
                   bytes := some store, NO_OUTPUT := o.NoOutput }
      = (cached, r))
    (hret : r = Res.ok () ∨ ∃ e, r = Res.err e) :
    loadCounters o g fuel fst i0 = Res.ok { fst := some cached, err := none } := by
  unfold loadCounters
  simp only [h1, h2, h3, h4, h5, h6, errorOf_ok, valueOr_ok, Option.isSome_none,
    Bool.false_eq_true, if_false, hcache]
  rcases hret with h | ⟨e, h⟩ <;> subst h <;> rfl

theorem loadCounters_layout (o : Outputs) (g : Value) (fuel : Nat) (t fst cached : FST)
    (body : List Nat) (f : GoError) (r : Res Unit)
    (hsn : 0 ≤ t.startNode ∧ t.startNode < 9223372036854775808)
    (hnc : 0 ≤ t.nodeCount ∧ t.nodeCount < 9223372036854775808)
    (hac : 0 ≤ t.arcCount ∧ t.arcCount < 9223372036854775808)
    (haw : 0 ≤ t.arcWithOutputCount ∧ t.arcWithOutputCount < 9223372036854775808)
    (hlen : (body.length : Int) < 9223372036854775808)
    (hcache : FST.cacheRootArcs o g fuel
        { fst with startNode := t.startNode, nodeCount := t.nodeCount,
                   arcCount := t.arcCount, arcWithOutputCount := t.arcWithOutputCount,
                   bytes := some { data := body }, NO_OUTPUT := o.NoOutput }
      = (cached, r))
    (hret : r = Res.ok () ∨ ∃ e, r = Res.err e) :
    loadCounters o g fuel fst
        { rest := vlong t.startNode ++ (vlong t.nodeCount ++ (vlong t.arcCount
          ++ (vlong t.arcWithOutputCount ++ (vlong (body.length : Int) ++ body)))), failure := f }
      = Res.ok { fst := some cached, err := none } := by
  have h6 : newBytesStoreFromInput (body.length : Int) { rest := body, failure := f }
      = (Res.ok { data := body }, { rest := [], failure := f }) := by
    unfold newBytesStoreFromInput
    simp only [Int.toNat_ofNat, le_refl, if_true, List.take_length, List.drop_length]
  exact loadCounters_reads o g fuel fst cached r _ _ _ _ _ _ _ _ _ _ _ _ _
    (ReadVLong_encode _ hsn.1 hsn.2 _ f) (ReadVLong_encode _ hnc.1 hnc.2 _ f)
    (ReadVLong_encode _ hac.1 hac.2 _ f) (ReadVLong_encode _ haw.1 haw.2 _ f)
    (ReadVLong_encode (body.length : Int) (by omega) hlen body f) h6 hcache hret

/-- `loadFST3` on an unpacked stream whose header, packed flag, empty
output and input type are read: it returns what `loadCounters` returns. -/
theorem loadFST3_reads (c : Codec) (o : Outputs) (g : Value) (fuel : Nat)
    (i0 i1 i2 i3 i4 : DataInput) (v : Int) (b : Nat) (fst1 fst2 : FST) (res : Res Loaded)
    (h1 : c.CheckHeader FST_VERSION_PACKED FST_VERSION_VINT_TARGET i0 = (Res.ok v, i1))
    (h2 : DataInput.ReadByte i1 = (Res.ok b, i2))
    (h3 : loadEmptyOutput o { FST.blank with version := v, packed := decide (b = 1) } i2
      = (Res.ok fst1, i3))
    (h4 : loadInputType fst1 i3 = (Res.ok fst2, i4))
    (hp : fst2.packed = false)
    (h5 : loadCounters o g fuel fst2 i4 = res) :
    loadFST3 c o g fuel i0 FST_DEFAULT_MAX_BLOCK_BITS = res := by
  unfold loadFST3
  have hbits : ¬ (FST_DEFAULT_MAX_BLOCK_BITS < 1 ∨ FST_DEFAULT_MAX_BLOCK_BITS > 30) := by decide
  simp only [hbits, if_false, h1, h2, h3, h4, hp, Bool.false_eq_true, h5]

/-! ## Search of a fixed array against the linear scan -/

/-- C1, evaluated on the five-key automaton.  Caching the root arcs
succeeds; `FindTargetArc` from the root with the stored label 140 (the
record at index 1, where `low` and `high` meet) reports not-found, while
the linear scan of the same node with `readFirstRealTargetArc` and
`readNextRealArc` returns the arc labelled 140.  The same happens for the
last label 170, and the labels 130, 150 and 160 are found. -/
theorem binarySearch_misses_label_where_bounds_meet :
    ((sampleFst arrayBody).finish sampleOutputs (Value.int64 0) 16 13).2 = Res.ok ()
    ∧ (arrayFst.FindTargetArc sampleOutputs 16 140 (rootArc 13) Arc.zero (readerOn arrayBody)).map
        Lookup.target = Res.ok none
    ∧ (arrayFst.linearScan sampleOutputs 16 140 13 Arc.zero (readerOn arrayBody)).map
        (Option.map Arc.Label) = Res.ok (some 140)
    ∧ (arrayFst.FindTargetArc sampleOutputs 16 170 (rootArc 13) Arc.zero (readerOn arrayBody)).map
        Lookup.target = Res.ok none
    ∧ (arrayFst.linearScan sampleOutputs 16 170 13 Arc.zero (readerOn arrayBody)).map
        (Option.map Arc.Label) = Res.ok (some 170)
    ∧ [130, 150, 160].map (fun l =>
        (arrayFst.FindTargetArc sampleOutputs 16 l (rootArc 13) Arc.zero (readerOn arrayBody)).map
          (fun lk => (lk.target, lk.arc.Label)))
      = [Res.ok (some ArcRef.arc, 130), Res.ok (some ArcRef.arc, 150), Res.ok (some ArcRef.arc, 160)] := by
  decide!

/-! ## Nodes in linked encoding -/

/-- C2: on a node in linked encoding (its leading byte is not the fixed-array
marker), reached through a follow arc with `target > 0` that does not take
the root-cache shortcut, `FindTargetArc` with a label other than the end
label does not scan: it panics with "not implemented yet". -/
theorem FindTargetArc_linked_not_implemented (o : Outputs) (t : FST) (fuel : Nat) (label : Int)
    (follow arc : Arc) (rd rd1 : GoLucene.BytesReader) (address : Int) (b : Nat)
    (hlabel : label ≠ FST_END_LABEL)
    (hroot : ¬ (follow.target = t.startNode ∧ label < t.cacheLen))
    (htarget : follow.target > 0)
    (haddr : t.getNodeAddress follow.target = Res.ok address)
    (hbyte : BytesReader.ReadByte { rd with pos := address } = (Res.ok b, rd1))
    (hlinked : b ≠ FST_ARCS_AS_FIXED_ARRAY) :
    t.FindTargetArc o fuel label follow arc rd = Res.panic Panic.notImplementedYet := by
  unfold FST.FindTargetArc
  have h1 : targetHasArcs follow = true := by simp [targetHasArcs, htarget]
  simp only [if_neg hlabel, if_neg hroot, h1, haddr, BytesReader.setPosition]
  simp [hbyte, hlinked]

/-- C2 at the one-key automaton in linked encoding: looking up the stored
label 200 from the root panics. -/
theorem FindTargetArc_linked_not_implemented_witness :
    linkedFst.FindTargetArc sampleOutputs 16 200 (rootArc 2) Arc.zero (readerOn linkedBody)
      = Res.panic Panic.notImplementedYet :=
  FindTargetArc_linked_not_implemented sampleOutputs linkedFst 16 200 (rootArc 2) Arc.zero
    (readerOn linkedBody) { data := linkedBody, pos := 1, reversed := true } 2 11
    (by decide) (by decide!) (by decide) (by decide!) (by decide!) (by decide)

/-! ## The end label -/

/-- C3: `FindTargetArc` with the end label.  If `follow` is not final the
result is not-found and the arc cursor is as it was; if `follow` is final
the arc cursor is returned with `Label = -1` and `Output =
follow.NextFinalOutput`, its flags are the last-arc bit alone when
`follow.target <= 0`, and are 0 with `nextArc = node = follow.target` when
`follow.target > 0`.  In both cases the reader is the one passed in. -/
theorem FindTargetArc_end_label (o : Outputs) (t : FST) (fuel : Nat) (follow arc : Arc)
    (rd : GoLucene.BytesReader) :
    (follow.IsFinal = false →
      t.FindTargetArc o fuel FST_END_LABEL follow arc rd
        = Res.ok { target := none, arc := arc, rd := rd })
    ∧ (follow.IsFinal = true →
      ∃ lk, t.FindTargetArc o fuel FST_END_LABEL follow arc rd = Res.ok lk
        ∧ lk.target = some ArcRef.arc ∧ lk.rd = rd
        ∧ lk.arc.Label = -1 ∧ lk.arc.Output = follow.NextFinalOutput
        ∧ (follow.target ≤ 0 → lk.arc.flags = FST_BIT_LAST_ARC
            ∧ lk.arc.nextArc = arc.nextArc ∧ lk.arc.node = arc.node)
        ∧ (follow.target > 0 → lk.arc.flags = 0
            ∧ lk.arc.nextArc = follow.target ∧ lk.arc.node = follow.target)
        ∧ lk.arc.target = arc.target ∧ lk.arc.NextFinalOutput = arc.NextFinalOutput
        ∧ lk.arc.posArcsStart = arc.posArcsStart ∧ lk.arc.bytesPerArc = arc.bytesPerArc
        ∧ lk.arc.arcIdx = arc.arcIdx ∧ lk.arc.numArcs = arc.numArcs) := by
  constructor
  · intro h
    simp [FST.FindTargetArc, h]
  · intro h
    refine ⟨_, by simp only [FST.FindTargetArc, if_true, h]; rfl, ?_⟩
    by_cases ht : follow.target ≤ 0
    · simp [ht, FST_END_LABEL]
    · simp [ht, FST_END_LABEL]
/-! ## What `FindTargetArc` returns -/

/-- The header fields read by `readArrayHeader` do not depend on the cursor. -/
theorem readArrayHeader_stride (t : FST) (a b a1 : Arc) (rd rd1 : GoLucene.BytesReader)
    (h : t.readArrayHeader a rd = (Res.ok a1, rd1)) :
    ∃ b1, t.readArrayHeader b rd = (Res.ok b1, rd1) ∧ b1.bytesPerArc = a1.bytesPerArc := by
  unfold FST.readArrayHeader at h ⊢
  obtain ⟨n, s1, h1, h⟩ := StM.bind_eq_ok h
  obtain ⟨k, s2, h2, h⟩ := StM.bind_eq_ok h
  obtain ⟨p, s3, h3, h⟩ := StM.bind_eq_ok h
  simp only [StM.pure_apply, Prod.mk.injEq, Res.ok.injEq] at h
  rw [StM.bind_ok h1, StM.bind_ok h2, StM.bind_ok h3]
  refine ⟨_, by rw [StM.pure_apply, h.2], ?_⟩
  rw [← h.1]

/-- C4 at a fixed array whose header announces the stride 0.  Caching the
root arcs of the FST succeeds, and `FindTargetArc` for the label 150, called
with a cursor whose `nextArc` is 2, returns that cursor holding the label
77: the probe reads 150 as the label of record 0, and `readNextRealArc`,
finding `bytesPerArc = 0`, decodes the arc at the cursor's old `nextArc`. -/
theorem FindTargetArc_stride_zero_returns_other_label :
    ((sampleFst strideZeroBody).finish sampleOutputs (Value.int64 0) 16 7).2 = Res.ok ()
    ∧ (strideZeroFst.FindTargetArc sampleOutputs 16 150 (rootArc 7) { Arc.zero with nextArc := 2 }
        (readerOn strideZeroBody)).map (fun lk => (lk.target, lk.arc.Label))
      = Res.ok (some ArcRef.arc, 77) := by
  decide!

/-- C4, amended: on an FST whose root-arc cache was filled by
`cacheRootArcs`, for every label `>= -1`, every follow arc, cursor and
reader, provided the node looked up is not a fixed array whose header
stores the stride 0: when `FindTargetArc` returns without error, it either
reports not-found (nil) or returns the arc cursor passed in, and that
cursor then carries the requested label. -/
theorem FindTargetArc_returns_cursor_with_label (o : Outputs) (g : Value) (fuel budget : Nat)
    (t cached : FST) (label : Int) (follow arc : Arc) (rd : GoLucene.BytesReader) (lk : Lookup)
    (hcache : cached = (t.cacheRootArcs o g fuel).1)
    (hlow : -1 ≤ label) (hhigh : label < 9223372036854775808)
    (hstride : cached.strideAt follow rd ≠ some 0)
    (hres : cached.FindTargetArc o budget label follow arc rd = Res.ok lk) :
    lk.target = none ∨ (lk.target = some ArcRef.arc ∧ lk.arc.Label = label) := by
  obtain ⟨arcs, hc, hli⟩ := cacheRootArcs_labelIndexed o g fuel t
  rw [← hcache] at hc
  have hint : IsInt64 label := by unfold IsInt64; omega
  unfold FST.FindTargetArc at hres
  split at hres
  · -- the end label
    next hend =>
    split at hres
    · simp only [Res.ok.injEq] at hres
      subst hres
      right
      exact ⟨rfl, hend.symm⟩
    · simp only [Res.ok.injEq] at hres
      subst hres
      left; rfl
  · split at hres
    · -- the root-arc cache
      split at hres
      · rw [hc] at hres
        simp only at hres
        split at hres
        · next hnonneg =>
            split at hres
            · next result hget =>
                simp only [Res.ok.injEq] at hres
                subst hres
                right
                refine ⟨rfl, ?_⟩
                simp only [copyFrom_label]
                rw [hli _ _ hget]
                omega
            · simp only [Res.ok.injEq] at hres
              subst hres
              left; rfl
        · simp at hres
      · simp at hres
      · simp at hres
      · simp at hres
    · split at hres
      · simp only [Res.ok.injEq] at hres
        subst hres
        left; rfl
      · -- decoding the node
        split at hres
        · next address haddr =>
            simp only at hres
            split at hres
            · next b rd1 hbyte =>
                split at hres
                · next hb =>
                    split at hres
                    · next arc1 rd2 hhdr =>
                        obtain ⟨b1, hb1, hb1s⟩ := readArrayHeader_stride cached _ Arc.zero _ _ _ hhdr
                        have hs : arc1.bytesPerArc ≠ 0 := by
                          intro h0
                          apply hstride
                          unfold FST.strideAt
                          have hbyte' : BytesReader.ReadByte { rd with pos := address }
                              = (Res.ok b, rd1) := hbyte
                          simp only [haddr, hbyte', hb, if_true, hb1]
                          rw [hb1s, h0]
                        exact binarySearch_found_label o cached budget label arc1 hs hint _ _ _ _ _ hres
                    · simp at hres
                    · simp at hres
                    · simp at hres
                · simp at hres
            · simp at hres
            · simp at hres
            · simp at hres
        · simp at hres
        · simp at hres
        · simp at hres

/-- C4, amended, at the five-key automaton: the label 150 is looked up from
the root of the cached FST; the array read has stride 2, and the cursor
comes back carrying 150. -/
theorem FindTargetArc_returns_cursor_with_label_witness :
    arrayFst.strideAt (rootArc 13) (readerOn arrayBody) = some 2
    ∧ arrayFst.FindTargetArc sampleOutputs 16 150 (rootArc 13) Arc.zero (readerOn arrayBody)
        = Res.ok arrayLookup150
    ∧ (arrayLookup150.target = none
        ∨ (arrayLookup150.target = some ArcRef.arc ∧ arrayLookup150.arc.Label = 150)) :=
  ⟨by decide!, by decide!,
   FindTargetArc_returns_cursor_with_label sampleOutputs (Value.int64 0) 16 16
    { sampleFst arrayBody with startNode := 13 } arrayFst 150 (rootArc 13) Arc.zero
    (readerOn arrayBody) arrayLookup150
    (by decide!) (by decide) (by decide) (by decide!) (by decide!)⟩

/-! ## Loading a truncated stream -/

/-- C6, evaluated on the saved five-key automaton.  `Save` writes the 34
bytes `arraySaved` and `LoadFST` reads them back without error.  Cut after
19 bytes (all four counters read, the body length missing), after 20 bytes
(the body missing) and after 30 bytes (inside the body), the stream makes
`LoadFST` return a nil error.  Cut earlier, also inside the presence byte
or the input-type byte, it makes `LoadFST` return the error of the stream. -/
theorem LoadFST_truncated_body_returns_nil_error :
    arrayFst.Save plainCodec sampleOutputs freshOutput
      = (Res.ok (), { written := arraySaved, schedule := [] })
    ∧ (LoadFST plainCodec sampleOutputs (Value.int64 0) 16 (streamOf arraySaved)).map Loaded.err
      = Res.ok none
    ∧ [19, 20, 30].map (fun k =>
        (LoadFST plainCodec sampleOutputs (Value.int64 0) 16 (streamOf (arraySaved.take k))).map
          Loaded.err)
      = [Res.ok none, Res.ok none, Res.ok none]
    ∧ [0, 11, 12, 13, 14, 15, 18].map (fun k =>
        (LoadFST plainCodec sampleOutputs (Value.int64 0) 16 (streamOf (arraySaved.take k))).map
          Loaded.err)
      = List.replicate 7 (Res.ok (some GoError.EOF)) := by
  decide!

/-! ## What `LoadFST` hands back on failure -/

/-- C7 on an empty stream: the header check fails, and `LoadFST` returns the
error together with a non-nil FST, the blank FST it had built so far. -/
theorem LoadFST_bad_header_returns_fst :
    LoadFST plainCodec sampleOutputs (Value.int64 0) 16 (streamOf [])
      = Res.ok { fst := some FST.blank, err := some GoError.EOF } := by
  decide!

theorem loadCounters_fst_some (o : Outputs) (g : Value) (fuel : Nat) (fst : FST) (inp : DataInput)
    (ld : Loaded) (h : loadCounters o g fuel fst inp = Res.ok ld) : ld.fst ≠ none := by
  unfold loadCounters at h
  simp only at h
  repeat' split at h
  all_goals first
    | (simp only [Res.ok.injEq] at h; subst h; simp)
    | simp at h

/-- C7, amended: `LoadFST` never returns a nil FST.  When the header check
or the read of the packed flag fails, it returns that error together with
the FST filled so far (the blank FST, with the version once the header was
read); and an input-type byte other than 0, 1, 2 is not returned as an
error: it is a panic. -/
theorem LoadFST_failure_returns_filled_fst (c : Codec) (o : Outputs) (g : Value) (fuel : Nat)
    (inp : DataInput) :
    (∀ ld, LoadFST c o g fuel inp = Res.ok ld → ld.fst ≠ none)
    ∧ (∀ e inp1, c.CheckHeader FST_VERSION_PACKED FST_VERSION_VINT_TARGET inp = (Res.err e, inp1) →
        LoadFST c o g fuel inp = Res.ok { fst := some FST.blank, err := some e })
    ∧ (∀ v inp1 e inp2,
        c.CheckHeader FST_VERSION_PACKED FST_VERSION_VINT_TARGET inp = (Res.ok v, inp1) →
        DataInput.ReadByte inp1 = (Res.err e, inp2) →
        LoadFST c o g fuel inp
          = Res.ok { fst := some { FST.blank with version := v }, err := some e })
    ∧ (∀ v inp1 b inp2 fst inp3 tb rest,
        c.CheckHeader FST_VERSION_PACKED FST_VERSION_VINT_TARGET inp = (Res.ok v, inp1) →
        DataInput.ReadByte inp1 = (Res.ok b, inp2) →
        loadEmptyOutput o { FST.blank with version := v, packed := decide (b = 1) } inp2
          = (Res.ok fst, inp3) →
        inp3.rest = tb :: rest → 2 < tb % 256 →
        LoadFST c o g fuel inp = Res.panic Panic.invalidInputType) := by
  refine ⟨?_, ?_, ?_, ?_⟩
  · intro ld h
    unfold LoadFST loadFST3 at h
    simp only at h
    repeat' split at h
    all_goals first
      | exact loadCounters_fst_some _ _ _ _ _ _ h
      | (simp only [Res.ok.injEq] at h; subst h; simp)
      | simp at h
  · intro e inp1 h
    unfold LoadFST loadFST3
    simp [h, FST_DEFAULT_MAX_BLOCK_BITS]
  · intro v inp1 e inp2 h1 h2
    unfold LoadFST loadFST3
    simp [h1, h2, FST_DEFAULT_MAX_BLOCK_BITS]
  · intro v inp1 b inp2 fst inp3 tb rest h1 h2 h3 h4 h5
    have h6 : loadInputType fst inp3 = (Res.panic Panic.invalidInputType, { inp3 with rest := rest }) := by
      unfold loadInputType DataInput.ReadByte
      rw [h4]
      simp only
      have : ¬ (tb % 256 = 0) := by omega
      have : ¬ (tb % 256 = 1) := by omega
      have : ¬ (tb % 256 = 2) := by omega
      simp [*]
    unfold LoadFST loadFST3
    simp [h1, h2, h3, h6, FST_DEFAULT_MAX_BLOCK_BITS]

/-- C7, amended, at concrete streams: an empty stream (the header check
fails), a stream that ends after the header (the packed flag cannot be
read), and a stream whose input-type byte is 7. -/
theorem LoadFST_failure_returns_filled_fst_witness :
    LoadFST plainCodec sampleOutputs (Value.int64 0) 16 (streamOf [])
        = Res.ok { fst := some FST.blank, err := some GoError.EOF }
    ∧ LoadFST plainCodec sampleOutputs (Value.int64 0) 16 (streamOf (arraySaved.take 12))
        = Res.ok { fst := some { FST.blank with version := 4 }, err := some GoError.EOF }
    ∧ LoadFST plainCodec sampleOutputs (Value.int64 0) 16 (streamOf (arraySaved.take 14 ++ [7]))
        = Res.panic Panic.invalidInputType :=
  ⟨(LoadFST_failure_returns_filled_fst plainCodec sampleOutputs (Value.int64 0) 16
      (streamOf [])).2.1 GoError.EOF (streamOf []) (by decide!),
   (LoadFST_failure_returns_filled_fst plainCodec sampleOutputs (Value.int64 0) 16
      (streamOf (arraySaved.take 12))).2.2.1 4 (streamOf []) GoError.EOF (streamOf [])
      (by decide!) (by decide!),
   (LoadFST_failure_returns_filled_fst plainCodec sampleOutputs (Value.int64 0) 16
      (streamOf (arraySaved.take 14 ++ [7]))).2.2.2 4 (streamOf [0, 0, 7]) 0 (streamOf [0, 7])
      { FST.blank with version := 4 } (streamOf [7]) 7 []
      (by decide!) (by decide!) (by decide!) (by decide!) (by decide)⟩


/-! ## Calling `finish` twice -/

theorem cacheRootArcs_startNode (o : Outputs) (g : Value) (fuel : Nat) (t : FST) :
    (t.cacheRootArcs o g fuel).1.startNode = t.startNode := by
  unfold FST.cacheRootArcs
  simp only
  split
  · rfl
  · rfl
  · split <;> rfl

/-- The start node `finish` stores. -/
theorem finish_startNode (o : Outputs) (g : Value) (fuel : Nat) (t : FST) (startNode : Int)
    (hfresh : t.startNode = -1) :
    (t.finish o g fuel startNode).1.startNode
      = if startNode = FST_FINAL_END_NODE ∧ t.emptyOutput ≠ Value.nil then 0 else startNode := by
  unfold FST.finish
  simp only [hfresh, assert2, decide_True, if_true]
  split
  · rfl
  · rw [cacheRootArcs_startNode]

/-- C8 on a new FST without empty output: `finish(-1)` returns normally and
leaves `startNode` at -1, so a second call, `finish(0)`, is accepted: it
returns normally and changes `startNode` to 0. -/
theorem finish_twice_accepted_after_final_stop :
    (emptyFst.finish sampleOutputs (Value.int64 0) 16 (-1)).2 = Res.ok ()
    ∧ (emptyFst.finish sampleOutputs (Value.int64 0) 16 (-1)).1.startNode = -1
    ∧ ((emptyFst.finish sampleOutputs (Value.int64 0) 16 (-1)).1.finish
        sampleOutputs (Value.int64 0) 16 0).2 = Res.ok ()
    ∧ ((emptyFst.finish sampleOutputs (Value.int64 0) 16 (-1)).1.finish
        sampleOutputs (Value.int64 0) 16 0).1.startNode = 0 := by
  decide!

/-- C8, amended: after a first `finish` on an unfinished FST whose start
node was not the final-stop sentinel -1 passed without an empty output
(a positive address, 0, or -1 with an empty output set), every further
call of `finish` is rejected with the panic "already finished" and leaves
the FST, its `startNode` and root-arc cache included, as it was. -/
theorem finish_twice_rejected (o : Outputs) (g : Value) (fuel : Nat) (t : FST)
    (first second : Int) (hfresh : t.startNode = -1)
    (hfirst : ¬ (first = FST_FINAL_END_NODE ∧ t.emptyOutput = Value.nil)) :
    (t.finish o g fuel first).1.finish o g fuel second
      = ((t.finish o g fuel first).1, Res.panic Panic.alreadyFinished) := by
  have hs := finish_startNode o g fuel t first hfresh
  have hne : (t.finish o g fuel first).1.startNode ≠ -1 := by
    rw [hs]
    split
    · decide
    · next hc =>
        intro h1
        apply hfirst
        refine ⟨h1, ?_⟩
        by_contra hne
        exact hc ⟨h1, hne⟩
  generalize (t.finish o g fuel first).1 = t1 at hne
  unfold FST.finish
  simp [assert2, hne]

/-- C8, amended, at the five-key automaton: finished once with start node
13, it rejects a second `finish` and keeps start node and cache. -/
theorem finish_twice_rejected_witness :
    (sampleFst arrayBody).startNode = -1
    ∧ arrayFst.finish sampleOutputs (Value.int64 0) 16 5
        = (arrayFst, Res.panic Panic.alreadyFinished) :=
  ⟨by decide,
   finish_twice_rejected sampleOutputs (Value.int64 0) 16 (sampleFst arrayBody) 13 5
    (by decide) (by decide)⟩

/-! ## The preconditions of `Save` -/

theorem saveTail_panic (t : FST) (err : Option GoError) (out : DataOutput) (p : Panic)
    (h : (t.saveTail err out).1 = Res.panic p) : p = Panic.nilDereference := by
  unfold FST.saveTail returnError at h
  split at h
  · simp at h
  · split at h
    · split at h
      · simp at h
      · simp only [Res.panic.injEq] at h; exact h.symm
    · simp only at h
      split at h <;> simp at h

theorem saveInputType_panic (c : Codec) (t : FST) (out : DataOutput) (p : Panic)
    (h : (t.saveInputType c out).1 = Res.panic p) :
    p = Panic.typeAssertion ∨ p = Panic.nilDereference := by
  unfold FST.saveInputType at h
  simp only at h
  repeat' split at h
  all_goals first
    | exact Or.inr (saveTail_panic t _ _ p h)
    | (simp only [Res.panic.injEq] at h; exact Or.inl h.symm)

/-- The writes of `Save` raise none of the three precondition panics. -/
theorem saveAfterHeader_panic (c : Codec) (o : Outputs) (t : FST)
    (header : Option GoError × DataOutput) (p : Panic)
    (h : (t.saveAfterHeader c o header).1 = Res.panic p) :
    p = Panic.typeAssertion ∨ p = Panic.nilDereference := by
  unfold FST.saveAfterHeader at h
  split at h
  · simp at h
  · exact saveInputType_panic c t _ p h

/-- C9: `Save` stops with one of its three precondition panics exactly when
`startNode` is still -1, or the build-time node-address table is present,
or the FST is packed and its node-address table is not a mutable one; it
then leaves the output untouched.  In every other state the checks pass
and `Save` goes on from the result of writing the header. -/
theorem Save_precondition (c : Codec) (o : Outputs) (t : FST) (out : DataOutput) :
    ((∃ p, (t.Save c o out).1 = Res.panic p
        ∧ (p = Panic.callFinishFirst ∨ p = Panic.mustFirstBePacked ∨ p = Panic.loadedFromDisk))
      ↔ (t.startNode = -1 ∨ t.nodeAddress ≠ none ∨ (t.packed = true ∧ t.tableIsMutable = false)))
    ∧ ((t.startNode = -1 ∨ t.nodeAddress ≠ none ∨ (t.packed = true ∧ t.tableIsMutable = false))
        → (t.Save c o out).2 = out)
    ∧ (¬ (t.startNode = -1 ∨ t.nodeAddress ≠ none ∨ (t.packed = true ∧ t.tableIsMutable = false))
        → t.Save c o out = t.saveAfterHeader c o (c.WriteHeader VERSION_CURRENT out)) := by
  by_cases h1 : t.startNode = -1
  · have hs : t.Save c o out = (Res.panic Panic.callFinishFirst, out) := by
      simp [FST.Save, assert2, h1]
    refine ⟨⟨fun _ => Or.inl h1, fun _ => ⟨_, by rw [hs], Or.inl rfl⟩⟩, fun _ => by rw [hs], ?_⟩
    intro hn; exact absurd (Or.inl h1) hn
  · by_cases h2 : t.nodeAddress = none
    · by_cases h3 : t.packed = true ∧ t.tableIsMutable = false
      · have hs : t.Save c o out = (Res.panic Panic.loadedFromDisk, out) := by
          simp [FST.Save, assert2, h1, h2, h3.1, h3.2]
        refine ⟨⟨fun _ => Or.inr (Or.inr h3), fun _ => ⟨_, by rw [hs], Or.inr (Or.inr rfl)⟩⟩,
          fun _ => by rw [hs], ?_⟩
        intro hn; exact absurd (Or.inr (Or.inr h3)) hn
      · have hs : t.Save c o out = t.saveAfterHeader c o (c.WriteHeader VERSION_CURRENT out) := by
          have h3' : (!t.packed || t.tableIsMutable) = true := by
            cases hp : t.packed <;> cases hm : t.tableIsMutable <;> simp_all
          simp [FST.Save, assert2, h1, h2, h3']
        have hcond : ¬ (t.startNode = -1 ∨ t.nodeAddress ≠ none
            ∨ (t.packed = true ∧ t.tableIsMutable = false)) := by
          rintro (h | h | h)
          · exact h1 h
          · exact h h2
          · exact h3 h
        refine ⟨⟨?_, fun h => absurd h hcond⟩, fun h => absurd h hcond, fun _ => hs⟩
        rintro ⟨p, hp, hk⟩
        rw [hs] at hp
        have := saveAfterHeader_panic c o t _ p hp
        rcases hk with hk | hk | hk <;> subst hk <;> simp at this
    · have hs : t.Save c o out = (Res.panic Panic.mustFirstBePacked, out) := by
        have : t.nodeAddress.isNone = false := by
          cases hn : t.nodeAddress with
          | none => exact absurd hn h2
          | some _ => rfl
        simp [FST.Save, assert2, h1, this]
      refine ⟨⟨fun _ => Or.inr (Or.inl h2), fun _ => ⟨_, by rw [hs], Or.inr (Or.inl rfl)⟩⟩,
        fun _ => by rw [hs], ?_⟩
      intro hn; exact absurd (Or.inr (Or.inl h2)) hn

/-! ## Write errors in `Save` -/

/-- C10, evaluated on the five-key automaton with an output stream whose
first write call fails with the I/O error 5 and whose later calls succeed.
`WriteHeader` returns that error; `Save` overwrites it with the nil result
of the next `WriteByte(0)`, writes everything but the header, and returns nil. -/
theorem Save_drops_header_write_error :
    (plainCodec.WriteHeader VERSION_CURRENT { written := [], schedule := [some (GoError.io 5)] }).1
      = some (GoError.io 5)
    ∧ arrayFst.Save plainCodec sampleOutputs { written := [], schedule := [some (GoError.io 5)] }
      = (Res.ok (), { written := arraySaved.drop 12, schedule := [] }) := by
  decide!

/-! ## Save, then load -/

/-- C5: for a finished, unpacked FST created for building, a header utility
that round-trips and an output value type that round-trips on the empty
output: on an output that does not fail, `Save` returns nil and writes the
saved format (header, packed flag 0, the empty output absent or present
with its bytes reversed, the input type as 0/1/2, `startNode`, the three
counters, body length and body); `LoadFST` on those bytes returns no error
and an FST with the same fields, caches included (`allowArrayArcs` apart,
which a loaded FST does not carry); and `FindTargetArc` answers alike on
both, for every label, follow arc, cursor and reader. -/
theorem Save_then_LoadFST (c : Codec) (o : Outputs) (g : Value) (fuel : Nat) (t : FST)
    (body bs hdr : List Nat) (failure : GoError)
    (hb : t.BuiltAndFinished o g fuel body) (hc : c.HeaderRoundTrip hdr)
    (ho : t.emptyOutput ≠ Value.nil → o.FinalOutputRoundTrip t.emptyOutput bs) :
    t.Save c o { written := [], schedule := [] }
      = (Res.ok (), { written := savedLayout hdr t bs body, schedule := [] })
    ∧ LoadFST c o g fuel { rest := savedLayout hdr t bs body, failure := failure }
      = Res.ok { fst := some { t with allowArrayArcs := false }, err := none }
    ∧ ∀ (budget : Nat) (label : Int) (follow arc : Arc) (rd : GoLucene.BytesReader),
        FST.FindTargetArc o { t with allowArrayArcs := false } budget label follow arc rd
          = t.FindTargetArc o budget label follow arc rd := by
  refine ⟨Save_writes_layout c o g fuel t body bs hdr hb hc ho, ?_, ?_⟩
  · obtain ⟨r, hfix, hret⟩ := hb.cached
    have h3 := loadEmptyOutput_layout o t
      { FST.blank with version := VERSION_CURRENT, packed := decide (0 % 256 = 1) } bs
      (savedInputType t :: (vlong t.startNode ++ (vlong t.nodeCount ++ (vlong t.arcCount
        ++ (vlong t.arcWithOutputCount ++ (vlong (body.length : Int) ++ body))))))
      failure rfl rfl ho
    have h4 := loadInputType_layout t
      { FST.blank with version := VERSION_CURRENT, packed := decide (0 % 256 = 1),
                       emptyOutput := t.emptyOutput }
      (vlong t.startNode ++ (vlong t.nodeCount ++ (vlong t.arcCount
        ++ (vlong t.arcWithOutputCount ++ (vlong (body.length : Int) ++ body)))))
      failure hb.inputType
    have hsame : SameCode (FST.reloaded o t body) t :=
      ⟨rfl, rfl, hb.store.symm, rfl, hb.noOutput.symm, hb.unpacked.symm, hb.noTable.symm,
        hb.version.symm, hb.noAddress.symm⟩
    have hcache := cacheRootArcs_transfer o g fuel hsame r hfix hret
    have h5 := loadCounters_layout o g fuel t
      { FST.blank with version := VERSION_CURRENT, packed := decide (0 % 256 = 1),
                       emptyOutput := t.emptyOutput, inputType := t.inputType }
      _ body failure r hb.startNode hb.nodeCount hb.arcCount hb.arcWithOutputCount
      hb.bodyLength hcache hret
    have hfinal : ({ FST.reloaded o t body with
          cachedRootArcs := t.cachedRootArcs,
          assertingCachedRootArcs := t.assertingCachedRootArcs } : FST)
        = { t with allowArrayArcs := false } := by
      have hv := hb.version
      have hp := hb.unpacked
      have h1 := hb.noTable
      have h2 := hb.noAddress
      have h6 := hb.noCounts
      have h7 := hb.noOutput
      have h8 := hb.store
      clear hcache h5 hsame h3 h4 hfix hb ho
      unfold FST.reloaded
      cases t
      simp only at hv hp h1 h2 h6 h7 h8
      subst hv hp h1 h2 h6 h7 h8
      rfl
    rw [← hfinal]
    unfold LoadFST savedLayout
    exact loadFST3_reads c o g fuel _ _ _ _ _ VERSION_CURRENT 0 _ _ _
      (hc.2 _ failure) (DataInput.ReadByte_cons 0 _ failure) h3 h4 rfl h5
  · intro budget label follow arc rd
    have hsame : SameCode { t with allowArrayArcs := false } t :=
      ⟨rfl, rfl, rfl, rfl, rfl, rfl, rfl, rfl, rfl⟩
    rw [FindTargetArc_congr o hsame rfl rfl]

theorem plainCodec_roundTrip : plainCodec.HeaderRoundTrip plainHeader := by
  constructor
  · intro written
    have e1 : encodeInt CODEC_MAGIC = [63, 215, 108, 23] := by decide!
    have e2 : encodeVar 4 FST_FILE_FORMAT_NAME.length ++ FST_FILE_FORMAT_NAME = [3, 70, 83, 84] := by
      decide!
    have e3 : encodeInt VERSION_CURRENT = [0, 0, 0, 4] := by decide!
    show writeHeader VERSION_CURRENT { written := written, schedule := [] }
      = (none, { written := written ++ plainHeader, schedule := [] })
    unfold writeHeader DataOutput.WriteInt
    rw [e1, e2, e3]
    simp only [write_no_failure, plainHeader, List.append_assoc, List.cons_append,
      List.nil_append]
  · intro rest failure
    rfl

theorem emptyKeyFst_built :
    emptyKeyFst.BuiltAndFinished sampleOutputs (Value.int64 0) 16 arrayBody :=
  { version := by decide!
    unpacked := by decide!
    noTable := by decide!
    noAddress := by decide!
    noCounts := by decide!
    noOutput := by decide!
    inputType := Or.inl (by decide!)
    startNode := by decide!
    nodeCount := by decide!
    arcCount := by decide!
    arcWithOutputCount := by decide!
    store := by decide!
    bodyBytes := by decide
    bodyLength := by decide
    cached := ⟨Res.ok (), by decide!, Or.inl rfl⟩ }

theorem sampleOutputs_roundTrip :
    sampleOutputs.FinalOutputRoundTrip emptyKeyFst.emptyOutput [7] := by
  have h : emptyKeyFst.emptyOutput = Value.int64 7 := by decide!
  rw [h]
  exact ⟨rfl, by decide, by decide, by decide!⟩

/-- C5 at the five-key automaton with empty output 7: `Save` writes the
saved format (36 bytes), and `LoadFST` gives the FST back. -/
theorem Save_then_LoadFST_witness :
    emptyKeyFst.Save plainCodec sampleOutputs { written := [], schedule := [] }
      = (Res.ok (), { written := savedLayout plainHeader emptyKeyFst [7] arrayBody, schedule := [] })
    ∧ LoadFST plainCodec sampleOutputs (Value.int64 0) 16
        { rest := savedLayout plainHeader emptyKeyFst [7] arrayBody, failure := GoError.EOF }
      = Res.ok { fst := some { emptyKeyFst with allowArrayArcs := false }, err := none }
    ∧ savedLayout plainHeader emptyKeyFst [7] arrayBody
      = [63, 215, 108, 23, 3, 70, 83, 84, 0, 0, 0, 4, 0, 1, 1, 7, 0, 13, 0, 0, 0, 14,
         0, 170, 11, 160, 9, 150, 9, 140, 9, 130, 9, 2, 5, 32] :=
  ⟨(Save_then_LoadFST plainCodec sampleOutputs (Value.int64 0) 16 emptyKeyFst arrayBody [7]
      plainHeader GoError.EOF emptyKeyFst_built plainCodec_roundTrip
      (fun _ => sampleOutputs_roundTrip)).1,
   (Save_then_LoadFST plainCodec sampleOutputs (Value.int64 0) 16 emptyKeyFst arrayBody [7]
      plainHeader GoError.EOF emptyKeyFst_built plainCodec_roundTrip
      (fun _ => sampleOutputs_roundTrip)).2.1,
   by decide!⟩

/-! ## The two root-arc caches -/

theorem FirstArc_target (g : Value) (t : FST) (arc a : Arc) (h : t.FirstArc g arc = Res.ok a) :
    a.target = t.startNode := by
  unfold FST.FirstArc at h
  split at h
  · simp only [Res.ok.injEq] at h
    rw [← h]
  · simp at h

/-- `FirstArc` returns an arc or panics (on an incomparable empty output). -/
theorem FirstArc_outcome (g : Value) (t : FST) (arc : Arc) :
    (∃ a, t.FirstArc g arc = Res.ok a) ∨ (∃ p, t.FirstArc g arc = Res.panic p) := by
  unfold FST.FirstArc
  split
  · exact Or.inl ⟨_, rfl⟩
  · exact Or.inr ⟨_, rfl⟩

theorem readRootArcsLoop_length (o : Outputs) (t : FST) (fuel : Nat) :
    ∀ (n : Nat) (arcs : List (Option Arc)) (arc : Arc) (rd : GoLucene.BytesReader),
      (t.readRootArcsLoop o fuel n arcs arc rd).1.length = arcs.length := by
  intro n
  induction n with
  | zero => intro arcs arc rd; rfl
  | succ n ih =>
    intro arcs arc rd
    unfold FST.readRootArcsLoop
    split
    · rfl
    · split
      · rfl
      · split
        · rfl
        · simp only
          split
          · simp
          · split
            · rw [ih]; simp
            · simp
            · simp
            · simp

theorem readRootArcs_length (o : Outputs) (g : Value) (t : FST) (fuel : Nat)
    (arcs : List (Option Arc)) : (t.readRootArcs o g fuel arcs).1.length = arcs.length := by
  unfold FST.readRootArcs
  split
  · split
    · split
      · split
        · exact readRootArcsLoop_length o t fuel _ _ _ _
        · rfl
        · rfl
        · rfl
      · rfl
    · rfl
    · rfl
    · rfl
  · rfl
  · rfl
  · rfl

theorem assertSlots_nil_slots (k : Nat) :
    assertSlots (List.replicate k none) (List.replicate k none) = Res.ok () := by
  induction k with
  | zero => rfl
  | succ k ih =>
    simp only [List.replicate_succ, assertSlots, assertSlot, ih]


/-- The second `readRootArcs` of `cacheRootArcs` repeats the first. -/
theorem readRootArcs_again (o : Outputs) (g : Value) (fuel : Nat) (t : FST)
    (c : List (Option Arc)) (hc : c.length = 128) :
    FST.readRootArcs o g
        { t with cachedRootArcs := some c, assertingCachedRootArcs := some (List.replicate c.length none) }
        fuel (List.replicate c.length none)
      = FST.readRootArcs o g { t with cachedRootArcs := some (List.replicate 128 none) } fuel
        (List.replicate 128 none) := by
  rw [hc]
  apply readRootArcs_congr o g
  · exact ⟨rfl, rfl, rfl, rfl, rfl, rfl, rfl, rfl, rfl⟩
  · unfold FST.cacheLen
    simp only [hc, List.length_replicate]

/-- When `cacheRootArcs` returns without error, both caches hold the slice
the first `readRootArcs` filled, that slice has 128 slots, and the
consistency check on it passed. -/
theorem cacheRootArcs_ok (o : Outputs) (g : Value) (fuel : Nat) (t cached : FST)
    (h : t.cacheRootArcs o g fuel = (cached, Res.ok ())) :
    ∃ c, cached = { t with cachedRootArcs := some c, assertingCachedRootArcs := some c }
      ∧ c.length = 128 ∧ assertSlots c c = Res.ok ()
      ∧ FST.readRootArcs o g { t with cachedRootArcs := some (List.replicate 128 none) } fuel
          (List.replicate 128 none) = (c, Res.ok ()) := by
  have hl := readRootArcs_length o g { t with cachedRootArcs := some (List.replicate 128 none) }
    fuel (List.replicate 128 none)
  unfold FST.cacheRootArcs at h
  simp only at h
  generalize hq : FST.readRootArcs o g { t with cachedRootArcs := some (List.replicate 128 none) }
    fuel (List.replicate 128 none) = q at h hl
  obtain ⟨c, r1⟩ := q
  simp only [List.length_replicate] at hl
  have h2 := readRootArcs_again o g fuel t c hl
  rw [hq] at h2
  cases r1 with
  | panic p => simp at h
  | outOfFuel => simp at h
  | ok u =>
    simp only at h
    rw [h2] at h
    simp only [Prod.mk.injEq] at h
    refine ⟨c, h.1.symm, hl, ?_, rfl⟩
    have := h.2
    unfold FST.assertRootArcs at this
    exact this
  | err e =>
    simp only at h
    rw [h2] at h
    simp at h

/-- On an FST whose start node is a stop sentinel, a `cacheRootArcs` that
returns leaves both caches with 128 nil slots and reports no error. -/
theorem cacheRootArcs_no_arcs (o : Outputs) (g : Value) (fuel : Nat) (t cached : FST)
    (r : Res Unit) (hstart : t.startNode ≤ 0)
    (h : t.cacheRootArcs o g fuel = (cached, r))
    (hret : r = Res.ok () ∨ ∃ e, r = Res.err e) :
    r = Res.ok ()
    ∧ cached = { t with cachedRootArcs := some (List.replicate 128 none),
                        assertingCachedRootArcs := some (List.replicate 128 none) } := by
  have key : ∀ (s : FST) (arcs : List (Option Arc)), s.startNode = t.startNode →
      s.readRootArcs o g fuel arcs = (arcs, Res.ok ())
      ∨ ∃ p, s.readRootArcs o g fuel arcs = (arcs, Res.panic p) := by
    intro s arcs hs
    unfold FST.readRootArcs
    rcases FirstArc_outcome g s Arc.zero with ⟨a, ha⟩ | ⟨p, hp⟩
    · have hta : targetHasArcs a = false := by
        unfold targetHasArcs
        rw [FirstArc_target g s _ _ ha, hs]
        simp only [gt_iff_lt, decide_eq_false_iff_not, not_lt]
        exact hstart
      rw [ha]
      simp only [hta, Bool.false_eq_true, if_false]
      unfold FST.BytesReader
      cases s.bytes with
      | none => exact Or.inr ⟨_, rfl⟩
      | some b => exact Or.inl rfl
    · rw [hp]
      exact Or.inr ⟨_, rfl⟩
  unfold FST.cacheRootArcs at h
  simp only at h
  rcases key { t with cachedRootArcs := some (List.replicate 128 none) }
      (List.replicate 128 none) rfl with h1 | ⟨p, h1⟩
  · rw [h1] at h
    simp only [List.length_replicate] at h
    rcases key { t with cachedRootArcs := some (List.replicate 128 none), assertingCachedRootArcs := some (List.replicate 128 none) }
        (List.replicate 128 none) rfl with h2 | ⟨p, h2⟩
    · rw [h2] at h
      simp only [FST.assertRootArcs, assertSlots_nil_slots, Prod.mk.injEq] at h
      exact ⟨h.2.symm, h.1.symm⟩
    · rw [h2] at h
      simp only [Prod.mk.injEq] at h
      rcases hret with hr | ⟨e, hr⟩ <;> rw [hr] at h <;> simp at h
  · rw [h1] at h
    simp only [Prod.mk.injEq] at h
    rcases hret with hr | ⟨e, hr⟩ <;> rw [hr] at h <;> simp at h

/-- A slice that passes the slot checks against itself passes them at
every index. -/
theorem assertSlots_same_slot (c : List (Option Arc)) (h : assertSlots c c = Res.ok ()) :
    ∀ i : Nat, assertSlot (c.getD i none) (c.getD i none) = Res.ok () := by
  induction c with
  | nil =>
    intro i
    simp [assertSlot]
  | cons x rest ih =>
    unfold assertSlots at h
    cases hx : assertSlot x x with
    | ok u =>
      rw [hx] at h
      intro i
      cases i with
      | zero => simpa using hx
      | succ k => simpa using ih h k
    | err e => rw [hx] at h; simp at h
    | panic p => rw [hx] at h; simp at h
    | outOfFuel => rw [hx] at h; simp at h


/-! ## `readNextRealArc` as field decoding followed by target resolution -/

theorem StM.bind_assoc {σ α β γ : Type} (m : StM σ α) (f : α → StM σ β) (g : β → StM σ γ) :
    (m >>= f) >>= g = m >>= fun a => f a >>= g := by
  funext s
  simp only [StM.bind_apply]
  rcases m s with ⟨r, s1⟩
  cases r <;> rfl

theorem readNextRealArc_eq (o : Outputs) (t : FST) (fuel : Nat) (arc : Arc) :
    t.readNextRealArc o fuel arc = (t.readArcFields o arc >>= t.resolveTarget o fuel) := by
  unfold FST.readNextRealArc FST.readArcFields
  simp only [StM.bind_assoc]

theorem readNextRealArc_of_fields (o : Outputs) (t : FST) (fuel : Nat) (arc fields : Arc)
    (rd rdF : GoLucene.BytesReader) (hf : t.readArcFields o arc rd = (Res.ok fields, rdF)) :
    t.readNextRealArc o fuel arc rd = t.resolveTarget o fuel fields rdF := by
  rw [readNextRealArc_eq]
  exact StM.bind_ok hf


/-! ## The root shortcut of `FindTargetArc` -/

/-- With a cache of 128 slots that passes `assertRootArcs`, a lookup from
the start node for a label in `0..127` is answered by slot `label`. -/
theorem FindTargetArc_shortcut (o : Outputs) (t : FST) (fuel : Nat) (label : Int)
    (follow arc : Arc) (rd : GoLucene.BytesReader) (c : List (Option Arc))
    (hc : t.cachedRootArcs = some c) (hlen : c.length = 128)
    (hassert : t.assertRootArcs = Res.ok ())
    (hf : follow.target = t.startNode) (h0 : 0 ≤ label) (h1 : label < 128) :
    t.FindTargetArc o fuel label follow arc rd
      = match c.getD label.toNat none with
        | some result => Res.ok { target := some ArcRef.arc, arc := arc.copyFrom result, rd := rd }
        | none => Res.ok { target := none, arc := arc, rd := rd } := by
  have hne : label ≠ FST_END_LABEL := by
    unfold FST_END_LABEL
    omega
  have hcl : t.cacheLen = 128 := by
    unfold FST.cacheLen
    rw [hc]
    simp only [hlen, Nat.cast_ofNat]
  unfold FST.FindTargetArc
  rw [if_neg hne, if_pos ⟨hf, by rw [hcl]; exact h1⟩, hassert]
  simp only [hc, h0, if_true]

/-- A lookup with a label that is not the end label, from an arc whose
target is a stop sentinel, reports not-found and leaves cursor and reader
alone, provided that the caches hold 128 nil slots whenever the shortcut
applies. -/
theorem FindTargetArc_stop (o : Outputs) (t : FST) (fuel : Nat) (label : Int)
    (follow arc : Arc) (rd : GoLucene.BytesReader) (h0 : 0 ≤ label) (hft : follow.target ≤ 0)
    (hc : follow.target = t.startNode → label < t.cacheLen →
      t.cachedRootArcs = some (List.replicate 128 none)
      ∧ t.assertingCachedRootArcs = some (List.replicate 128 none)) :
    t.FindTargetArc o fuel label follow arc rd
      = Res.ok { target := none, arc := arc, rd := rd } := by
  by_cases hs : follow.target = t.startNode ∧ label < t.cacheLen
  · obtain ⟨hc1, hc2⟩ := hc hs.1 hs.2
    have hl : label < 128 := by
      have := hs.2
      unfold FST.cacheLen at this
      rw [hc1] at this
      simpa using this
    have ha : t.assertRootArcs = Res.ok () := by
      unfold FST.assertRootArcs
      rw [hc1, hc2]
      exact assertSlots_nil_slots 128
    rw [FindTargetArc_shortcut o t fuel label follow arc rd _ hc1 (List.length_replicate _ _) ha
      hs.1 h0 hl]
    have hg : (List.replicate 128 (none : Option Arc)).getD label.toNat none = none := by
      rw [List.getD_eq_getElem?_getD, List.getElem?_replicate]
      split <;> rfl
    rw [hg]
  · have hne : label ≠ FST_END_LABEL := by
      unfold FST_END_LABEL
      omega
    have hta : targetHasArcs follow = false := by
      unfold targetHasArcs
      simp only [gt_iff_lt, decide_eq_false_iff_not, not_lt]
      exact hft
    unfold FST.FindTargetArc
    rw [if_neg hne, if_neg hs]
    simp only [hta, Bool.not_false, if_true]

/-- On an FST with a byte store whose start node is a stop sentinel and
whose `FirstArc` does not panic, `cacheRootArcs` returns without error and
sets both caches to 128 nil slots. -/
theorem cacheRootArcs_sentinel (o : Outputs) (g : Value) (fuel : Nat) (t : FST) (b : BytesStore)
    (p : Nat × Value) (hstart : t.startNode ≤ 0) (hb : t.bytes = some b)
    (hfa : t.firstArcFlags g = Except.ok p) :
    t.cacheRootArcs o g fuel
      = ({ t with cachedRootArcs := some (List.replicate 128 none),
                  assertingCachedRootArcs := some (List.replicate 128 none) }, Res.ok ()) := by
  have key : ∀ (s : FST) (arcs : List (Option Arc)), s.startNode = t.startNode →
      s.bytes = t.bytes → s.firstArcFlags g = t.firstArcFlags g →
      s.readRootArcs o g fuel arcs = (arcs, Res.ok ()) := by
    intro s arcs hs hsb hsf
    unfold FST.readRootArcs
    have ha : ∃ a, s.FirstArc g Arc.zero = Res.ok a := by
      unfold FST.FirstArc
      rw [hsf, hfa]
      exact ⟨_, rfl⟩
    obtain ⟨a, ha⟩ := ha
    rw [ha]
    have hbr : ∃ r, s.BytesReader = Res.ok r := by
      unfold FST.BytesReader
      rw [hsb, hb]
      exact ⟨_, rfl⟩
    obtain ⟨r, hr⟩ := hbr
    rw [hr]
    have hta : targetHasArcs a = false := by
      unfold targetHasArcs
      rw [FirstArc_target g s _ _ ha, hs]
      simp only [gt_iff_lt, decide_eq_false_iff_not, not_lt]
      exact hstart
    simp only [hta, Bool.false_eq_true, if_false]
  unfold FST.cacheRootArcs
  simp only
  rw [key { t with cachedRootArcs := some (List.replicate 128 none) } _ rfl rfl rfl]
  simp only [List.length_replicate]
  rw [key { t with cachedRootArcs := some (List.replicate 128 none), assertingCachedRootArcs := some (List.replicate 128 none) } _ rfl rfl rfl]
  simp only [FST.assertRootArcs, assertSlots_nil_slots]

/-- The first `finish` of an FST with a byte store, with a start node that
is stored as a stop sentinel: it returns without error, stores the start
node and sets both caches to 128 nil slots. -/
theorem finish_sentinel (o : Outputs) (g : Value) (fuel : Nat) (t : FST) (b : BytesStore)
    (p : Nat × Value) (n : Int) (hfresh : t.startNode = -1) (hb : t.bytes = some b)
    (hfa : t.firstArcFlags g = Except.ok p)
    (hn : (if n = FST_FINAL_END_NODE ∧ t.emptyOutput ≠ Value.nil then 0 else n) ≤ 0) :
    t.finish o g fuel n
      = ({ t with startNode := if n = FST_FINAL_END_NODE ∧ t.emptyOutput ≠ Value.nil then 0 else n,
                  cachedRootArcs := some (List.replicate 128 none),
                  assertingCachedRootArcs := some (List.replicate 128 none) }, Res.ok ()) := by
  unfold FST.finish
  simp only [hfresh, assert2, decide_True, if_true]
  split
  · next hnone =>
      rw [hb] at hnone
      cases hnone
  · exact cacheRootArcs_sentinel o g fuel
      { t with startNode := if n = FST_FINAL_END_NODE ∧ t.emptyOutput ≠ Value.nil then 0 else n }
      b p hn hb hfa

theorem FindTargetArc_end_not_final (o : Outputs) (t : FST) (fuel : Nat) (follow arc : Arc)
    (rd : GoLucene.BytesReader) (h : follow.IsFinal = false) :
    t.FindTargetArc o fuel FST_END_LABEL follow arc rd
      = Res.ok { target := none, arc := arc, rd := rd } := by
  simp [FST.FindTargetArc, h]

theorem FindTargetArc_end_final (o : Outputs) (t : FST) (fuel : Nat) (follow arc : Arc)
    (rd : GoLucene.BytesReader) (h : follow.IsFinal = true) :
    ∃ lk, t.FindTargetArc o fuel FST_END_LABEL follow arc rd = Res.ok lk
      ∧ lk.target = some ArcRef.arc ∧ lk.arc.Output = follow.NextFinalOutput := by
  refine ⟨_, by simp only [FST.FindTargetArc, if_true, h]; rfl, rfl, rfl⟩

/-- The fields of a cursor after `copyFrom`: the eight fields copied always
are those of the other arc, the three that belong to a fixed array are
those of the other arc when its stride is not 0 and are kept otherwise. -/
theorem copyFrom_fields (arc other : Arc) :
    (arc.copyFrom other).node = other.node
    ∧ (arc.copyFrom other).Label = other.Label
    ∧ (arc.copyFrom other).target = other.target
    ∧ (arc.copyFrom other).flags = other.flags
    ∧ (arc.copyFrom other).Output = other.Output
    ∧ (arc.copyFrom other).NextFinalOutput = other.NextFinalOutput
    ∧ (arc.copyFrom other).nextArc = other.nextArc
    ∧ (arc.copyFrom other).bytesPerArc = other.bytesPerArc
    ∧ (other.bytesPerArc ≠ 0 →
        (arc.copyFrom other).posArcsStart = other.posArcsStart
        ∧ (arc.copyFrom other).arcIdx = other.arcIdx
        ∧ (arc.copyFrom other).numArcs = other.numArcs)
    ∧ (other.bytesPerArc = 0 →
        (arc.copyFrom other).posArcsStart = arc.posArcsStart
        ∧ (arc.copyFrom other).arcIdx = arc.arcIdx
        ∧ (arc.copyFrom other).numArcs = arc.numArcs) := by
  unfold Arc.copyFrom
  simp only
  by_cases h : other.bytesPerArc = 0
  · rw [if_neg (not_not.mpr h)]
    exact ⟨rfl, rfl, rfl, rfl, rfl, rfl, rfl, rfl, fun hne => absurd h hne,
      fun _ => ⟨rfl, rfl, rfl⟩⟩
  · rw [if_pos h]
    exact ⟨rfl, rfl, rfl, rfl, rfl, rfl, rfl, rfl, fun _ => ⟨rfl, rfl, rfl⟩,
      fun h0 => absurd h0 h⟩


/-! ## What `readRootArcs` leaves in the slots -/

theorem getD_set_slot (l : List (Option Arc)) (j i : Nat) (a : Option Arc) :
    (l.set j a).getD i none = if j = i ∧ j < l.length then a else l.getD i none := by
  rw [List.getD_eq_getElem?_getD, List.getElem?_set, List.getD_eq_getElem?_getD]
  by_cases h1 : j = i
  · by_cases h2 : j < l.length
    · subst h1
      simp [h2]
    · subst h1
      simp [h2]
      have : l[j]? = none := List.getElem?_eq_none (by omega)
      simp [this]
  · simp [h1]

theorem Res.map_eq_ok {α β : Type} {f : α → β} {r : Res α} {b : β}
    (h : r.map f = Res.ok b) : ∃ a, r = Res.ok a ∧ f a = b := by
  cases r with
  | ok a =>
    simp only [Res.map, Res.ok.injEq] at h
    exact ⟨a, rfl, h⟩
  | err e => simp [Res.map] at h
  | panic p => simp [Res.map] at h
  | outOfFuel => simp [Res.map] at h

theorem arcsFrom_congr (o : Outputs) {a b : FST} (h : SameCode a b) (fuel : Nat) :
    ∀ n arc rd, a.arcsFrom o fuel n arc rd = b.arcsFrom o fuel n arc rd := by
  intro n
  induction n with
  | zero => intro arc rd; rfl
  | succ n ih =>
    intro arc rd
    unfold FST.arcsFrom
    rw [readNextRealArc_congr o h]
    simp only [ih]

theorem rootArcs_congr (o : Outputs) (g : Value) {a b : FST} (h : SameCode a b)
    (fuel budget : Nat) : a.rootArcs o g fuel budget = b.rootArcs o g fuel budget := by
  unfold FST.rootArcs
  rw [FirstArc_congr g h, BytesReader_congr h, readFirstRealTargetArc_congr o h]
  simp only [arcsFrom_congr o h]

/-- The list `arcsFrom` returns starts with the arc it was given. -/
theorem arcsFrom_head (o : Outputs) (t : FST) (fuel : Nat) (n : Nat) (arc : Arc)
    (rd : GoLucene.BytesReader) (as : List Arc) (h : t.arcsFrom o fuel n arc rd = Res.ok as) :
    ∃ rest, as = arc :: rest := by
  cases n with
  | zero => simp [FST.arcsFrom] at h
  | succ n =>
    unfold FST.arcsFrom at h
    split at h
    · simp only [Res.ok.injEq] at h
      exact ⟨[], h.symm⟩
    · split at h
      · obtain ⟨rest, _, hr⟩ := Res.map_eq_ok h
        exact ⟨rest, hr.symm⟩
      · simp at h
      · simp at h
      · simp at h

/-- The loop of `readRootArcs` against the arcs of the node, when these
carry strictly ascending labels: a slot below 128 whose index is the label
of an arc holds the copy of that arc, and every other slot is as before. -/
theorem readRootArcsLoop_slots (o : Outputs) (t : FST) (fuel : Nat) (hlen : t.cacheLen = 128) :
    ∀ (n m : Nat) (arcs : List (Option Arc)) (arc : Arc) (rd : GoLucene.BytesReader)
      (as : List Arc) (arcs1 : List (Option Arc)) (r : Res Unit),
      arcs.length = 128 →
      t.arcsFrom o fuel m arc rd = Res.ok as →
      as.Pairwise (fun a b => a.Label < b.Label) →
      t.readRootArcsLoop o fuel n arcs arc rd = (arcs1, r) →
      (r = Res.ok () ∨ ∃ e, r = Res.err e) →
      ∀ l : Nat, l < 128 →
        (∀ a ∈ as, a.Label = (l : Int) → arcs1.getD l none = some (Arc.zero.copyFrom a))
        ∧ ((∀ a ∈ as, a.Label ≠ (l : Int)) → arcs1.getD l none = arcs.getD l none) := by
  intro n
  induction n with
  | zero =>
    intro m arcs arc rd as arcs1 r _ _ _ hloop hret
    simp only [FST.readRootArcsLoop, Prod.mk.injEq] at hloop
    rcases hret with hr | ⟨e, hr⟩ <;> rw [hr] at hloop <;> simp at hloop
  | succ n ih =>
    intro m arcs arc rd as arcs1 r hal has hord hloop hret l hl
    obtain ⟨rest, hrest⟩ := arcsFrom_head o t fuel m arc rd as has
    subst hrest
    have hgt : ∀ a ∈ rest, arc.Label < a.Label := (List.pairwise_cons.mp hord).1
    unfold FST.readRootArcsLoop at hloop
    split at hloop
    · simp only [Prod.mk.injEq] at hloop
      rcases hret with hr | ⟨e, hr⟩ <;> rw [hr] at hloop <;> simp at hloop
    · split at hloop
      · next hge =>
          rw [hlen] at hge
          simp only [Prod.mk.injEq] at hloop
          rw [← hloop.1]
          constructor
          · intro a ha hla
            rcases List.mem_cons.mp ha with h1 | h1
            · subst h1; omega
            · have := hgt a h1; omega
          · intro _; rfl
      · split at hloop
        · simp only [Prod.mk.injEq] at hloop
          rcases hret with hr | ⟨e, hr⟩ <;> rw [hr] at hloop <;> simp at hloop
        · next hne hlt hin =>
            simp only [not_not] at hin
            have hk : arc.Label.toNat < arcs.length := by omega
            have hkl : (arc.Label.toNat : Int) = arc.Label := Int.toNat_of_nonneg hin.1
            simp only at hloop
            cases m with
            | zero => simp [FST.arcsFrom] at has
            | succ m =>
              unfold FST.arcsFrom at has
              split at hloop
              · next hlast =>
                  rw [if_pos hlast] at has
                  simp only [Res.ok.injEq, List.cons.injEq] at has
                  simp only [Prod.mk.injEq] at hloop
                  rw [← hloop.1, ← has.2, getD_set_slot]
                  constructor
                  · intro a ha hla
                    simp only [List.mem_cons, List.not_mem_nil, or_false] at ha
                    subst ha
                    have : a.Label.toNat = l := by omega
                    rw [if_pos ⟨this, hk⟩]
                  · intro hall
                    have := hall arc (List.mem_cons_self _ _)
                    have hnk : ¬ (arc.Label.toNat = l ∧ arc.Label.toNat < arcs.length) := by
                      intro h; omega
                    rw [if_neg hnk]
              · next hlast =>
                  rw [if_neg hlast] at has
                  split at hloop
                  · next arc1 rd1 hnext =>
                      rw [hnext] at has
                      simp only at has
                      obtain ⟨rest1, hrest1, hr1⟩ := Res.map_eq_ok has
                      simp only [List.cons.injEq, true_and] at hr1
                      subst hr1
                      have hih := ih m _ arc1 rd1 rest1 arcs1 r
                        (by rw [List.length_set]; exact hal) hrest1
                        (List.pairwise_cons.mp hord).2 hloop hret l hl
                      rw [getD_set_slot] at hih
                      constructor
                      · intro a ha hla
                        rcases List.mem_cons.mp ha with h1 | h1
                        · subst h1
                          have hno : ∀ b ∈ rest1, b.Label ≠ (l : Int) := by
                            intro b hb
                            have := hgt b hb
                            omega
                          have : a.Label.toNat = l := by omega
                          rw [hih.2 hno, if_pos ⟨this, hk⟩]
                        · exact hih.1 a h1 hla
                      · intro hall
                        have h0 := hall arc (List.mem_cons_self _ _)
                        have hnk : ¬ (arc.Label.toNat = l ∧ arc.Label.toNat < arcs.length) := by
                          intro h; omega
                        rw [hih.2 (fun b hb => hall b (List.mem_cons_of_mem _ hb)), if_neg hnk]
                  · next e rd1 hnext =>
                      rw [hnext] at has
                      simp at has
                  · next p rd1 hnext =>
                      rw [hnext] at has
                      simp at has
                  · next rd1 hnext =>
                      rw [hnext] at has
                      simp at has


/-- The slots `readRootArcs` leaves in a slice of 128 nil slots, against
the arcs of the start node. -/
theorem readRootArcs_slots (o : Outputs) (g : Value) (t : FST) (fuel budget : Nat)
    (as : List Arc) (arcs1 : List (Option Arc)) (r : Res Unit) (hlen : t.cacheLen = 128)
    (hroot : t.rootArcs o g fuel budget = Res.ok as)
    (hord : as.Pairwise (fun a b => a.Label < b.Label))
    (hread : t.readRootArcs o g fuel (List.replicate 128 none) = (arcs1, r))
    (hret : r = Res.ok () ∨ ∃ e, r = Res.err e) :
    ∀ l : Nat, l < 128 →
      (∀ a ∈ as, a.Label = (l : Int) → arcs1.getD l none = some (Arc.zero.copyFrom a))
      ∧ ((∀ a ∈ as, a.Label ≠ (l : Int)) → arcs1.getD l none = none) := by
  have hnil : ∀ l : Nat, (List.replicate 128 (none : Option Arc)).getD l none = none := by
    intro l
    rw [List.getD_eq_getElem?_getD, List.getElem?_replicate]
    split <;> rfl
  intro l hl
  unfold FST.rootArcs at hroot
  unfold FST.readRootArcs at hread
  split at hroot
  · next arc hfa =>
      rw [hfa] at hread
      simp only at hread
      split at hroot
      · next rd hrd =>
          rw [hrd] at hread
          simp only at hread
          split at hroot
          · next hta =>
              rw [if_pos hta] at hread
              split at hroot
              · next arc1 rd1 hfirst =>
                  rw [hfirst] at hread
                  simp only at hread
                  have := readRootArcsLoop_slots o t fuel hlen fuel budget
                    (List.replicate 128 none) arc1 rd1 as arcs1 r (List.length_replicate _ _)
                    hroot hord hread hret l hl
                  rw [hnil] at this
                  exact this
              · simp at hroot
              · simp at hroot
              · simp at hroot
          · next hta =>
              rw [if_neg hta] at hread
              simp only [Res.ok.injEq] at hroot
              simp only [Prod.mk.injEq] at hread
              rw [← hroot, ← hread.1]
              constructor
              · intro a ha
                simp at ha
              · intro _
                exact hnil l
      · simp at hroot
      · simp at hroot
      · simp at hroot
  · simp at hroot
  · simp at hroot
  · simp at hroot

/-- When `cacheRootArcs` returns, with or without error, the cache it
leaves is the slice its first `readRootArcs` filled, and that call returned. -/
theorem cacheRootArcs_returned (o : Outputs) (g : Value) (fuel : Nat) (t cached : FST)
    (r : Res Unit) (h : t.cacheRootArcs o g fuel = (cached, r))
    (hret : r = Res.ok () ∨ ∃ e, r = Res.err e) :
    ∃ c r1, FST.readRootArcs o g { t with cachedRootArcs := some (List.replicate 128 none) } fuel
          (List.replicate 128 none) = (c, r1)
      ∧ (r1 = Res.ok () ∨ ∃ e, r1 = Res.err e)
      ∧ cached.cachedRootArcs = some c ∧ c.length = 128 := by
  have hl := readRootArcs_length o g { t with cachedRootArcs := some (List.replicate 128 none) }
    fuel (List.replicate 128 none)
  unfold FST.cacheRootArcs at h
  simp only at h
  generalize hq : FST.readRootArcs o g { t with cachedRootArcs := some (List.replicate 128 none) }
    fuel (List.replicate 128 none) = q at h hl
  obtain ⟨c, r1⟩ := q
  simp only [List.length_replicate] at hl
  cases r1 with
  | panic p =>
    simp only [Prod.mk.injEq] at h
    rcases hret with hr | ⟨e, hr⟩ <;> rw [hr] at h <;> simp at h
  | outOfFuel =>
    simp only [Prod.mk.injEq] at h
    rcases hret with hr | ⟨e, hr⟩ <;> rw [hr] at h <;> simp at h
  | ok u =>
    refine ⟨c, Res.ok (), rfl, Or.inl rfl, ?_, hl⟩
    simp only at h
    split at h
    · simp only [Prod.mk.injEq] at h
      rw [← h.1]
    · simp only [Prod.mk.injEq] at h
      rw [← h.1]
  | err e =>
    refine ⟨c, Res.err e, rfl, Or.inr ⟨e, rfl⟩, ?_, hl⟩
    simp only at h
    split at h
    · simp only [Prod.mk.injEq] at h
      rw [← h.1]
    · simp only [Prod.mk.injEq] at h
      rw [← h.1]

/-! ## `readRootArcs` returns when the arcs decode and the labels are not negative -/

theorem readRootArcsLoop_returns (o : Outputs) (t : FST) (fuel : Nat) (hlen : t.cacheLen = 128) :
    ∀ (n m : Nat) (arcs : List (Option Arc)) (arc : Arc) (rd : GoLucene.BytesReader)
      (as : List Arc),
      arcs.length = 128 →
      t.arcsFrom o fuel m arc rd = Res.ok as →
      (∀ a ∈ as, 0 ≤ a.Label) →
      as.length ≤ n →
      ∃ arcs1, t.readRootArcsLoop o fuel n arcs arc rd = (arcs1, Res.ok ()) := by
  intro n
  induction n with
  | zero =>
    intro m arcs arc rd as _ has _ hn
    obtain ⟨rest, hrest⟩ := arcsFrom_head o t fuel m arc rd as has
    subst hrest
    simp at hn
  | succ n ih =>
    intro m arcs arc rd as hal has hnn hn
    obtain ⟨rest, hrest⟩ := arcsFrom_head o t fuel m arc rd as has
    subst hrest
    have h0 : 0 ≤ arc.Label := hnn arc (List.mem_cons_self _ _)
    have hne : arc.Label ≠ FST_END_LABEL := by
      unfold FST_END_LABEL
      omega
    unfold FST.readRootArcsLoop
    rw [if_neg hne, hlen]
    by_cases hge : arc.Label ≥ 128
    · rw [if_pos hge]
      exact ⟨_, rfl⟩
    · rw [if_neg hge]
      have hin : 0 ≤ arc.Label ∧ arc.Label < (arcs.length : Int) := by
        rw [hal]
        constructor
        · exact h0
        · push_cast
          omega
      rw [if_neg (not_not.mpr hin)]
      simp only
      cases m with
      | zero => simp [FST.arcsFrom] at has
      | succ m =>
        unfold FST.arcsFrom at has
        by_cases hlast : arc.isLast = true
        · rw [if_pos hlast]
          exact ⟨_, rfl⟩
        · rw [if_neg hlast] at has
          rw [if_neg hlast]
          split at has
          · next arc1 rd1 hnext =>
              obtain ⟨rest1, hrest1, hr1⟩ := Res.map_eq_ok has
              simp only [List.cons.injEq, true_and] at hr1
              subst hr1
              exact ih m _ arc1 rd1 rest1 (by rw [List.length_set]; exact hal) hrest1
                (fun a ha => hnn a (List.mem_cons_of_mem _ ha))
                (by simp only [List.length_cons] at hn; omega)
          · simp at has
          · simp at has
          · simp at has

theorem readRootArcs_returns (o : Outputs) (g : Value) (t : FST) (fuel budget : Nat)
    (as : List Arc) (hlen : t.cacheLen = 128)
    (hroot : t.rootArcs o g fuel budget = Res.ok as)
    (hnn : ∀ a ∈ as, 0 ≤ a.Label) (hfuel : as.length ≤ fuel) :
    ∃ arcs1, t.readRootArcs o g fuel (List.replicate 128 none) = (arcs1, Res.ok ()) := by
  generalize hq : t.readRootArcs o g fuel (List.replicate 128 none) = q
  obtain ⟨arcs1, r⟩ := q
  suffices hr : r = Res.ok () by
    rw [hr]
    exact ⟨arcs1, rfl⟩
  unfold FST.rootArcs at hroot
  unfold FST.readRootArcs at hq
  split at hroot
  · next arc hfa =>
      rw [hfa] at hq
      simp only at hq
      split at hroot
      · next rd hrd =>
          rw [hrd] at hq
          simp only at hq
          split at hroot
          · next hta =>
              rw [if_pos hta] at hq
              split at hroot
              · next arc1 rd1 hfirst =>
                  rw [hfirst] at hq
                  simp only at hq
                  obtain ⟨arcs2, h2⟩ := readRootArcsLoop_returns o t fuel hlen fuel budget
                    (List.replicate 128 none) arc1 rd1 as (List.length_replicate _ _)
                    hroot hnn hfuel
                  rw [h2] at hq
                  simp only [Prod.mk.injEq] at hq
                  exact hq.2.symm
              · simp at hroot
              · simp at hroot
              · simp at hroot
          · next hta =>
              rw [if_neg hta] at hq
              simp only [Prod.mk.injEq] at hq
              exact hq.2.symm
      · simp at hroot
      · simp at hroot
      · simp at hroot
  · simp at hroot
  · simp at hroot
  · simp at hroot

/-! ## The consistency check of a slice against itself -/

theorem assertSlot_self (x : Arc)
    (h1 : equals x.NextFinalOutput x.NextFinalOutput = Res.ok true)
    (h2 : equals x.Output x.Output = Res.ok true) :
    assertSlot (some x) (some x) = Res.ok () := by
  unfold assertSlot
  simp only [ne_eq, not_true_eq_false, if_false, h1, h2]

theorem assertSlots_self (c : List (Option Arc))
    (h : ∀ x, some x ∈ c → assertSlot (some x) (some x) = Res.ok ()) :
    assertSlots c c = Res.ok () := by
  induction c with
  | nil => rfl
  | cons s rest ih =>
    unfold assertSlots
    have hs : assertSlot s s = Res.ok () := by
      cases s with
      | none => rfl
      | some x => exact h x (List.mem_cons_self _ _)
    rw [hs]
    exact ih (fun x hx => h x (List.mem_cons_of_mem _ hx))

theorem copyFrom_outputs (arc other : Arc) :
    (arc.copyFrom other).Output = other.Output
    ∧ (arc.copyFrom other).NextFinalOutput = other.NextFinalOutput := by
  unfold Arc.copyFrom
  simp only
  split <;> exact ⟨rfl, rfl⟩

theorem SameCode.setCache (t : FST) (c : Option (List (Option Arc))) :
    SameCode { t with cachedRootArcs := c } t :=
  ⟨rfl, rfl, rfl, rfl, rfl, rfl, rfl, rfl, rfl⟩

theorem rootArcs_setCache (o : Outputs) (g : Value) (t : FST) (fuel budget : Nat)
    (c : Option (List (Option Arc))) :
    FST.rootArcs o g { t with cachedRootArcs := c } fuel budget = t.rootArcs o g fuel budget :=
  rootArcs_congr o g (SameCode.setCache t c) fuel budget


/-! ## Node serialization and documents -/

/-- C12. `addNode` does not serialize a node that has arcs: on every FST
with a byte store and every node whose arc count is not zero it panics with
"not implemented yet", returns no address and leaves the byte store as it
was. -/
theorem addNode_with_arcs_not_implemented (t : FST) (nodeIn : UnCompiledNode) (b : BytesStore)
    (hb : t.bytes = some b) (harcs : nodeIn.NumArcs ≠ 0) :
    t.addNode nodeIn = (t, Res.panic Panic.notImplementedYet) := by
  unfold FST.addNode
  rw [hb]
  simp only [harcs, if_false]

theorem addNode_with_arcs_not_implemented_witness :
    (newFST sampleOutputs INPUT_TYPE_BYTE1 false true).addNode { NumArcs := 1, IsFinal := false }
      = (newFST sampleOutputs INPUT_TYPE_BYTE1 false true, Res.panic Panic.notImplementedYet) :=
  addNode_with_arcs_not_implemented (newFST sampleOutputs INPUT_TYPE_BYTE1 false true)
    { NumArcs := 1, IsFinal := false } { data := [0] } rfl (by decide)

/-- C13. For a node with zero arcs `addNode` returns the stop sentinel
without error, -1 when the node is final and 0 otherwise, and the FST after
the call is the FST before it: byte store, start node and counters are the
same. -/
theorem addNode_zero_arcs_sentinel (t : FST) (nodeIn : UnCompiledNode) (b : BytesStore)
    (hb : t.bytes = some b) (harcs : nodeIn.NumArcs = 0) :
    t.addNode nodeIn = (t, Res.ok (if nodeIn.IsFinal then -1 else 0))
    ∧ (t.addNode nodeIn).1.bytes = t.bytes
    ∧ (t.addNode nodeIn).1.startNode = t.startNode
    ∧ (t.addNode nodeIn).1.nodeCount = t.nodeCount
    ∧ (t.addNode nodeIn).1.arcCount = t.arcCount
    ∧ (t.addNode nodeIn).1.arcWithOutputCount = t.arcWithOutputCount := by
  have h : t.addNode nodeIn = (t, Res.ok (if nodeIn.IsFinal then -1 else 0)) := by
    unfold FST.addNode
    rw [hb]
    simp only [harcs, if_true]
    cases nodeIn.IsFinal <;> rfl
  rw [h]
  exact ⟨rfl, rfl, rfl, rfl, rfl, rfl⟩

theorem addNode_zero_arcs_sentinel_witness :
    (newFST sampleOutputs INPUT_TYPE_BYTE1 false true).addNode { NumArcs := 0, IsFinal := true }
      = (newFST sampleOutputs INPUT_TYPE_BYTE1 false true, Res.ok (-1)) :=
  (addNode_zero_arcs_sentinel (newFST sampleOutputs INPUT_TYPE_BYTE1 false true)
    { NumArcs := 0, IsFinal := true } { data := [0] } rfl rfl).1

/-- C18. `Document.Get` returns the string value of the first field, in
the order of the field list, whose name is the given name and whose string
value is not empty, and the empty string when there is no such field;
`Add` appends the field to the field list. -/
theorem Document_Get_first_string_value (doc : Document) (name : String) (f : IndexableField) :
    doc.Get name
        = ((doc.Fields.find? (fun x => decide (x.Name = name ∧ x.StringValue ≠ ""))).map
            (fun x => x.StringValue)).getD ""
    ∧ ((∀ x ∈ doc.Fields, x.Name = name → x.StringValue = "") → doc.Get name = "")
    ∧ (doc.Add f).Fields = doc.Fields ++ [f] := by
  have key : ∀ fs : List IndexableField, getLoop name fs
      = ((fs.find? (fun x => decide (x.Name = name ∧ x.StringValue ≠ ""))).map
          (fun x => x.StringValue)).getD "" := by
    intro fs
    induction fs with
    | nil => rfl
    | cons x rest ih =>
      unfold getLoop
      by_cases hx : x.Name = name ∧ x.StringValue ≠ ""
      · simp only [hx, ne_eq, not_false_eq_true, and_self, if_true, List.find?, decide_True,
          Option.map_some', Option.getD_some]
      · rw [if_neg hx, ih]
        simp only [List.find?, hx, decide_False]
  refine ⟨key doc.fields, ?_, rfl⟩
  intro hall
  unfold Document.Get
  unfold Document.Fields at hall
  generalize doc.fields = fs at hall
  induction fs with
  | nil => rfl
  | cons x rest ih =>
    unfold getLoop
    have hx : ¬ (x.Name = name ∧ x.StringValue ≠ "") := by
      intro h
      exact h.2 (hall x (List.mem_cons_self _ _) h.1)
    rw [if_neg hx]
    exact ih (fun y hy => hall y (List.mem_cons_of_mem _ hy))

theorem Document_Get_first_string_value_witness :
    (NewDocument.Add { Name := "id", StringValue := "" }).Get "id" = "" :=
  (Document_Get_first_string_value (NewDocument.Add { Name := "id", StringValue := "" }) "id"
    { Name := "id", StringValue := "" }).2.1
    (by
      intro x hx _
      simp only [NewDocument, Document.Add, Document.Fields, List.nil_append,
        List.mem_singleton] at hx
      rw [hx])


/-! ## Target and `nextArc` of a decoded arc -/

/-- C19. When the flags byte of the arc that `readNextRealArc` decodes has
the stop-node bit set, whatever its other bits: the call returns the arc
with target -1 if the final-arc bit is set and 0 otherwise, with `nextArc`
the reader position right after the flags, label, output and final-output
fields, and the reader is left at that position, so no target bytes are
consumed. -/
theorem readNextRealArc_stop_node (o : Outputs) (t : FST) (fuel : Nat) (arc fields : Arc)
    (rd rdF : GoLucene.BytesReader)
    (hf : t.readArcFields o arc rd = (Res.ok fields, rdF))
    (hstop : hasFlag fields.flags FST_BIT_STOP_NODE = true) :
    t.readNextRealArc o fuel arc rd
      = (Res.ok { fields with
                  target := if hasFlag fields.flags FST_BIT_FINAL_ARC then -1 else 0,
                  nextArc := rdF.pos }, rdF) := by
  rw [readNextRealArc_of_fields o t fuel arc fields rd rdF hf]
  unfold FST.resolveTarget
  simp only [Arc.flag, hstop, if_true]
  rfl

theorem readNextRealArc_stop_node_witness :
    linkedThreeFst.readNextRealArc sampleOutputs 16 { Arc.zero with nextArc := 9 }
        (readerOn linkedThreeBody)
      = (Res.ok { fields97 with
                  target := if hasFlag fields97.flags FST_BIT_FINAL_ARC then -1 else 0,
                  nextArc := (readerAt linkedThreeBody 7).pos }, readerAt linkedThreeBody 7) :=
  readNextRealArc_stop_node sampleOutputs linkedThreeFst 16 { Arc.zero with nextArc := 9 }
    fields97 (readerOn linkedThreeBody) (readerAt linkedThreeBody 7) (by decide!) (by decide!)

/-- C20. When the flags byte of the arc that `readNextRealArc` decodes has
the target-is-next bit set and the stop-node bit clear, `nextArc` is the
reader position right after the arc's own fields.  With a node-address
table the target is `node - 1` of the cursor.  Without one the target is
the reader position after the rest of the node is skipped: `nextArc` itself
for a last arc; for a non-last arc of a linked node the position where
`seekToNextNode`, started at `nextArc`, stops, whether it returns an error
or not; for a non-last arc of a fixed array `posArcsStart` moved by
`bytesPerArc * numArcs` in reading direction. -/
theorem readNextRealArc_target_next (o : Outputs) (t : FST) (fuel : Nat) (arc fields : Arc)
    (rd rdF : GoLucene.BytesReader)
    (hf : t.readArcFields o arc rd = (Res.ok fields, rdF))
    (hstop : hasFlag fields.flags FST_BIT_STOP_NODE = false)
    (hnext : hasFlag fields.flags FST_BIT_TARGET_NEXT = true) :
    (t.nodeAddress ≠ none →
      t.readNextRealArc o fuel arc rd
        = (Res.ok { fields with nextArc := rdF.pos, target := wrap64 (fields.node - 1) }, rdF))
    ∧ (t.nodeAddress = none → hasFlag fields.flags FST_BIT_LAST_ARC = true →
      t.readNextRealArc o fuel arc rd
        = (Res.ok { fields with nextArc := rdF.pos, target := rdF.pos }, rdF))
    ∧ (∀ (r : Res Unit) (rdS : GoLucene.BytesReader),
      t.nodeAddress = none → hasFlag fields.flags FST_BIT_LAST_ARC = false →
      fields.bytesPerArc = 0 → t.seekToNextNode o fuel rdF = (r, rdS) →
      (r = Res.ok () ∨ ∃ e, r = Res.err e) →
      t.readNextRealArc o fuel arc rd
        = (Res.ok { fields with nextArc := rdF.pos, target := rdS.pos }, rdS))
    ∧ (t.nodeAddress = none → hasFlag fields.flags FST_BIT_LAST_ARC = false →
      fields.bytesPerArc ≠ 0 →
      t.readNextRealArc o fuel arc rd
        = (Res.ok { fields with
                    nextArc := rdF.pos,
                    target := wrap64 (if rdF.reversed
                      then fields.posArcsStart - wrap64 (fields.bytesPerArc * fields.numArcs)
                      else fields.posArcsStart + wrap64 (fields.bytesPerArc * fields.numArcs)) },
           { rdF with pos := wrap64 (if rdF.reversed
                      then fields.posArcsStart - wrap64 (fields.bytesPerArc * fields.numArcs)
                      else fields.posArcsStart + wrap64 (fields.bytesPerArc * fields.numArcs)) })) := by
  rw [readNextRealArc_of_fields o t fuel arc fields rd rdF hf]
  unfold FST.resolveTarget
  simp only [Arc.flag, hstop, hnext, if_true, if_false, Bool.false_eq_true]
  refine ⟨?_, ?_, ?_, ?_⟩
  · intro htab
    have hnone : t.nodeAddress.isNone = false := by
      cases hna : t.nodeAddress with
      | none => exact absurd hna htab
      | some v => rfl
    simp only [hnone, Bool.false_eq_true, if_false]
    rfl
  · intro htab hlast
    simp only [htab, Option.isNone_none, if_true, hlast, Bool.not_true, StM.when]
    rfl
  · intro r rdS htab hlast hlinked hseek hr
    simp only [htab, Option.isNone_none, if_true, hlast, Bool.not_false, StM.when,
      FST.skipRestOfNode, hlinked]
    simp only [StM.bind_apply, BytesReader.getPosition, dropError, hseek]
    rcases hr with hr | ⟨e, hr⟩ <;> subst hr <;> rfl
  · intro htab hlast harray
    simp only [htab, Option.isNone_none, if_true, hlast, Bool.not_false, StM.when,
      FST.skipRestOfNode, harray, if_false]
    rfl

theorem readNextRealArc_target_next_witness :
    linkedThreeFst.readNextRealArc sampleOutputs 16 { Arc.zero with nextArc := 7 }
        (readerOn linkedThreeBody)
      = (Res.ok { fields98 with nextArc := (readerAt linkedThreeBody 5).pos,
                                target := (readerAt linkedThreeBody 3).pos },
         readerAt linkedThreeBody 3) :=
  (readNextRealArc_target_next sampleOutputs linkedThreeFst 16 { Arc.zero with nextArc := 7 }
    fields98 (readerOn linkedThreeBody) (readerAt linkedThreeBody 5)
    (by decide!) (by decide!) (by decide!)).2.2.1 (Res.ok ()) (readerAt linkedThreeBody 3)
    (by decide!) (by decide!) (by decide!) (by decide!) (Or.inl rfl)


/-! ## The root-arc cache and the shortcut of `FindTargetArc` -/

/-- C14. When `cacheRootArcs` returns without error, the cache and the
asserting cache hold the same 128 slots, each slot nil in both or the same
arc in both, field for field; `assertRootArcs` passes on the FST the call
leaves, and every later `FindTargetArc` that consults the cache (a lookup
from the start node with a label in `0..127`) gets past that check and
returns. -/
theorem cacheRootArcs_caches_agree (o : Outputs) (g : Value) (fuel fuel2 : Nat) (t cached : FST)
    (h : t.cacheRootArcs o g fuel = (cached, Res.ok ())) :
    ∃ c, cached.cachedRootArcs = some c ∧ cached.assertingCachedRootArcs = some c
      ∧ c.length = 128
      ∧ (∀ i : Nat, assertSlot (c.getD i none) (c.getD i none) = Res.ok ())
      ∧ cached.assertRootArcs = Res.ok ()
      ∧ ∀ (label : Int) (follow arc : Arc) (rd : GoLucene.BytesReader),
          follow.target = cached.startNode → 0 ≤ label → label < 128 →
          ∃ lk, cached.FindTargetArc o fuel2 label follow arc rd = Res.ok lk := by
  obtain ⟨c, hc, hlen, hslots, _⟩ := cacheRootArcs_ok o g fuel t cached h
  have ha : cached.assertRootArcs = Res.ok () := by
    rw [hc]
    exact hslots
  have hcc : cached.cachedRootArcs = some c := by rw [hc]
  refine ⟨c, hcc, by rw [hc], hlen, ?_, ha, ?_⟩
  · exact assertSlots_same_slot c hslots
  · intro label follow arc rd hf h0 h1
    rw [FindTargetArc_shortcut o cached fuel2 label follow arc rd c hcc hlen ha hf h0 h1]
    cases c.getD label.toNat none with
    | none => exact ⟨_, rfl⟩
    | some result => exact ⟨_, rfl⟩

theorem cacheRootArcs_caches_agree_witness :
    ∃ c, linkedThreeFst.cachedRootArcs = some c ∧ linkedThreeFst.assertingCachedRootArcs = some c
      ∧ c.length = 128
      ∧ (∀ i : Nat, assertSlot (c.getD i none) (c.getD i none) = Res.ok ())
      ∧ linkedThreeFst.assertRootArcs = Res.ok ()
      ∧ ∀ (label : Int) (follow arc : Arc) (rd : GoLucene.BytesReader),
          follow.target = linkedThreeFst.startNode → 0 ≤ label → label < 128 →
          ∃ lk, linkedThreeFst.FindTargetArc sampleOutputs 16 label follow arc rd = Res.ok lk :=
  cacheRootArcs_caches_agree sampleOutputs (Value.int64 0) 16 16
    { sampleFst linkedThreeBody with startNode := 9 } linkedThreeFst (by decide!)

/-- C16. On an FST that `cacheRootArcs` left without error, a lookup from
an arc whose target is the start node, with a label in `0..127`, is
answered from cache slot `label` alone.  When the slot is nil the answer is
not-found and the cursor is as it was.  Otherwise the answer is the
caller's cursor with the slot copied into it: node, label (the label asked
for), target, flags, output, final output, `nextArc` and stride are those
of the slot; the three fixed-array fields are those of the slot when its
stride is not 0 and those the cursor had before otherwise.  In both cases
the reader the call leaves is the reader passed in; the call does not write
to the FST, so the slot itself stays as it is. -/
theorem FindTargetArc_root_shortcut (o : Outputs) (g : Value) (fuelC fuel : Nat) (t0 t : FST)
    (label : Int) (follow arc : Arc) (rd : GoLucene.BytesReader)
    (hcache : t0.cacheRootArcs o g fuelC = (t, Res.ok ()))
    (hf : follow.target = t.startNode) (h0 : 0 ≤ label) (h1 : label < 128) :
    ∃ c, t.cachedRootArcs = some c
      ∧ ((c.getD label.toNat none = none
          ∧ t.FindTargetArc o fuel label follow arc rd
              = Res.ok { target := none, arc := arc, rd := rd })
        ∨ ∃ result lk, c.getD label.toNat none = some result
          ∧ t.FindTargetArc o fuel label follow arc rd = Res.ok lk
          ∧ lk.target = some ArcRef.arc ∧ lk.rd = rd
          ∧ lk.arc = arc.copyFrom result
          ∧ lk.arc.node = result.node
          ∧ lk.arc.Label = result.Label ∧ lk.arc.Label = label
          ∧ lk.arc.target = result.target
          ∧ lk.arc.flags = result.flags
          ∧ lk.arc.Output = result.Output
          ∧ lk.arc.NextFinalOutput = result.NextFinalOutput
          ∧ lk.arc.nextArc = result.nextArc
          ∧ lk.arc.bytesPerArc = result.bytesPerArc
          ∧ (result.bytesPerArc ≠ 0 →
              lk.arc.posArcsStart = result.posArcsStart
              ∧ lk.arc.arcIdx = result.arcIdx
              ∧ lk.arc.numArcs = result.numArcs)
          ∧ (result.bytesPerArc = 0 →
              lk.arc.posArcsStart = arc.posArcsStart
              ∧ lk.arc.arcIdx = arc.arcIdx
              ∧ lk.arc.numArcs = arc.numArcs)) := by
  obtain ⟨c, hc, hlen, hslots, _⟩ := cacheRootArcs_ok o g fuelC t0 t hcache
  have ha : t.assertRootArcs = Res.ok () := by
    rw [hc]
    exact hslots
  have hcc : t.cachedRootArcs = some c := by rw [hc]
  have hli : LabelIndexed c := by
    obtain ⟨arcs, harcs, hl⟩ := cacheRootArcs_labelIndexed o g fuelC t0
    rw [hcache] at harcs
    simp only at harcs
    rw [hcc] at harcs
    simp only [Option.some.injEq] at harcs
    rw [harcs]
    exact hl
  refine ⟨c, hcc, ?_⟩
  rw [FindTargetArc_shortcut o t fuel label follow arc rd c hcc hlen ha hf h0 h1]
  cases hslot : c.getD label.toNat none with
  | none => exact Or.inl ⟨rfl, rfl⟩
  | some result =>
    have hlab : result.Label = label := by
      rw [hli label.toNat result hslot]
      exact Int.toNat_of_nonneg h0
    have hcf := copyFrom_fields arc result
    refine Or.inr ⟨result, _, rfl, rfl, rfl, rfl, rfl, hcf.1, hcf.2.1, ?_, hcf.2.2.1, hcf.2.2.2.1,
      hcf.2.2.2.2.1, hcf.2.2.2.2.2.1, hcf.2.2.2.2.2.2.1, hcf.2.2.2.2.2.2.2.1,
      hcf.2.2.2.2.2.2.2.2.1, hcf.2.2.2.2.2.2.2.2.2⟩
    exact hcf.2.1.trans hlab

theorem FindTargetArc_root_shortcut_witness :
    linkedThreeFst.FindTargetArc sampleOutputs 16 98 (rootArc 9) usedCursor
        (readerOn linkedThreeBody)
      = Res.ok { target := some ArcRef.arc, arc := usedCursor98, rd := readerOn linkedThreeBody }
    ∧ ∃ c, linkedThreeFst.cachedRootArcs = some c
      ∧ ((c.getD (98 : Int).toNat none = none
          ∧ linkedThreeFst.FindTargetArc sampleOutputs 16 98 (rootArc 9) usedCursor
                (readerOn linkedThreeBody)
              = Res.ok { target := none, arc := usedCursor, rd := readerOn linkedThreeBody })
        ∨ ∃ result lk, c.getD (98 : Int).toNat none = some result
          ∧ linkedThreeFst.FindTargetArc sampleOutputs 16 98 (rootArc 9) usedCursor
                (readerOn linkedThreeBody) = Res.ok lk
          ∧ lk.target = some ArcRef.arc ∧ lk.rd = readerOn linkedThreeBody
          ∧ lk.arc = usedCursor.copyFrom result
          ∧ lk.arc.node = result.node
          ∧ lk.arc.Label = result.Label ∧ lk.arc.Label = 98
          ∧ lk.arc.target = result.target
          ∧ lk.arc.flags = result.flags
          ∧ lk.arc.Output = result.Output
          ∧ lk.arc.NextFinalOutput = result.NextFinalOutput
          ∧ lk.arc.nextArc = result.nextArc
          ∧ lk.arc.bytesPerArc = result.bytesPerArc
          ∧ (result.bytesPerArc ≠ 0 →
              lk.arc.posArcsStart = result.posArcsStart
              ∧ lk.arc.arcIdx = result.arcIdx
              ∧ lk.arc.numArcs = result.numArcs)
          ∧ (result.bytesPerArc = 0 →
              lk.arc.posArcsStart = usedCursor.posArcsStart
              ∧ lk.arc.arcIdx = usedCursor.arcIdx
              ∧ lk.arc.numArcs = usedCursor.numArcs)) :=
  ⟨by decide!,
   FindTargetArc_root_shortcut sampleOutputs (Value.int64 0) 16 16
    { sampleFst linkedThreeBody with startNode := 9 } linkedThreeFst 98 (rootArc 9) usedCursor
    (readerOn linkedThreeBody) (by decide!) (by decide!) (by decide) (by decide)⟩

/-- C17. On an FST whose root cache was populated by a `cacheRootArcs`
that returned, a lookup with a label `>= 0` from an arc whose target is a
stop sentinel (`target <= 0`) reports not-found with no error, and the
reader the call leaves is the reader passed in; this holds also when the
sentinel equals the start node and the root shortcut is taken. -/
theorem FindTargetArc_stop_sentinel (o : Outputs) (g : Value) (fuelC fuel : Nat) (t0 t : FST)
    (r : Res Unit) (label : Int) (follow arc : Arc) (rd : GoLucene.BytesReader)
    (hcache : t0.cacheRootArcs o g fuelC = (t, r))
    (hret : r = Res.ok () ∨ ∃ e, r = Res.err e)
    (hft : follow.target ≤ 0) (h0 : 0 ≤ label) :
    t.FindTargetArc o fuel label follow arc rd
      = Res.ok { target := none, arc := arc, rd := rd } := by
  apply FindTargetArc_stop o t fuel label follow arc rd h0 hft
  intro hs _
  have hst : t.startNode = t0.startNode := by
    have := cacheRootArcs_startNode o g fuelC t0
    rw [hcache] at this
    exact this
  have hstart : t0.startNode ≤ 0 := by
    rw [← hst, ← hs]
    exact hft
  obtain ⟨_, ht⟩ := cacheRootArcs_no_arcs o g fuelC t0 t r hstart hcache hret
  rw [ht]
  exact ⟨rfl, rfl⟩

theorem FindTargetArc_stop_sentinel_witness :
    linkedThreeFst.FindTargetArc sampleOutputs 16 99 { rootArc 0 with target := -1 } Arc.zero
        (readerOn linkedThreeBody)
      = Res.ok { target := none, arc := Arc.zero, rd := readerOn linkedThreeBody } :=
  FindTargetArc_stop_sentinel sampleOutputs (Value.int64 0) 16 16
    { sampleFst linkedThreeBody with startNode := 9 } linkedThreeFst (Res.ok ()) 99
    { rootArc 0 with target := -1 } Arc.zero (readerOn linkedThreeBody)
    (by decide!) (Or.inl rfl) (by decide) (by decide)


/-! ## The two smallest automata -/

/-- C11 fails for two kinds of output.  With the nil output,
`setEmptyOutput` leaves the FST without empty output, so `finish(-1)`
stores start node -1 and the arc of `FirstArc` is not final.  With a byte
slice as output and a byte slice as the package-level `NO_OUTPUT`, the
comparison `emptyOutput != NO_OUTPUT` of `FirstArc` panics, and with it
`finish`. -/
theorem sentinel_automata_output_kinds :
    (((newFST sampleOutputs INPUT_TYPE_BYTE1 false true).setEmptyOutput sampleOutputs
        Value.nil).finish sampleOutputs (Value.int64 0) 16 (-1)).2 = Res.ok ()
    ∧ (((newFST sampleOutputs INPUT_TYPE_BYTE1 false true).setEmptyOutput sampleOutputs
        Value.nil).finish sampleOutputs (Value.int64 0) 16 (-1)).1.startNode = -1
    ∧ ((((newFST sampleOutputs INPUT_TYPE_BYTE1 false true).setEmptyOutput sampleOutputs
        Value.nil).finish sampleOutputs (Value.int64 0) 16 (-1)).1.FirstArc (Value.int64 0)
          Arc.zero).map (fun a => (a.IsFinal, a.target)) = Res.ok (false, -1)
    ∧ ((newFST sampleOutputs INPUT_TYPE_BYTE1 false true).setEmptyOutput sampleOutputs
        (Value.bytes [7])).FirstArc (Value.bytes []) Arc.zero
        = Res.panic Panic.uncomparableType
    ∧ (((newFST sampleOutputs INPUT_TYPE_BYTE1 false true).setEmptyOutput sampleOutputs
        (Value.bytes [7])).finish sampleOutputs (Value.bytes []) 16 (-1)).2
        = Res.panic Panic.uncomparableType := by
  decide!

/-- C11, amended.  Sentinel correctness, on a new FST.  (i) Empty key set:
`addNode` of a non-final root with zero arcs gives 0; `finish` with 0
returns without error and stores start node 0; the arc of `FirstArc` is not
final, has target 0 and no arcs behind it, and `FindTargetArc` from it
reports not-found for every label `>= -1`.  (ii) Only the empty key, with
an output `v` that is not nil and is not a byte slice while the
package-level `NO_OUTPUT` is a byte slice too: after `setEmptyOutput`,
`addNode` of a final root with zero arcs gives -1; `finish` with -1 returns
without error and stores start node 0; `EmptyOutput` is `v`; the arc of
`FirstArc` is final, carries `v` as `NextFinalOutput` and has no arcs
behind it; `FindTargetArc` with the end label yields the cursor with
`Output = v`, and with every label `>= 0` it reports not-found. -/
theorem sentinel_automata (o : Outputs) (g v : Value) (inputType : Int)
    (willPackFST allowArrayArcs : Bool) (fuel : Nat) (cursor : Arc)
    (hv : v ≠ Value.nil)
    (hbytes : ¬ ((∃ a, v = Value.bytes a) ∧ ∃ b, g = Value.bytes b)) :
    ((newFST o inputType willPackFST allowArrayArcs).addNode { NumArcs := 0, IsFinal := false }
        = (newFST o inputType willPackFST allowArrayArcs, Res.ok 0)
      ∧ ∃ t first,
          (newFST o inputType willPackFST allowArrayArcs).finish o g fuel 0 = (t, Res.ok ())
          ∧ t.startNode = 0
          ∧ t.FirstArc g cursor = Res.ok first
          ∧ first.IsFinal = false ∧ first.target = 0 ∧ targetHasArcs first = false
          ∧ ∀ (label : Int) (arc : Arc) (rd : GoLucene.BytesReader), -1 ≤ label →
              t.FindTargetArc o fuel label first arc rd
                = Res.ok { target := none, arc := arc, rd := rd })
    ∧ (((newFST o inputType willPackFST allowArrayArcs).setEmptyOutput o v).addNode
          { NumArcs := 0, IsFinal := true }
        = ((newFST o inputType willPackFST allowArrayArcs).setEmptyOutput o v, Res.ok (-1))
      ∧ ∃ t first,
          ((newFST o inputType willPackFST allowArrayArcs).setEmptyOutput o v).finish o g fuel (-1)
            = (t, Res.ok ())
          ∧ t.startNode = 0
          ∧ t.EmptyOutput = v
          ∧ t.FirstArc g cursor = Res.ok first
          ∧ first.IsFinal = true ∧ first.NextFinalOutput = v ∧ targetHasArcs first = false
          ∧ (∀ (arc : Arc) (rd : GoLucene.BytesReader),
              ∃ lk, t.FindTargetArc o fuel FST_END_LABEL first arc rd = Res.ok lk
                ∧ lk.target = some ArcRef.arc ∧ lk.arc.Output = v)
          ∧ ∀ (label : Int) (arc : Arc) (rd : GoLucene.BytesReader), 0 ≤ label →
              t.FindTargetArc o fuel label first arc rd
                = Res.ok { target := none, arc := arc, rd := rd }) := by
  have hcmpx : ∃ same, ifaceEq v g = Except.ok same := by
    cases v with
    | nil => cases g <;> exact ⟨_, rfl⟩
    | int64 x => cases g <;> exact ⟨_, rfl⟩
    | other k => cases g <;> exact ⟨_, rfl⟩
    | bytes a =>
      cases g with
      | bytes b => exact absurd ⟨⟨a, rfl⟩, ⟨b, rfl⟩⟩ hbytes
      | nil => exact ⟨_, rfl⟩
      | int64 y => exact ⟨_, rfl⟩
      | other k => exact ⟨_, rfl⟩
  obtain ⟨same, hcmp⟩ := hcmpx
  constructor
  · have hn0 : (if (0 : Int) = FST_FINAL_END_NODE
        ∧ (newFST o inputType willPackFST allowArrayArcs).emptyOutput ≠ Value.nil
        then (0 : Int) else 0) = 0 := by
      simp only [ite_self]
    have hfin := finish_sentinel o g fuel (newFST o inputType willPackFST allowArrayArcs)
      { data := [0] } (FST_BIT_LAST_ARC, o.NoOutput) 0 rfl rfl rfl (by rw [hn0])
    rw [hn0] at hfin
    have hnf : Arc.IsFinal { cursor with flags := FST_BIT_LAST_ARC, NextFinalOutput := o.NoOutput, Output := o.NoOutput, target := 0 } = false := by
      show hasFlag FST_BIT_LAST_ARC FST_BIT_FINAL_ARC = false
      decide
    refine ⟨rfl, _, { cursor with flags := FST_BIT_LAST_ARC, NextFinalOutput := o.NoOutput, Output := o.NoOutput, target := 0 }, hfin, rfl, rfl, hnf, rfl, rfl, ?_⟩
    intro label arc rd hl
    by_cases hend : label = -1
    · subst hend
      exact FindTargetArc_end_not_final o _ fuel _ arc rd hnf
    · apply FindTargetArc_stop
      · omega
      · exact le_refl _
      · intro _ _
        exact ⟨rfl, rfl⟩
  · have he : ((newFST o inputType willPackFST allowArrayArcs).setEmptyOutput o v).emptyOutput = v :=
      rfl
    have hflags : ∃ p, ((newFST o inputType willPackFST allowArrayArcs).setEmptyOutput o v).firstArcFlags g
          = Except.ok p ∧ hasFlag p.1 FST_BIT_FINAL_ARC = true ∧ p.2 = v := by
      unfold FST.firstArcFlags
      rw [he, if_pos hv, hcmp]
      cases same
      · refine ⟨_, rfl, ?_, rfl⟩
        show hasFlag (FST_BIT_FINAL_ARC ||| FST_BIT_LAST_ARC ||| FST_BIT_ARC_HAS_FINAL_OUTPUT)
          FST_BIT_FINAL_ARC = true
        decide
      · refine ⟨_, rfl, ?_, rfl⟩
        show hasFlag (FST_BIT_FINAL_ARC ||| FST_BIT_LAST_ARC) FST_BIT_FINAL_ARC = true
        decide
    obtain ⟨p, hfa, hfinal, hp2⟩ := hflags
    have hn : (if (-1 : Int) = FST_FINAL_END_NODE
        ∧ ((newFST o inputType willPackFST allowArrayArcs).setEmptyOutput o v).emptyOutput ≠ Value.nil
        then (0 : Int) else -1) = 0 := by
      rw [he, if_pos ⟨rfl, hv⟩]
    have hfin := finish_sentinel o g fuel
      ((newFST o inputType willPackFST allowArrayArcs).setEmptyOutput o v)
      { data := [0] } p (-1) rfl rfl hfa (by rw [hn])
    rw [hn] at hfin
    have hfirst : FST.FirstArc g { (newFST o inputType willPackFST allowArrayArcs).setEmptyOutput o v with startNode := 0, cachedRootArcs := some (List.replicate 128 none), assertingCachedRootArcs := some (List.replicate 128 none) } cursor
        = Res.ok { cursor with flags := p.1, NextFinalOutput := p.2, Output := o.NoOutput, target := 0 } := by
      unfold FST.FirstArc
      have hfa2 : FST.firstArcFlags g { (newFST o inputType willPackFST allowArrayArcs).setEmptyOutput o v with startNode := 0, cachedRootArcs := some (List.replicate 128 none), assertingCachedRootArcs := some (List.replicate 128 none) } = Except.ok p := hfa
      rw [hfa2]
      rfl
    refine ⟨rfl, _, _, hfin, rfl, he, hfirst, hfinal, hp2, rfl, ?_, ?_⟩
    · intro arc rd
      have hfin2 : Arc.IsFinal { cursor with flags := p.1, NextFinalOutput := p.2, Output := o.NoOutput, target := 0 } = true := hfinal
      obtain ⟨lk, h1, h2, h3⟩ := FindTargetArc_end_final o { (newFST o inputType willPackFST allowArrayArcs).setEmptyOutput o v with startNode := 0, cachedRootArcs := some (List.replicate 128 none), assertingCachedRootArcs := some (List.replicate 128 none) } fuel _ arc rd hfin2
      exact ⟨lk, h1, h2, h3.trans hp2⟩
    · intro label arc rd hl
      apply FindTargetArc_stop
      · exact hl
      · exact le_refl _
      · intro _ _
        exact ⟨rfl, rfl⟩

theorem sentinel_automata_witness :
    Value.int64 7 ≠ Value.nil
    ∧ ∃ t first,
        ((newFST sampleOutputs INPUT_TYPE_BYTE1 false true).setEmptyOutput sampleOutputs
            (Value.int64 7)).finish sampleOutputs (Value.int64 0) 16 (-1) = (t, Res.ok ())
        ∧ t.startNode = 0
        ∧ t.EmptyOutput = Value.int64 7
        ∧ t.FirstArc (Value.int64 0) Arc.zero = Res.ok first
        ∧ first.IsFinal = true ∧ first.NextFinalOutput = Value.int64 7
        ∧ targetHasArcs first = false
        ∧ (∀ (arc : Arc) (rd : GoLucene.BytesReader),
            ∃ lk, t.FindTargetArc sampleOutputs 16 FST_END_LABEL first arc rd = Res.ok lk
              ∧ lk.target = some ArcRef.arc ∧ lk.arc.Output = Value.int64 7)
        ∧ ∀ (label : Int) (arc : Arc) (rd : GoLucene.BytesReader), 0 ≤ label →
            t.FindTargetArc sampleOutputs 16 label first arc rd
              = Res.ok { target := none, arc := arc, rd := rd } :=
  ⟨by decide,
   (sentinel_automata sampleOutputs (Value.int64 0) (Value.int64 7) INPUT_TYPE_BYTE1 false true
      16 Arc.zero (by decide) (by
        rintro ⟨⟨a, ha⟩, _⟩
        cases ha)).2.2⟩


/-! ## The contents of the root-arc cache -/

/-- C15. Let the arcs of the start node decode without error, in stored
order with strictly ascending labels.  After a `cacheRootArcs` that
returned, the cache has exactly 128 slots; for every label `l` in `0..127`
slot `l` is non-nil if and only if the start node has an arc labelled `l`,
and it then holds the copy of that arc, whose `Label` is `l`; every arc in
the cache has a label below 128; and when `startNode <= 0` every slot is
nil.  The call does return without error when no label is negative, the
loop budget covers the arcs and `equals` accepts each output against
itself. -/
theorem cacheRootArcs_slots (o : Outputs) (g : Value) (t : FST) (fuel budget : Nat)
    (as : List Arc)
    (hroot : t.rootArcs o g fuel budget = Res.ok as)
    (hord : as.Pairwise (fun a b => a.Label < b.Label)) :
    (∀ (cached : FST) (r : Res Unit), t.cacheRootArcs o g fuel = (cached, r) →
        (r = Res.ok () ∨ ∃ e, r = Res.err e) →
        ∃ c, cached.cachedRootArcs = some c ∧ c.length = 128
          ∧ (∀ l : Nat, l < 128 →
              ((c.getD l none ≠ none ↔ ∃ a, a ∈ as ∧ a.Label = (l : Int))
              ∧ ∀ a, a ∈ as → a.Label = (l : Int) →
                  c.getD l none = some (Arc.zero.copyFrom a)
                  ∧ (Arc.zero.copyFrom a).Label = (l : Int)))
          ∧ (∀ (i : Nat) (x : Arc), c.getD i none = some x → x.Label = (i : Int) ∧ x.Label < 128)
          ∧ (t.startNode ≤ 0 → c = List.replicate 128 none))
    ∧ ((∀ a, a ∈ as → 0 ≤ a.Label) → as.length ≤ fuel →
        (∀ a, a ∈ as → equals a.Output a.Output = Res.ok true
          ∧ equals a.NextFinalOutput a.NextFinalOutput = Res.ok true) →
        ∃ cached, t.cacheRootArcs o g fuel = (cached, Res.ok ())) := by
  have hlen1 : FST.cacheLen { t with cachedRootArcs := some (List.replicate 128 none) } = 128 := by
    unfold FST.cacheLen
    simp only [List.length_replicate, Nat.cast_ofNat]
  have hroot1 : FST.rootArcs o g { t with cachedRootArcs := some (List.replicate 128 none) }
      fuel budget = Res.ok as := by
    rw [rootArcs_setCache]
    exact hroot
  have slotsOf : ∀ (c : List (Option Arc)) (r1 : Res Unit),
      FST.readRootArcs o g { t with cachedRootArcs := some (List.replicate 128 none) } fuel
        (List.replicate 128 none) = (c, r1) →
      (r1 = Res.ok () ∨ ∃ e, r1 = Res.err e) →
      ∀ l : Nat, l < 128 →
        ((c.getD l none ≠ none ↔ ∃ a, a ∈ as ∧ a.Label = (l : Int))
        ∧ ∀ a, a ∈ as → a.Label = (l : Int) →
            c.getD l none = some (Arc.zero.copyFrom a)
            ∧ (Arc.zero.copyFrom a).Label = (l : Int)) := by
    intro c r1 hread hret1 l hl
    have hs := readRootArcs_slots o g _ fuel budget as c r1 hlen1 hroot1 hord hread hret1 l hl
    refine ⟨⟨?_, ?_⟩, ?_⟩
    · intro hne
      by_contra hno
      apply hne
      apply hs.2
      intro a ha hla
      exact hno ⟨a, ha, hla⟩
    · rintro ⟨a, ha, hla⟩
      rw [hs.1 a ha hla]
      simp
    · intro a ha hla
      exact ⟨hs.1 a ha hla, by rw [copyFrom_label]; exact hla⟩
  constructor
  · intro cached r hcache hret
    obtain ⟨c, r1, hread, hret1, hc, hlen⟩ := cacheRootArcs_returned o g fuel t cached r hcache hret
    refine ⟨c, hc, hlen, slotsOf c r1 hread hret1, ?_, ?_⟩
    · intro i x hx
      by_cases hi : i < 128
      · have hs := slotsOf c r1 hread hret1 i hi
        have hne : c.getD i none ≠ none := by
          rw [hx]
          simp
        obtain ⟨a, ha, hla⟩ := hs.1.mp hne
        have h2 := (hs.2 a ha hla).1
        rw [hx] at h2
        simp only [Option.some.injEq] at h2
        rw [h2, copyFrom_label, hla]
        constructor
        · rfl
        · omega
      · have : c.getD i none = none := by
          rw [List.getD_eq_getElem?_getD, List.getElem?_eq_none (by omega)]
          rfl
        rw [this] at hx
        simp at hx
    · intro hstart
      have h := (cacheRootArcs_no_arcs o g fuel t cached r hstart hcache hret).2
      rw [h] at hc
      simp only [Option.some.injEq] at hc
      exact hc.symm
  · intro hnn hfuel heq
    obtain ⟨c, hread⟩ := readRootArcs_returns o g _ fuel budget as hlen1 hroot1 hnn hfuel
    have hl := readRootArcs_length o g { t with cachedRootArcs := some (List.replicate 128 none) }
      fuel (List.replicate 128 none)
    rw [hread] at hl
    simp only [List.length_replicate] at hl
    have hagain := readRootArcs_again o g fuel t c hl
    rw [hread] at hagain
    have hself : assertSlots c c = Res.ok () := by
      apply assertSlots_self
      intro x hx
      obtain ⟨i, hi, hget⟩ := List.mem_iff_getElem.mp hx
      have hgd : c.getD i none = some x := by
        rw [List.getD_eq_getElem _ _ hi, hget]
      have hi2 : i < 128 := by omega
      have hs := slotsOf c (Res.ok ()) hread (Or.inl rfl) i hi2
      have hne : c.getD i none ≠ none := by
        rw [hgd]
        simp
      obtain ⟨a, ha, hla⟩ := hs.1.mp hne
      have h2 := (hs.2 a ha hla).1
      rw [hgd] at h2
      simp only [Option.some.injEq] at h2
      have hout := copyFrom_outputs Arc.zero a
      apply assertSlot_self
      · rw [h2, hout.2]
        exact (heq a ha).2
      · rw [h2, hout.1]
        exact (heq a ha).1
    refine ⟨{ t with cachedRootArcs := some c, assertingCachedRootArcs := some c }, ?_⟩
    unfold FST.cacheRootArcs
    simp only
    rw [hread]
    simp only
    rw [hagain]
    simp only [FST.assertRootArcs, hself]

theorem cacheRootArcs_slots_witness :
    (∀ a, a ∈ linkedThreeArcs → 0 ≤ a.Label) ∧ linkedThreeArcs.length ≤ 16
    ∧ ∃ cached, FST.cacheRootArcs sampleOutputs (Value.int64 0) 16
        { sampleFst linkedThreeBody with startNode := 9 } = (cached, Res.ok ()) :=
  ⟨by decide, by decide,
   (cacheRootArcs_slots sampleOutputs (Value.int64 0)
      { sampleFst linkedThreeBody with startNode := 9 } 16 16 linkedThreeArcs
      (by decide!) (by decide)).2 (by decide) (by decide) (by decide)⟩


/-! ## The midpoint of the binary search -/

/-- C24. For machine integers `0 <= low <= high` the midpoint
`int(uint(low+high)/2)` of the binary search is the exact floor of
`(low+high)/2`, also when the signed sum `low+high` wraps around, and it
lies between `low` and `high`. -/
theorem midpoint_exact (low high : Int) (h0 : 0 ≤ low) (hlh : low ≤ high)
    (hhi : high < 9223372036854775808) :
    midpoint low high = (low + high) / 2
    ∧ low ≤ midpoint low high ∧ midpoint low high ≤ high := by
  unfold midpoint wrap64
  omega

theorem midpoint_exact_witness :
    wrap64 (4611686018427387904 + 9223372036854775807) < 0
    ∧ midpoint 4611686018427387904 9223372036854775807 = 6917529027641081855
    ∧ 4611686018427387904 ≤ midpoint 4611686018427387904 9223372036854775807
    ∧ midpoint 4611686018427387904 9223372036854775807 ≤ 9223372036854775807 :=
  ⟨by decide,
   (midpoint_exact 4611686018427387904 9223372036854775807 (by decide) (by decide)
      (by decide)).1.trans (by decide),
   (midpoint_exact 4611686018427387904 9223372036854775807 (by decide) (by decide)
      (by decide)).2⟩


/-! ## `equals` -/

theorem equalsBytes_iff : ∀ (a b : List Nat), a.length = b.length →
    (equalsBytes a b = true ↔ a = b)
  | [], [], _ => by simp [equalsBytes]
  | [], _ :: _, h => by simp at h
  | _ :: _, [], h => by simp at h
  | x :: xs, y :: ys, h => by
    have ih := equalsBytes_iff xs ys (by simpa using h)
    unfold equalsBytes
    by_cases hxy : x = y
    · simp [hxy, ih]
    · simp [hxy]

theorem equals_bytes (a b : List Nat) :
    equals (Value.bytes a) (Value.bytes b) = Res.ok (decide (a = b)) := by
  unfold equals
  simp only
  by_cases hl : a.length = b.length
  · rw [if_neg (not_not.mpr hl)]
    congr 1
    by_cases hab : a = b
    · rw [decide_eq_true hab]
      exact (equalsBytes_iff a b hl).mpr hab
    · rw [decide_eq_false hab]
      cases h : equalsBytes a b with
      | false => rfl
      | true => exact absurd ((equalsBytes_iff a b hl).mp h) hab
  · rw [if_pos hl]
    have hab : a ≠ b := fun h => hl (by rw [h])
    rw [decide_eq_false hab]

theorem equals_true_eq (a b : Value) (h : equals a b = Res.ok true) : a = b := by
  cases a with
  | bytes x =>
    cases b with
    | bytes y =>
      rw [equals_bytes] at h
      simp only [Res.ok.injEq, decide_eq_true_eq] at h
      rw [h]
    | nil => simp [equals] at h
    | int64 y => simp [equals] at h
    | other k => simp [equals] at h
  | int64 x =>
    cases b with
    | int64 y =>
      simp only [equals, Res.ok.injEq, decide_eq_true_eq] at h
      rw [h]
    | nil => simp [equals] at h
    | bytes y => simp [equals] at h
    | other k => simp [equals] at h
  | nil =>
    cases b with
    | nil => rfl
    | bytes y => simp [equals] at h
    | int64 y => simp [equals] at h
    | other k => simp [equals] at h
  | other j =>
    cases b with
    | nil => simp [equals] at h
    | bytes y => simp [equals] at h
    | int64 y => simp [equals] at h
    | other k => simp [equals] at h

theorem equals_self (v : Value) (h : ∀ k, v ≠ Value.other k) : equals v v = Res.ok true := by
  cases v with
  | bytes x => rw [equals_bytes]; simp
  | int64 x => simp [equals]
  | nil => simp [equals]
  | other k => exact absurd rfl (h k)


/-! ## Value equality of outputs -/

/-- C26 fails for output values of another type: a value whose dynamic
type is neither `[]byte` nor `int64` does not compare equal to itself. -/
theorem CompareFSTValue_other_not_reflexive :
    CompareFSTValue (Value.other 1) (Value.other 1) = Res.ok false := by
  decide

/-- C26, amended.  `CompareFSTValue` (`equals`) is value equality on byte
slices, on `int64` values and on nil: two byte slices compare equal exactly
when they have the same length and the same byte at every index, two
`int64` exactly when they are the same number, nil equals nil.  Every value
of these three kinds compares equal to itself, and whenever `a` compares
equal to `b`, `b` compares equal to `a` and to whatever `a` compares equal
to.  Two values of any other type never compare equal. -/
theorem CompareFSTValue_value_equality :
    (∀ a b : List Nat,
      (CompareFSTValue (Value.bytes a) (Value.bytes b) = Res.ok true
        ↔ a.length = b.length ∧ ∀ i, i < a.length → a.getD i 0 = b.getD i 0)
      ∧ (CompareFSTValue (Value.bytes a) (Value.bytes b) = Res.ok true
        ∨ CompareFSTValue (Value.bytes a) (Value.bytes b) = Res.ok false))
    ∧ (∀ x y : Int, CompareFSTValue (Value.int64 x) (Value.int64 y) = Res.ok (decide (x = y)))
    ∧ CompareFSTValue Value.nil Value.nil = Res.ok true
    ∧ (∀ v : Value, (∀ k, v ≠ Value.other k) → CompareFSTValue v v = Res.ok true)
    ∧ (∀ a b : Value, CompareFSTValue a b = Res.ok true → CompareFSTValue b a = Res.ok true)
    ∧ (∀ a b c : Value, CompareFSTValue a b = Res.ok true → CompareFSTValue b c = Res.ok true →
        CompareFSTValue a c = Res.ok true)
    ∧ (∀ j k : Nat, CompareFSTValue (Value.other j) (Value.other k) = Res.ok false) := by
  unfold CompareFSTValue
  refine ⟨?_, ?_, ?_, equals_self, ?_, ?_, ?_⟩
  · intro a b
    rw [equals_bytes]
    constructor
    · simp only [Res.ok.injEq, decide_eq_true_eq]
      constructor
      · intro h
        subst h
        exact ⟨rfl, fun _ _ => rfl⟩
      · rintro ⟨hl, hall⟩
        apply List.ext_getElem hl
        intro i h1 h2
        have := hall i h1
        rwa [List.getD_eq_getElem _ _ h1, List.getD_eq_getElem _ _ h2] at this
    · cases decide (a = b)
      · exact Or.inr rfl
      · exact Or.inl rfl
  · intro x y
    rfl
  · rfl
  · intro a b h
    have hab := equals_true_eq a b h
    subst hab
    exact h
  · intro a b c h1 h2
    have hab := equals_true_eq a b h1
    subst hab
    exact h2
  · intro j k
    simp [equals]

theorem CompareFSTValue_value_equality_witness :
    CompareFSTValue (Value.bytes [1, 2]) (Value.bytes [1, 2]) = Res.ok true :=
  CompareFSTValue_value_equality.2.2.2.1 (Value.bytes [1, 2]) (by intro k h; cases h)


/-! ## Read errors on labels -/

/-- C25 fails for one-byte and two-byte labels.  When the read of the
label fails, `readLabel` returns the label 0 with a nil error for input
types `BYTE1` and `BYTE2`; only for the variable-length input type does it
return the error.  On a body that ends after a flags byte `readNextRealArc`
so returns an arc labelled 0 and `seekToNextNode` returns nil; on a fixed
array whose records are missing the binary search of `FindTargetArc`
compares the made-up label 0 with the label wanted and reports not-found. -/
theorem readLabel_drops_read_error (t : FST) (rd rd1 : GoLucene.BytesReader) (e : GoError) :
    (t.inputType = INPUT_TYPE_BYTE1 → BytesReader.ReadByte rd = (Res.err e, rd1) →
      t.readLabel rd = (Res.ok 0, rd1))
    ∧ (t.inputType = INPUT_TYPE_BYTE2 → BytesReader.ReadShort rd = (Res.err e, rd1) →
      t.readLabel rd = (Res.ok 0, rd1))
    ∧ (t.inputType ≠ INPUT_TYPE_BYTE1 → t.inputType ≠ INPUT_TYPE_BYTE2 →
      BytesReader.ReadVInt rd = (Res.err e, rd1) → t.readLabel rd = (Res.err e, rd1))
    ∧ (sampleFst cutBody).readNextRealArc sampleOutputs 16 Arc.zero (readerOn cutBody)
        = (Res.ok cutArc, readerAt cutBody (-1))
    ∧ (sampleFst cutBody).seekToNextNode sampleOutputs 16 (readerOn cutBody)
        = (Res.ok (), readerAt cutBody (-1))
    ∧ (sampleFst cutArrayBody).FindTargetArc sampleOutputs 16 5 (rootArc 3) Arc.zero
          (readerOn cutArrayBody)
        = Res.ok { target := none, arc := cutArrayCursor, rd := readerAt cutArrayBody (-6) } := by
  refine ⟨?_, ?_, ?_, by decide!, by decide!, by decide!⟩
  · intro h1 hfail
    unfold FST.readLabel
    rw [if_pos h1, hfail]
  · intro h2 hfail
    have h1 : t.inputType ≠ INPUT_TYPE_BYTE1 := by
      rw [h2]
      decide
    unfold FST.readLabel
    rw [if_neg h1, if_pos h2, hfail]
  · intro h1 h2 hfail
    unfold FST.readLabel
    rw [if_neg h1, if_neg h2, hfail]

theorem readLabel_drops_read_error_witness :
    BytesReader.ReadByte (readerAt cutBody (-1)) = (Res.err GoError.EOF, readerAt cutBody (-1))
    ∧ (sampleFst cutBody).readLabel (readerAt cutBody (-1)) = (Res.ok 0, readerAt cutBody (-1)) :=
  ⟨by decide!,
   (readLabel_drops_read_error (sampleFst cutBody) (readerAt cutBody (-1))
      (readerAt cutBody (-1)) GoError.EOF).1 (by decide!) (by decide!)⟩


/-! ## Variable-length longs are not negative -/

theorem readVar_bound {σ : Type} (next : StM σ Nat) :
    ∀ (k shift acc : Nat) (s s1 : σ) (v : Nat), acc < 2 ^ shift →
      readVar next k shift acc s = (Res.ok v, s1) → v < 2 ^ (shift + 7 * k) := by
  intro k
  induction k with
  | zero =>
    intro shift acc s s1 v _ h
    simp [readVar, StM.err] at h
  | succ k ih =>
    intro shift acc s s1 v hacc h
    unfold readVar at h
    obtain ⟨b, s2, _, h⟩ := StM.bind_eq_ok h
    have hp : 2 ^ (shift + 7) = 2 ^ shift * 128 := by
      rw [pow_add]
      norm_num
    split at h
    · next hb =>
        simp only [StM.pure_apply, Prod.mk.injEq, Res.ok.injEq] at h
        have hle : 2 ^ (shift + 7) ≤ 2 ^ (shift + 7 * (k + 1)) :=
          Nat.pow_le_pow_right (by norm_num) (by omega)
        have : acc + b * 2 ^ shift < 2 ^ (shift + 7) := by
          rw [hp]
          nlinarith
        rw [← h.1]
        omega
    · have hacc2 : acc + b % 128 * 2 ^ shift < 2 ^ (shift + 7) := by
        rw [hp]
        have : b % 128 < 128 := Nat.mod_lt _ (by norm_num)
        nlinarith
      have := ih (shift + 7) _ s2 s1 v hacc2 h
      have e : shift + 7 + 7 * k = shift + 7 * (k + 1) := by ring
      rw [e] at this
      exact this

theorem ReadVLong_nonneg (rd rd1 : GoLucene.BytesReader) (v : Int)
    (h : BytesReader.ReadVLong rd = (Res.ok v, rd1)) : 0 ≤ v := by
  unfold BytesReader.ReadVLong readVLongWith at h
  obtain ⟨n, s1, hn, h⟩ := StM.bind_eq_ok h
  have hb := readVar_bound BytesReader.ReadByte 9 0 0 rd s1 n (by norm_num) hn
  simp only [StM.pure_apply, Prod.mk.injEq, Res.ok.injEq] at h
  rw [← h.1]
  have h63 : (n : Int) < 9223372036854775808 := by
    have : n < 2 ^ 63 := by simpa using hb
    norm_num at this
    exact_mod_cast this
  unfold wrap64
  omega


/-! ## The explicit target of a decoded arc -/

/-- C21. When the flags byte of the arc that `readNextRealArc` decodes has
neither the stop-node nor the target-is-next bit, the target is read after
the arc's fields and `nextArc` is the reader position after it.  In a
packed FST one variable-length long `code` is read at position `pos`: the
target is `pos + code` with the delta bit, else entry `code` of the address
table when `code` is below the table's size, else `code`.  In an unpacked
FST the target is the value read, a fixed-width 32-bit integer for a format
version below 4 and a variable-length long from version 4 on. -/
theorem readNextRealArc_explicit_target (o : Outputs) (t : FST) (fuel : Nat) (arc fields : Arc)
    (rd rdF : GoLucene.BytesReader)
    (hf : t.readArcFields o arc rd = (Res.ok fields, rdF))
    (hstop : hasFlag fields.flags FST_BIT_STOP_NODE = false)
    (hnext : hasFlag fields.flags FST_BIT_TARGET_NEXT = false) :
    (∀ (code : Int) (rdT : GoLucene.BytesReader), t.packed = true →
      BytesReader.ReadVLong rdF = (Res.ok code, rdT) →
      (hasFlag fields.flags FST_BIT_TARGET_DELTA = true →
        t.readNextRealArc o fuel arc rd
          = (Res.ok { fields with target := wrap64 (rdF.pos + code), nextArc := rdT.pos }, rdT))
      ∧ ∀ tbl : PackedReader, hasFlag fields.flags FST_BIT_TARGET_DELTA = false →
          t.nodeRefToAddress = some tbl →
          (code < tbl.Size →
            t.readNextRealArc o fuel arc rd
              = (Res.ok { fields with target := tbl.vals.getD code.toNat 0,
                                      nextArc := rdT.pos }, rdT))
          ∧ (tbl.Size ≤ code →
            t.readNextRealArc o fuel arc rd
              = (Res.ok { fields with target := code, nextArc := rdT.pos }, rdT)))
    ∧ (∀ (v : Int) (rdT : GoLucene.BytesReader), t.packed = false →
      t.version < FST_VERSION_VINT_TARGET → BytesReader.ReadInt rdF = (Res.ok v, rdT) →
      t.readNextRealArc o fuel arc rd
        = (Res.ok { fields with target := v, nextArc := rdT.pos }, rdT))
    ∧ (∀ (v : Int) (rdT : GoLucene.BytesReader), t.packed = false →
      FST_VERSION_VINT_TARGET ≤ t.version → BytesReader.ReadVLong rdF = (Res.ok v, rdT) →
      t.readNextRealArc o fuel arc rd
        = (Res.ok { fields with target := v, nextArc := rdT.pos }, rdT)) := by
  rw [readNextRealArc_of_fields o t fuel arc fields rd rdF hf]
  unfold FST.resolveTarget
  simp only [Arc.flag, hstop, hnext, if_false, Bool.false_eq_true]
  refine ⟨?_, ?_, ?_⟩
  · intro code rdT hp hread
    have h0 := ReadVLong_nonneg rdF rdT code hread
    refine ⟨?_, ?_⟩
    · intro hdelta
      simp only [FST.readTarget, hp, if_true, Arc.flag, hdelta, StM.bind_apply,
        BytesReader.getPosition, hread, StM.pure_apply]
    · intro tbl hdelta htbl
      refine ⟨?_, ?_⟩
      · intro hlt
        have hin : 0 ≤ code ∧ code < (tbl.vals.length : Int) := ⟨h0, hlt⟩
        simp only [FST.readTarget, hp, if_true, Arc.flag, hdelta, StM.bind_apply,
          BytesReader.getPosition, hread, StM.pure_apply, Bool.false_eq_true, if_false, htbl,
          hlt, StM.lift, indexGet, hin, and_self]
      · intro hge
        have hnlt : ¬ code < tbl.Size := not_lt.mpr hge
        simp only [FST.readTarget, hp, if_true, Arc.flag, hdelta, StM.bind_apply,
          BytesReader.getPosition, hread, StM.pure_apply, Bool.false_eq_true, if_false, htbl,
          hnlt]
  · intro v rdT hp hver hread
    simp only [FST.readTarget, hp, Bool.false_eq_true, if_false, FST.readUnpackedNodeTarget,
      hver, if_true, StM.bind_apply, hread, BytesReader.getPosition]
    rfl
  · intro v rdT hp hver hread
    have hnv : ¬ t.version < FST_VERSION_VINT_TARGET := not_lt.mpr hver
    simp only [FST.readTarget, hp, Bool.false_eq_true, if_false, FST.readUnpackedNodeTarget,
      hnv, StM.bind_apply, hread, BytesReader.getPosition]
    rfl

theorem readNextRealArc_explicit_target_witness :
    (sampleFst explicitBody).readNextRealArc sampleOutputs 16 { Arc.zero with nextArc := 3 }
        (readerOn explicitBody)
      = (Res.ok { explicitFields with target := 7, nextArc := (readerAt explicitBody 0).pos },
         readerAt explicitBody 0) :=
  (readNextRealArc_explicit_target sampleOutputs (sampleFst explicitBody) 16
    { Arc.zero with nextArc := 3 } explicitFields (readerOn explicitBody)
    (readerAt explicitBody 1) (by decide!) (by decide!) (by decide!)).2.2 7
    (readerAt explicitBody 0) (by decide!) (by decide!) (by decide!)


/-! ## The bookkeeping fields `readNextRealArc` leaves alone -/

theorem readOutput_frame (o : Outputs) (arc arc1 : Arc) (rd rd1 : GoLucene.BytesReader)
    (h : Arc.readOutput o arc rd = (Res.ok arc1, rd1)) :
    arc1.node = arc.node ∧ arc1.numArcs = arc.numArcs ∧ arc1.posArcsStart = arc.posArcsStart
    ∧ arc1.arcIdx = arc.arcIdx := by
  unfold Arc.readOutput at h
  split at h
  · obtain ⟨v, s1, _, h2⟩ := StM.bind_eq_ok h
    simp only [StM.pure_apply, Prod.mk.injEq, Res.ok.injEq] at h2
    rw [← h2.1]; exact ⟨rfl, rfl, rfl, rfl⟩
  · simp only [StM.pure_apply, Prod.mk.injEq, Res.ok.injEq] at h
    rw [← h.1]; exact ⟨rfl, rfl, rfl, rfl⟩

theorem readFinalOutput_frame (o : Outputs) (arc arc1 : Arc) (rd rd1 : GoLucene.BytesReader)
    (h : Arc.readFinalOutput o arc rd = (Res.ok arc1, rd1)) :
    arc1.node = arc.node ∧ arc1.numArcs = arc.numArcs ∧ arc1.posArcsStart = arc.posArcsStart
    ∧ arc1.arcIdx = arc.arcIdx := by
  unfold Arc.readFinalOutput at h
  split at h
  · obtain ⟨v, s1, _, h2⟩ := StM.bind_eq_ok h
    simp only [StM.pure_apply, Prod.mk.injEq, Res.ok.injEq] at h2
    rw [← h2.1]; exact ⟨rfl, rfl, rfl, rfl⟩
  · simp only [StM.pure_apply, Prod.mk.injEq, Res.ok.injEq] at h
    rw [← h.1]; exact ⟨rfl, rfl, rfl, rfl⟩

theorem resolveTarget_frame (o : Outputs) (t : FST) (fuel : Nat) (arc arc1 : Arc)
    (rd rd1 : GoLucene.BytesReader) (h : t.resolveTarget o fuel arc rd = (Res.ok arc1, rd1)) :
    arc1.node = arc.node ∧ arc1.numArcs = arc.numArcs ∧ arc1.posArcsStart = arc.posArcsStart
    ∧ arc1.arcIdx = arc.arcIdx := by
  unfold FST.resolveTarget at h
  split at h
  · obtain ⟨v, s1, _, h2⟩ := StM.bind_eq_ok h
    simp only [StM.pure_apply, Prod.mk.injEq, Res.ok.injEq] at h2
    rw [← h2.1]; exact ⟨rfl, rfl, rfl, rfl⟩
  · split at h
    · obtain ⟨v, s1, _, h⟩ := StM.bind_eq_ok h
      split at h
      · obtain ⟨v2, s2, _, h⟩ := StM.bind_eq_ok h
        obtain ⟨v3, s3, _, h2⟩ := StM.bind_eq_ok h
        simp only [StM.pure_apply, Prod.mk.injEq, Res.ok.injEq] at h2
        rw [← h2.1]; exact ⟨rfl, rfl, rfl, rfl⟩
      · simp only [StM.pure_apply, Prod.mk.injEq, Res.ok.injEq] at h
        rw [← h.1]; exact ⟨rfl, rfl, rfl, rfl⟩
    · obtain ⟨v, s1, _, h⟩ := StM.bind_eq_ok h
      obtain ⟨v3, s3, _, h2⟩ := StM.bind_eq_ok h
      simp only [StM.pure_apply, Prod.mk.injEq, Res.ok.injEq] at h2
      rw [← h2.1]; exact ⟨rfl, rfl, rfl, rfl⟩

theorem seekRecord_linked (arc : Arc) (rd : GoLucene.BytesReader) (hlinked : arc.bytesPerArc = 0) :
    arc.seekRecord rd = (Res.ok arc, { rd with pos := arc.nextArc }) := by
  unfold Arc.seekRecord
  simp only [hlinked, ne_eq, not_true_eq_false, if_false]
  rfl

/-- What `readNextRealArc` does to the bookkeeping of the cursor: node, arc
count, start of the records and stride stay, and the index moves on by one
exactly when the stride is not 0. -/
theorem readNextRealArc_frame (o : Outputs) (t : FST) (fuel : Nat) (arc arc1 : Arc)
    (rd rd1 : GoLucene.BytesReader) (h : t.readNextRealArc o fuel arc rd = (Res.ok arc1, rd1)) :
    arc1.node = arc.node ∧ arc1.numArcs = arc.numArcs ∧ arc1.posArcsStart = arc.posArcsStart
    ∧ arc1.bytesPerArc = arc.bytesPerArc
    ∧ arc1.arcIdx = if arc.bytesPerArc ≠ 0 then wrap64 (arc.arcIdx + 1) else arc.arcIdx := by
  unfold FST.readNextRealArc at h
  obtain ⟨arcA, sA, hA, h⟩ := StM.bind_eq_ok h
  obtain ⟨flags, sB, hB, h⟩ := StM.bind_eq_ok h
  obtain ⟨label, sC, hC, h⟩ := StM.bind_eq_ok h
  obtain ⟨arcD, sD, hD, h⟩ := StM.bind_eq_ok h
  obtain ⟨arcE, sE, hE, h⟩ := StM.bind_eq_ok h
  have k1 := readOutput_keeps o _ _ _ _ hD
  have k2 := readFinalOutput_keeps o _ _ _ _ hE
  have k3 := resolveTarget_keeps o t fuel _ _ _ _ h
  have f1 := readOutput_frame o _ _ _ _ hD
  have f2 := readFinalOutput_frame o _ _ _ _ hE
  have f3 := resolveTarget_frame o t fuel _ _ _ _ h
  by_cases hs : arc.bytesPerArc = 0
  · rw [seekRecord_linked arc rd hs] at hA
    simp only [Prod.mk.injEq, Res.ok.injEq] at hA
    rw [if_neg (not_not.mpr hs)]
    refine ⟨?_, ?_, ?_, ?_, ?_⟩
    · rw [f3.1, f2.1, f1.1, ← hA.1]
    · rw [f3.2.1, f2.2.1, f1.2.1, ← hA.1]
    · rw [f3.2.2.1, f2.2.2.1, f1.2.2.1, ← hA.1]
    · rw [k3.2.1, k2.2.1, k1.2.1, ← hA.1]
    · rw [f3.2.2.2, f2.2.2.2, f1.2.2.2, ← hA.1]
  · rw [seekRecord_array arc rd hs] at hA
    simp only [Prod.mk.injEq, Res.ok.injEq] at hA
    rw [if_pos hs]
    refine ⟨?_, ?_, ?_, ?_, ?_⟩
    · rw [f3.1, f2.1, f1.1, ← hA.1]
    · rw [f3.2.1, f2.2.1, f1.2.1, ← hA.1]
    · rw [f3.2.2.1, f2.2.2.1, f1.2.2.1, ← hA.1]
    · rw [k3.2.1, k2.2.1, k1.2.1, ← hA.1]
    · rw [f3.2.2.2, f2.2.2.2, f1.2.2.2, ← hA.1]

/-- `readNextRealArc` on a linked node takes the flags byte from the
position `nextArc` of the cursor and the label from the bytes behind it. -/
theorem readNextRealArc_linked_label (o : Outputs) (t : FST) (fuel : Nat) (arc arc1 : Arc)
    (rd rd1 : GoLucene.BytesReader) (hlinked : arc.bytesPerArc = 0)
    (h : t.readNextRealArc o fuel arc rd = (Res.ok arc1, rd1)) :
    ∃ rdA rdB, BytesReader.ReadByte { rd with pos := arc.nextArc } = (Res.ok arc1.flags, rdA)
      ∧ t.readLabel rdA = (Res.ok arc1.Label, rdB) := by
  unfold FST.readNextRealArc at h
  obtain ⟨arcA, sA, hA, h⟩ := StM.bind_eq_ok h
  rw [seekRecord_linked arc rd hlinked] at hA
  simp only [Prod.mk.injEq, Res.ok.injEq] at hA
  obtain ⟨flags, sB, hB, h⟩ := StM.bind_eq_ok h
  obtain ⟨label, sC, hC, h⟩ := StM.bind_eq_ok h
  obtain ⟨arcD, sD, hD, h⟩ := StM.bind_eq_ok h
  obtain ⟨arcE, sE, hE, h⟩ := StM.bind_eq_ok h
  have k1 := readOutput_keeps o _ _ _ _ hD
  have k2 := readFinalOutput_keeps o _ _ _ _ hE
  have k3 := resolveTarget_keeps o t fuel _ _ _ _ h
  refine ⟨sB, sC, ?_, ?_⟩
  · rw [k3.2.2, k2.2.2, k1.2.2, hA.2]; exact hB
  · rw [k3.1, k2.1, k1.1]; exact hC

/-- The flags of the arc `readNextRealArc` decodes in a fixed array are the
byte at the start of the record. -/
theorem readNextRealArc_array_flags (o : Outputs) (t : FST) (fuel : Nat) (arc arc1 : Arc)
    (rd rd1 : GoLucene.BytesReader) (hstride : arc.bytesPerArc ≠ 0)
    (h : t.readNextRealArc o fuel arc rd = (Res.ok arc1, rd1)) :
    ∃ rdA rdB, BytesReader.ReadByte (recordStart arc rd) = (Res.ok arc1.flags, rdA)
      ∧ t.readLabel rdA = (Res.ok arc1.Label, rdB) := by
  unfold FST.readNextRealArc at h
  obtain ⟨arcA, sA, hA, h⟩ := StM.bind_eq_ok h
  rw [seekRecord_array arc rd hstride] at hA
  simp only [Prod.mk.injEq, Res.ok.injEq] at hA
  obtain ⟨flags, sB, hB, h⟩ := StM.bind_eq_ok h
  obtain ⟨label, sC, hC, h⟩ := StM.bind_eq_ok h
  obtain ⟨arcD, sD, hD, h⟩ := StM.bind_eq_ok h
  obtain ⟨arcE, sE, hE, h⟩ := StM.bind_eq_ok h
  have k1 := readOutput_keeps o _ _ _ _ hD
  have k2 := readFinalOutput_keeps o _ _ _ _ hE
  have k3 := resolveTarget_keeps o t fuel _ _ _ _ h
  refine ⟨sB, sC, ?_, ?_⟩
  · rw [k3.2.2, k2.2.2, k1.2.2, hA.2]; exact hB
  · rw [k3.1, k2.1, k1.1]; exact hC

/-! ## `readFirstRealTargetArc` as header reading followed by `readNextRealArc` -/

theorem readFirstRealTargetArc_array_eq (o : Outputs) (t : FST) (fuel : Nat) (node : Int)
    (arc : Arc) (rd rd1 rd2 rd3 : GoLucene.BytesReader) (address numArcs stride : Int)
    (haddr : t.getNodeAddress node = Res.ok address)
    (hflag : BytesReader.ReadByte { rd with pos := address }
      = (Res.ok FST_ARCS_AS_FIXED_ARRAY, rd1))
    (hnum : BytesReader.ReadVInt rd1 = (Res.ok numArcs, rd2))
    (hstride : t.readStride rd2 = (Res.ok stride, rd3)) :
    t.readFirstRealTargetArc o fuel node arc rd
      = t.readNextRealArc o fuel
          { arc with node := node, numArcs := numArcs, bytesPerArc := stride, arcIdx := -1,
                     nextArc := rd3.pos, posArcsStart := rd3.pos } rd3 := by
  unfold FST.readFirstRealTargetArc
  simp only [StM.bind_apply, StM.lift, haddr, BytesReader.setPosition, hflag,
    FST.readNodeHeader, if_true, hnum, hstride, BytesReader.getPosition, StM.pure_apply]

theorem readFirstRealTargetArc_linked_eq (o : Outputs) (t : FST) (fuel : Nat) (node : Int)
    (arc : Arc) (rd rd1 : GoLucene.BytesReader) (address : Int) (flag : Nat)
    (haddr : t.getNodeAddress node = Res.ok address)
    (hflag : BytesReader.ReadByte { rd with pos := address } = (Res.ok flag, rd1))
    (hlinked : flag ≠ FST_ARCS_AS_FIXED_ARRAY) :
    t.readFirstRealTargetArc o fuel node arc rd
      = t.readNextRealArc o fuel { arc with node := node, nextArc := address, bytesPerArc := 0 }
          rd1 := by
  unfold FST.readFirstRealTargetArc
  simp only [StM.bind_apply, StM.lift, haddr, BytesReader.setPosition, hflag,
    FST.readNodeHeader, hlinked, if_false, StM.pure_apply]

theorem recordStart_first (arc : Arc) (rd : GoLucene.BytesReader) (h : arc.arcIdx = -1) :
    recordStart arc rd = { rd with pos := wrap64 arc.posArcsStart } := by
  unfold recordStart
  have e : wrap64 (wrap64 (arc.arcIdx + 1) * arc.bytesPerArc) = 0 := by
    rw [h]
    have : wrap64 (-1 + 1) = 0 := by decide
    rw [this, zero_mul]
    decide
  rw [e]
  cases rd.reversed <;> simp


/-! ## The first arc of a node -/

/-- C22 fails at a fixed-array header that announces the stride 0:
`readNextRealArc` tells a fixed array by `bytesPerArc != 0`, so it does not
advance the index, and the arc comes back with `arcIdx = -1`. -/
theorem readFirstRealTargetArc_stride_zero_index :
    (strideZeroFst.readFirstRealTargetArc sampleOutputs 16 7 Arc.zero
        (readerOn strideZeroBody)).1.map (fun a => (a.bytesPerArc, a.arcIdx))
      = Res.ok (0, -1) := by
  decide!

/-- C22, amended.  Let the byte at the resolved address of the node be
read.  If it is the fixed-array marker and arc count and stride are read
after it, `readFirstRealTargetArc` is `readNextRealArc` on the cursor with
`node`, the arc count, the stride, `arcIdx = -1` and `posArcsStart` the
position after the header; an arc it returns carries these fields and,
provided the stride is not 0, has `arcIdx = 0` with flags and label read at
`posArcsStart`, the start of record 0.  If the byte is not the marker, it
is `readNextRealArc` on the cursor with `node`, `nextArc` the address and
`bytesPerArc = 0`; an arc it returns has `bytesPerArc = 0`, its flags are
that leading byte and its label is read from the bytes after it. -/
theorem readFirstRealTargetArc_first_arc (o : Outputs) (t : FST) (fuel : Nat) (node : Int)
    (arc : Arc) (rd rd1 : GoLucene.BytesReader) (address : Int) (flag : Nat)
    (haddr : t.getNodeAddress node = Res.ok address)
    (hflag : BytesReader.ReadByte { rd with pos := address } = (Res.ok flag, rd1)) :
    (flag = FST_ARCS_AS_FIXED_ARRAY →
      ∀ (numArcs stride : Int) (rd2 rd3 : GoLucene.BytesReader),
        BytesReader.ReadVInt rd1 = (Res.ok numArcs, rd2) →
        t.readStride rd2 = (Res.ok stride, rd3) →
        t.readFirstRealTargetArc o fuel node arc rd
            = t.readNextRealArc o fuel
                { arc with node := node, numArcs := numArcs, bytesPerArc := stride, arcIdx := -1,
                           nextArc := rd3.pos, posArcsStart := rd3.pos } rd3
        ∧ ∀ (a : Arc) (rdA : GoLucene.BytesReader),
            t.readFirstRealTargetArc o fuel node arc rd = (Res.ok a, rdA) →
            a.node = node ∧ a.numArcs = numArcs ∧ a.bytesPerArc = stride
            ∧ a.posArcsStart = rd3.pos
            ∧ (stride ≠ 0 →
                a.arcIdx = 0
                ∧ ∃ rdB rdC, BytesReader.ReadByte { rd3 with pos := wrap64 rd3.pos }
                      = (Res.ok a.flags, rdB)
                    ∧ t.readLabel rdB = (Res.ok a.Label, rdC)))
    ∧ (flag ≠ FST_ARCS_AS_FIXED_ARRAY →
      t.readFirstRealTargetArc o fuel node arc rd
          = t.readNextRealArc o fuel { arc with node := node, nextArc := address, bytesPerArc := 0 }
              rd1
      ∧ ∀ (a : Arc) (rdA : GoLucene.BytesReader),
          t.readFirstRealTargetArc o fuel node arc rd = (Res.ok a, rdA) →
          a.node = node ∧ a.bytesPerArc = 0 ∧ a.flags = flag
          ∧ ∃ rdL, t.readLabel rd1 = (Res.ok a.Label, rdL)) := by
  constructor
  · intro hmarker numArcs stride rd2 rd3 hnum hstride
    subst hmarker
    have heq := readFirstRealTargetArc_array_eq o t fuel node arc rd rd1 rd2 rd3 address numArcs
      stride haddr hflag hnum hstride
    refine ⟨heq, ?_⟩
    intro a rdA hret
    rw [heq] at hret
    have hfr := readNextRealArc_frame o t fuel _ a rd3 rdA hret
    refine ⟨hfr.1, hfr.2.1, hfr.2.2.2.1, hfr.2.2.1, ?_⟩
    intro hne
    have hidx := hfr.2.2.2.2
    simp only [ne_eq, hne, not_false_eq_true, if_true] at hidx
    refine ⟨by rw [hidx]; decide, ?_⟩
    obtain ⟨rdB, rdC, hB, hC⟩ := readNextRealArc_array_flags o t fuel _ a rd3 rdA hne hret
    rw [recordStart_first _ rd3 rfl] at hB
    exact ⟨rdB, rdC, hB, hC⟩
  · intro hlinked
    have heq := readFirstRealTargetArc_linked_eq o t fuel node arc rd rd1 address flag haddr hflag
      hlinked
    refine ⟨heq, ?_⟩
    intro a rdA hret
    rw [heq] at hret
    have hfr := readNextRealArc_frame o t fuel _ a rd1 rdA hret
    obtain ⟨rdB, rdC, hB, hC⟩ := readNextRealArc_linked_label o t fuel _ a rd1 rdA rfl hret
    have hsame : ({ rd1 with pos := address } : GoLucene.BytesReader) = { rd with pos := address } := by
      have hk := KeepsStore.ReadByte { rd with pos := address }
      rw [hflag] at hk
      exact reader_ext ⟨hk.1.symm, hk.2.symm⟩ rfl
    have hB2 : BytesReader.ReadByte { rd with pos := address } = (Res.ok a.flags, rdB) := by
      rw [← hsame]
      exact hB
    rw [hflag] at hB2
    simp only [Prod.mk.injEq, Res.ok.injEq] at hB2
    refine ⟨hfr.1, hfr.2.2.2.1, hB2.1.symm, rdC, ?_⟩
    rw [hB2.2]
    exact hC

theorem readFirstRealTargetArc_first_arc_witness :
    arrayFst.readFirstRealTargetArc sampleOutputs 16 13 Arc.zero (readerOn arrayBody)
        = arrayFst.readNextRealArc sampleOutputs 16
            { Arc.zero with node := 13, numArcs := 5, bytesPerArc := 2, arcIdx := -1,
                            nextArc := (readerAt arrayBody 10).pos,
                            posArcsStart := (readerAt arrayBody 10).pos }
            (readerAt arrayBody 10)
    ∧ ∀ (a : Arc) (rdA : GoLucene.BytesReader),
        arrayFst.readFirstRealTargetArc sampleOutputs 16 13 Arc.zero (readerOn arrayBody)
          = (Res.ok a, rdA) →
        a.node = 13 ∧ a.numArcs = 5 ∧ a.bytesPerArc = 2
        ∧ a.posArcsStart = (readerAt arrayBody 10).pos
        ∧ ((2 : Int) ≠ 0 →
            a.arcIdx = 0
            ∧ ∃ rdB rdC, BytesReader.ReadByte
                  { readerAt arrayBody 10 with pos := wrap64 (readerAt arrayBody 10).pos }
                  = (Res.ok a.flags, rdB)
                ∧ arrayFst.readLabel rdB = (Res.ok a.Label, rdC)) :=
  (readFirstRealTargetArc_first_arc sampleOutputs arrayFst 16 13 Arc.zero (readerOn arrayBody)
    (readerAt arrayBody 12) 13 32 (by decide!) (by decide!)).1 (by decide) 5 2
    (readerAt arrayBody 11) (readerAt arrayBody 10) (by decide!) (by decide!)


/-! ## The rounds of the binary search -/

theorem midpoint_between (low high : Int) (h0 : 0 ≤ low) (hlt : low < high)
    (hhi : high < 9223372036854775808) :
    low ≤ midpoint low high ∧ midpoint low high < high := by
  unfold midpoint wrap64
  omega

theorem wrap32_bounds (x : Int) : -2147483648 ≤ wrap32 x ∧ wrap32 x < 2147483648 := by
  unfold wrap32
  omega

theorem ReadVInt_bounds (rd rd1 : GoLucene.BytesReader) (v : Int)
    (h : BytesReader.ReadVInt rd = (Res.ok v, rd1)) : -2147483648 ≤ v ∧ v < 2147483648 := by
  unfold BytesReader.ReadVInt readVIntWith at h
  obtain ⟨n, s1, _, h⟩ := StM.bind_eq_ok h
  simp only [StM.pure_apply, Prod.mk.injEq, Res.ok.injEq] at h
  rw [← h.1]
  exact wrap32_bounds _

theorem ReadInt_bounds (rd rd1 : GoLucene.BytesReader) (v : Int)
    (h : BytesReader.ReadInt rd = (Res.ok v, rd1)) : -2147483648 ≤ v ∧ v < 2147483648 := by
  unfold BytesReader.ReadInt readIntWith at h
  obtain ⟨n, s1, _, h⟩ := StM.bind_eq_ok h
  simp only [StM.pure_apply, Prod.mk.injEq, Res.ok.injEq] at h
  rw [← h.1]
  exact wrap32_bounds _

/-- Arc count and stride of a header that `readArrayHeader` read are 32-bit
integers, and the cursor it returns differs from the one passed in by the
three header fields only. -/
theorem readArrayHeader_bounds (t : FST) (cursor arc : Arc) (rd0 rd : GoLucene.BytesReader)
    (h : t.readArrayHeader cursor rd0 = (Res.ok arc, rd)) :
    (-2147483648 ≤ arc.numArcs ∧ arc.numArcs < 2147483648)
    ∧ (-2147483648 ≤ arc.bytesPerArc ∧ arc.bytesPerArc < 2147483648)
    ∧ arc.posArcsStart = rd.pos := by
  unfold FST.readArrayHeader at h
  obtain ⟨n, s1, h1, h⟩ := StM.bind_eq_ok h
  obtain ⟨k, s2, h2, h⟩ := StM.bind_eq_ok h
  obtain ⟨p, s3, h3, h⟩ := StM.bind_eq_ok h
  simp only [StM.pure_apply, Prod.mk.injEq, Res.ok.injEq] at h
  have hk : -2147483648 ≤ k ∧ k < 2147483648 := by
    unfold FST.readStride at h2
    split at h2
    · exact ReadVInt_bounds _ _ _ h2
    · exact ReadInt_bounds _ _ _ h2
  simp only [BytesReader.getPosition, Prod.mk.injEq, Res.ok.injEq] at h3
  rw [← h.1]
  refine ⟨ReadVInt_bounds _ _ _ h1, hk, ?_⟩
  show p = rd.pos
  rw [← h.2, ← h3.2, h3.1]

/-- The offset `int64(bytesPerArc*mid) + 1` the binary search skips by, for
a 32-bit stride and a 32-bit index that is not negative: no wrap-around. -/
theorem probe_offset (stride mid : Int)
    (hs : -2147483648 ≤ stride ∧ stride < 2147483648) (hm : 0 ≤ mid ∧ mid < 2147483648) :
    wrap64 (wrap64 (stride * mid) + 1) = stride * mid + 1 := by
  have h1 : stride * mid ≤ 2147483648 * 2147483648 := by nlinarith
  have h2 : -(2147483648 * 2147483648) ≤ stride * mid := by nlinarith
  generalize stride * mid = x at h1 h2
  unfold wrap64
  omega

/-! ### Label reads return -/

theorem returns_pure {σ α : Type} (a : α) : AlwaysReturns (Pure.pure a : StM σ α) := by
  intro s
  exact True.intro

theorem returns_bind {σ α β : Type} {m : StM σ α} {f : α → StM σ β}
    (hm : AlwaysReturns m) (hf : ∀ a, AlwaysReturns (f a)) : AlwaysReturns (m >>= f) := by
  intro s
  have h := hm s
  rw [StM.bind_apply]
  split
  · next a s1 _ => exact hf a s1
  · exact True.intro
  · next p s1 hp =>
      rw [hp] at h
      exact h
  · next s1 hp =>
      rw [hp] at h
      exact h

theorem returns_ReadByte : AlwaysReturns BytesReader.ReadByte := by
  intro rd
  unfold BytesReader.ReadByte
  split
  · exact True.intro
  · exact True.intro

theorem returns_readBE : ∀ (k acc : Nat), AlwaysReturns (readBE BytesReader.ReadByte k acc)
  | 0, acc => returns_pure acc
  | k + 1, acc => by
    unfold GoLucene.readBE
    exact returns_bind returns_ReadByte (fun b => returns_readBE k _)

theorem returns_readVar :
    ∀ (k shift acc : Nat), AlwaysReturns (readVar BytesReader.ReadByte k shift acc)
  | 0, _, _ => by
    intro s
    exact True.intro
  | k + 1, shift, acc => by
    unfold GoLucene.readVar
    refine returns_bind returns_ReadByte (fun b => ?_)
    split
    · exact returns_pure _
    · exact returns_readVar k _ _

/-- A label read returns a label or an error: it neither panics nor loops. -/
theorem readLabel_returns (t : FST) (rd : GoLucene.BytesReader) :
    (∃ l rd1, t.readLabel rd = (Res.ok l, rd1)) ∨ ∃ e rd1, t.readLabel rd = (Res.err e, rd1) := by
  have hall : AlwaysReturns t.readLabel := by
    intro rd
    unfold FST.readLabel
    split
    · have h := returns_ReadByte rd
      split
      · exact True.intro
      · exact True.intro
      · next p r1 hp =>
          rw [hp] at h
          exact h
      · next r1 hp =>
          rw [hp] at h
          exact h
    · split
      · have h : AlwaysReturns BytesReader.ReadShort :=
          returns_bind (returns_readBE 2 0) (fun _ => returns_pure _)
        have h := h rd
        split
        · exact True.intro
        · exact True.intro
        · next p r1 hp =>
            rw [hp] at h
            exact h
        · next r1 hp =>
            rw [hp] at h
            exact h
      · have h : AlwaysReturns BytesReader.ReadVInt :=
          returns_bind (returns_readVar 5 0 0) (fun _ => returns_pure _)
        exact h rd
  have h := hall rd
  rcases hr : t.readLabel rd with ⟨r, rd1⟩
  rw [hr] at h
  cases r with
  | ok l => exact Or.inl ⟨l, rd1, rfl⟩
  | err e => exact Or.inr ⟨e, rd1, rfl⟩
  | panic p => exact h.elim
  | outOfFuel => exact h.elim

/-! ### The loop and its rounds -/

/-- The binary search is its loop followed by what it does on leaving the
loop: `searchRounds` is the loop of `binarySearch`, for every budget, every
pair of bounds and every reader. -/
theorem binarySearch_eq_searchRounds (o : Outputs) (t : FST) (fuel : Nat) (label : Int)
    (arc : Arc) :
    ∀ (n : Nat) (low high : Int) (rd : GoLucene.BytesReader),
      t.binarySearch o fuel label arc n low high rd
        = match t.searchRounds label arc n low high rd with
          | none => Res.outOfFuel
          | some r => t.searchResult o fuel arc r.2 := by
  intro n
  induction n with
  | zero =>
    intro low high rd
    rfl
  | succ n ih =>
    intro low high rd
    unfold FST.binarySearch FST.searchRounds
    by_cases hlt : low < high
    · simp only [if_pos hlt]
      generalize (BytesReader.skipBytes (wrap64 (wrap64 (arc.bytesPerArc * midpoint low high) + 1))
        (BytesReader.setPosition arc.posArcsStart rd).2).2 = rd2
      generalize t.readLabel rd2 = r
      rcases r with ⟨(l | e | p | _), rd3⟩
      · dsimp only
        by_cases hc1 : wrap64 (l - label) < 0
        · simp only [if_pos hc1]
          rw [ih]
          cases t.searchRounds label arc n (wrap64 (midpoint low high + 1)) high rd3 <;> rfl
        · simp only [if_neg hc1]
          by_cases hc2 : wrap64 (l - label) > 0
          · simp only [if_pos hc2]
            rw [ih]
            cases t.searchRounds label arc n low (wrap64 (midpoint low high - 1)) rd3 <;> rfl
          · simp only [if_neg hc2]
            rfl
      · rfl
      · rfl
      · rfl
    · simp only [if_neg hlt]
      rfl

/-- The rounds of the binary search between `low` and `high`: the budget is
not exhausted when it exceeds `high - low`, at most `high - low` records
are probed, each at an index from `low` up to but excluding `high`, read
at the offset `bytesPerArc * mid + 1` from `posArcsStart` in reading
direction; the loop is left by its condition, by a match at such an index,
or by the error of a label read. -/
theorem searchRounds_spec (t : FST) (label : Int) (arc : Arc) (b : Bool)
    (hs : -2147483648 ≤ arc.bytesPerArc ∧ arc.bytesPerArc < 2147483648) :
    ∀ (n : Nat) (low high : Int) (rd : GoLucene.BytesReader),
      0 ≤ low → high < 2147483648 → 1 ≤ n → high - low < n → rd.reversed = b →
      ∃ ps e, t.searchRounds label arc n low high rd = some (ps, e)
        ∧ (ps.length : Int) ≤ max 0 (high - low)
        ∧ (∀ p ∈ ps, low ≤ p.1 ∧ p.1 < high
            ∧ p.2 = wrap64 (if b then arc.posArcsStart - (arc.bytesPerArc * p.1 + 1)
                else arc.posArcsStart + (arc.bytesPerArc * p.1 + 1)))
        ∧ ((∃ rd1, e = SearchEnd.notFound rd1)
            ∨ (∃ mid rd1, e = SearchEnd.found mid rd1 ∧ low ≤ mid ∧ mid < high)
            ∨ ∃ er, e = SearchEnd.labelError er) := by
  intro n
  induction n with
  | zero =>
    intro low high rd _ _ h1
    omega
  | succ n ih =>
    intro low high rd h0 hhi _ hbud hrev
    unfold FST.searchRounds
    by_cases hlt : low < high
    · rw [if_pos hlt]
      have hmid := midpoint_between low high h0 hlt (by omega)
      generalize midpoint low high = mid at hmid
      have hoff := probe_offset arc.bytesPerArc mid hs ⟨by omega, by omega⟩
      have hpos : ((BytesReader.skipBytes (wrap64 (wrap64 (arc.bytesPerArc * mid) + 1))
          (BytesReader.setPosition arc.posArcsStart rd).2).2).pos
          = wrap64 (if b then arc.posArcsStart - (arc.bytesPerArc * mid + 1)
              else arc.posArcsStart + (arc.bytesPerArc * mid + 1)) := by
        simp only [BytesReader.skipBytes, BytesReader.setPosition, hoff, hrev]
      have hrev2 : ((BytesReader.skipBytes (wrap64 (wrap64 (arc.bytesPerArc * mid) + 1))
          (BytesReader.setPosition arc.posArcsStart rd).2).2).reversed = b := by
        simp only [BytesReader.skipBytes, BytesReader.setPosition, hrev]
      dsimp only
      generalize (BytesReader.skipBytes (wrap64 (wrap64 (arc.bytesPerArc * mid) + 1))
        (BytesReader.setPosition arc.posArcsStart rd).2).2 = rd2 at hpos hrev2
      have hone : ∀ p ∈ [(mid, rd2.pos)], low ≤ p.1 ∧ p.1 < high
          ∧ p.2 = wrap64 (if b then arc.posArcsStart - (arc.bytesPerArc * p.1 + 1)
              else arc.posArcsStart + (arc.bytesPerArc * p.1 + 1)) := by
        intro p hp
        simp only [List.mem_singleton] at hp
        subst hp
        exact ⟨hmid.1, hmid.2, hpos⟩
      have hlen1 : (([(mid, rd2.pos)] : List (Int × Int)).length : Int)
          ≤ max 0 (high - low) := by
        simp only [List.length_singleton, Nat.cast_one]
        omega
      have hkeep := KeepsStore.readLabel t rd2
      rcases readLabel_returns t rd2 with ⟨midLabel, rd3, hlab⟩ | ⟨er, rd3, hlab⟩
      · rw [hlab] at hkeep ⊢
        have hrev3 : rd3.reversed = b := by
          rw [← hkeep.2]
          exact hrev2
        dsimp only
        by_cases hc1 : wrap64 (midLabel - label) < 0
        · rw [if_pos hc1]
          have hw : wrap64 (mid + 1) = mid + 1 := by
            unfold wrap64
            omega
          rw [hw]
          obtain ⟨ps, e, hps, hl, hall, hend⟩ := ih (mid + 1) high rd3 (by omega) hhi (by omega)
            (by omega) hrev3
          rw [hps]
          refine ⟨_ :: ps, e, rfl, ?_, ?_, ?_⟩
          · simp only [List.length_cons, Nat.cast_add, Nat.cast_one]
            omega
          · intro p hp
            rcases List.mem_cons.mp hp with h1 | h1
            · exact hone p (by rw [h1]; exact List.mem_singleton_self _)
            · have := hall p h1
              exact ⟨by omega, this.2.1, this.2.2⟩
          · rcases hend with h1 | ⟨m, r1, h1, h2, h3⟩ | h1
            · exact Or.inl h1
            · exact Or.inr (Or.inl ⟨m, r1, h1, by omega, h3⟩)
            · exact Or.inr (Or.inr h1)
        · rw [if_neg hc1]
          by_cases hc2 : wrap64 (midLabel - label) > 0
          · rw [if_pos hc2]
            have hw : wrap64 (mid - 1) = mid - 1 := by
              unfold wrap64
              omega
            rw [hw]
            obtain ⟨ps, e, hps, hl, hall, hend⟩ := ih low (mid - 1) rd3 h0 (by omega) (by omega)
              (by omega) hrev3
            rw [hps]
            refine ⟨_ :: ps, e, rfl, ?_, ?_, ?_⟩
            · simp only [List.length_cons, Nat.cast_add, Nat.cast_one]
              omega
            · intro p hp
              rcases List.mem_cons.mp hp with h1 | h1
              · exact hone p (by rw [h1]; exact List.mem_singleton_self _)
              · have := hall p h1
                exact ⟨this.1, by omega, this.2.2⟩
            · rcases hend with h1 | ⟨m, r1, h1, h2, h3⟩ | h1
              · exact Or.inl h1
              · exact Or.inr (Or.inl ⟨m, r1, h1, h2, by omega⟩)
              · exact Or.inr (Or.inr h1)
          · rw [if_neg hc2]
            exact ⟨_, _, rfl, hlen1, hone, Or.inr (Or.inl ⟨mid, rd3, rfl, hmid.1, hmid.2⟩)⟩
      · rw [hlab]
        exact ⟨_, _, rfl, hlen1, hone, Or.inr (Or.inr ⟨er, rfl⟩)⟩
    · rw [if_neg hlt]
      refine ⟨[], SearchEnd.notFound rd, rfl, ?_, ?_, Or.inl ⟨rd, rfl⟩⟩
      · simp
      · intro p hp
        simp at hp

/-- A budget of rounds above `high - low` is never used up: the binary
search gives the same result with every larger budget. -/
theorem binarySearch_budget (o : Outputs) (t : FST) (fuel : Nat) (label : Int) (arc : Arc) :
    ∀ (n : Nat) (low high : Int) (rd : GoLucene.BytesReader),
      0 ≤ low → high < 2147483648 → 1 ≤ n → high - low < n →
      ∀ k : Nat, t.binarySearch o fuel label arc (n + k) low high rd
        = t.binarySearch o fuel label arc n low high rd := by
  intro n
  induction n with
  | zero =>
    intro low high rd _ _ h1
    omega
  | succ n ih =>
    intro low high rd h0 hhi _ hbud k
    have e : n + 1 + k = (n + k) + 1 := by omega
    rw [e]
    unfold FST.binarySearch
    by_cases hlt : low < high
    · rw [if_pos hlt, if_pos hlt]
      have hmid := midpoint_between low high h0 hlt (by omega)
      generalize midpoint low high = mid at hmid
      dsimp only
      split
      · next midLabel rd3 hlab =>
          by_cases hc1 : wrap64 (midLabel - label) < 0
          · simp only [if_pos hc1]
            have hw : wrap64 (mid + 1) = mid + 1 := by
              unfold wrap64
              omega
            rw [hw]
            exact ih (mid + 1) high rd3 (by omega) hhi (by omega) (by omega) k
          · simp only [if_neg hc1]
            by_cases hc2 : wrap64 (midLabel - label) > 0
            · simp only [if_pos hc2]
              have hw : wrap64 (mid - 1) = mid - 1 := by
                unfold wrap64
                omega
              rw [hw]
              exact ih low (mid - 1) rd3 h0 (by omega) (by omega) (by omega) k
            · simp only [if_neg hc2]
      · rfl
      · rfl
      · rfl
    · rw [if_neg hlt, if_neg hlt]


/-! ## Termination and probes of the binary search -/

/-- C27 fails in two ways.  A header may announce the stride 0: the array
then has `bytesPerArc * numArcs = 0` bytes, and the search still probes
record 0, reading its label at address 3 (the reverse reader having the
records start at address 4).  And on a well-formed array of five records
of two bytes, which the reverse reader of an unpacked FST has start at
address 10, the search for the label 150 reads the label of record 2 at
address 5: the records lie below `posArcsStart`, not in
`[posArcsStart, posArcsStart + bytesPerArc*numArcs) = [10, 20)`. -/
theorem binarySearch_stride_zero_probe_outside :
    strideZeroFst.readArrayHeader Arc.zero (readerAt strideZeroBody 6)
      = (Res.ok strideZeroHeader, readerAt strideZeroBody 4)
    ∧ strideZeroFst.searchRounds 150 strideZeroHeader 16 0
        (wrap64 (strideZeroHeader.numArcs - 1)) (readerAt strideZeroBody 4)
      = some ([(0, 3)], SearchEnd.found 0 (readerAt strideZeroBody 2))
    ∧ strideZeroHeader.posArcsStart = 4
    ∧ strideZeroHeader.bytesPerArc * strideZeroHeader.numArcs = 0
    ∧ arrayFst.readArrayHeader Arc.zero (readerAt arrayBody 12)
      = (Res.ok arrayHeader, readerAt arrayBody 10)
    ∧ arrayFst.searchRounds 150 arrayHeader 16 0 (wrap64 (arrayHeader.numArcs - 1))
        (readerAt arrayBody 10)
      = some ([(2, 5)], SearchEnd.found 2 (readerAt arrayBody 4))
    ∧ arrayHeader.posArcsStart = 10
    ∧ arrayHeader.bytesPerArc * arrayHeader.numArcs = 10 := by
  decide!

/-- C27, amended.  For every fixed-array header that `readArrayHeader`
read (every arc count, also 0 and negative, every stride) and every label,
the binary search loop of `FindTargetArc` ends within a budget of
`max 1 numArcs` rounds: the loop is left by its condition, by a match or by
the error of a label read, and `binarySearch` returns what follows that
exit; the result is the same for every larger budget.  At most `numArcs`
records are probed (none when the count is 0 or negative), each at an index
`mid` with `0 <= mid < numArcs`, and the label of a probe is read at the
offset `bytesPerArc * mid + 1` from `posArcsStart` in reading direction
(towards lower addresses on a reverse reader).  When the stride is at
least 1 that offset lies inside the `bytesPerArc * numArcs` bytes of the
array. -/
theorem binarySearch_terminates (o : Outputs) (t : FST) (fuel : Nat) (label : Int)
    (cursor arc : Arc) (rd0 rd : GoLucene.BytesReader) (n : Nat)
    (hhdr : t.readArrayHeader cursor rd0 = (Res.ok arc, rd))
    (hn1 : 1 ≤ n) (hn : arc.numArcs ≤ n) :
    ∃ ps e, t.searchRounds label arc n 0 (wrap64 (arc.numArcs - 1)) rd = some (ps, e)
      ∧ t.binarySearch o fuel label arc n 0 (wrap64 (arc.numArcs - 1)) rd
          = t.searchResult o fuel arc e
      ∧ ((∃ rd1, e = SearchEnd.notFound rd1)
          ∨ (∃ mid rd1, e = SearchEnd.found mid rd1 ∧ 0 ≤ mid ∧ mid < arc.numArcs)
          ∨ ∃ er, e = SearchEnd.labelError er)
      ∧ (ps.length : Int) ≤ max 0 arc.numArcs
      ∧ (∀ p ∈ ps, 0 ≤ p.1 ∧ p.1 < arc.numArcs
          ∧ p.2 = wrap64 (if rd.reversed then arc.posArcsStart - (arc.bytesPerArc * p.1 + 1)
              else arc.posArcsStart + (arc.bytesPerArc * p.1 + 1))
          ∧ (1 ≤ arc.bytesPerArc →
              0 < arc.bytesPerArc * p.1 + 1
              ∧ arc.bytesPerArc * p.1 + 1 < arc.bytesPerArc * arc.numArcs))
      ∧ ∀ k : Nat, t.binarySearch o fuel label arc (n + k) 0 (wrap64 (arc.numArcs - 1)) rd
          = t.binarySearch o fuel label arc n 0 (wrap64 (arc.numArcs - 1)) rd := by
  obtain ⟨hnum, hstr, _⟩ := readArrayHeader_bounds t cursor arc rd0 rd hhdr
  have hw : wrap64 (arc.numArcs - 1) = arc.numArcs - 1 := by
    unfold wrap64
    omega
  rw [hw]
  obtain ⟨ps, e, hps, hlen, hall, hend⟩ := searchRounds_spec t label arc rd.reversed hstr n 0
    (arc.numArcs - 1) rd (le_refl 0) (by omega) hn1 (by omega) rfl
  refine ⟨ps, e, hps, ?_, ?_, ?_, ?_, ?_⟩
  · rw [binarySearch_eq_searchRounds, hps]
  · rcases hend with h1 | ⟨m, r1, h1, h2, h3⟩ | h1
    · exact Or.inl h1
    · exact Or.inr (Or.inl ⟨m, r1, h1, h2, by omega⟩)
    · exact Or.inr (Or.inr h1)
  · have h0 : max 0 (arc.numArcs - 1 - 0) ≤ max 0 arc.numArcs := by omega
    exact le_trans hlen h0
  · intro p hp
    obtain ⟨h1, h2, h3⟩ := hall p hp
    refine ⟨h1, by omega, h3, ?_⟩
    intro hone
    constructor
    · nlinarith
    · have h4 : p.1 + 2 ≤ arc.numArcs := by omega
      nlinarith
  · exact binarySearch_budget o t fuel label arc n 0 (arc.numArcs - 1) rd (le_refl 0) (by omega)
      hn1 (by omega)

theorem binarySearch_terminates_witness :
    ∃ ps e, arrayFst.searchRounds 130 arrayHeader 5 0 (wrap64 (arrayHeader.numArcs - 1))
          (readerAt arrayBody 10) = some (ps, e)
      ∧ arrayFst.binarySearch sampleOutputs 16 130 arrayHeader 5 0
            (wrap64 (arrayHeader.numArcs - 1)) (readerAt arrayBody 10)
          = arrayFst.searchResult sampleOutputs 16 arrayHeader e
      ∧ ((∃ rd1, e = SearchEnd.notFound rd1)
          ∨ (∃ mid rd1, e = SearchEnd.found mid rd1 ∧ 0 ≤ mid ∧ mid < arrayHeader.numArcs)
          ∨ ∃ er, e = SearchEnd.labelError er)
      ∧ (ps.length : Int) ≤ max 0 arrayHeader.numArcs
      ∧ (∀ p ∈ ps, 0 ≤ p.1 ∧ p.1 < arrayHeader.numArcs
          ∧ p.2 = wrap64 (if (readerAt arrayBody 10).reversed
              then arrayHeader.posArcsStart - (arrayHeader.bytesPerArc * p.1 + 1)
              else arrayHeader.posArcsStart + (arrayHeader.bytesPerArc * p.1 + 1))
          ∧ (1 ≤ arrayHeader.bytesPerArc →
              0 < arrayHeader.bytesPerArc * p.1 + 1
              ∧ arrayHeader.bytesPerArc * p.1 + 1
                  < arrayHeader.bytesPerArc * arrayHeader.numArcs))
      ∧ ∀ k : Nat, arrayFst.binarySearch sampleOutputs 16 130 arrayHeader (5 + k) 0
            (wrap64 (arrayHeader.numArcs - 1)) (readerAt arrayBody 10)
          = arrayFst.binarySearch sampleOutputs 16 130 arrayHeader 5 0
            (wrap64 (arrayHeader.numArcs - 1)) (readerAt arrayBody 10) :=
  binarySearch_terminates sampleOutputs arrayFst 16 130 Arc.zero arrayHeader
    (readerAt arrayBody 12) (readerAt arrayBody 10) 5 (by decide!) (by decide) (by decide)

/-! ## Skipping keeps the store -/

theorem KeepsStore.ReadVLong : KeepsStore BytesReader.ReadVLong :=
  KeepsStore.bind (KeepsStore.readVar 9 0 0) (fun _ => KeepsStore.pure _)

theorem KeepsStore.ReadInt : KeepsStore BytesReader.ReadInt :=
  KeepsStore.bind (KeepsStore.readBE 4 0) (fun _ => KeepsStore.pure _)

theorem KeepsStore.readUnpackedNodeTarget (t : FST) : KeepsStore t.readUnpackedNodeTarget := by
  unfold FST.readUnpackedNodeTarget
  split
  · exact KeepsStore.ReadInt
  · exact KeepsStore.ReadVLong

theorem KeepsStore.skipTarget (t : FST) : KeepsStore t.skipTarget := by
  unfold FST.skipTarget
  split
  · exact KeepsStore.bind KeepsStore.ReadVLong (fun _ => KeepsStore.pure _)
  · exact KeepsStore.bind (KeepsStore.readUnpackedNodeTarget t) (fun _ => KeepsStore.pure _)

theorem KeepsStore.when (c : Bool) {m : StM GoLucene.BytesReader Unit} (h : KeepsStore m) :
    KeepsStore (StM.when c m) := by
  unfold StM.when
  split
  · exact h
  · exact KeepsStore.pure _

theorem KeepsStore.seekToNextNode (o : Outputs) (t : FST)
    (h1 : KeepsStore o.SkipOutput) (h2 : KeepsStore o.SkipFinalOutput) :
    ∀ n, KeepsStore (t.seekToNextNode o n) := by
  intro n
  induction n with
  | zero =>
    intro rd
    exact SameStore.refl rd
  | succ n ih =>
    unfold FST.seekToNextNode
    refine KeepsStore.bind KeepsStore.ReadByte (fun flags => ?_)
    refine KeepsStore.bind (KeepsStore.readLabel t) (fun _ => ?_)
    refine KeepsStore.bind (KeepsStore.when _ h1) (fun _ => ?_)
    refine KeepsStore.bind (KeepsStore.when _ h2) (fun _ => ?_)
    refine KeepsStore.bind (KeepsStore.when _ (KeepsStore.skipTarget t)) (fun _ => ?_)
    split
    · exact KeepsStore.pure _
    · exact ih

theorem KeepsStore.dropError {m : StM GoLucene.BytesReader Unit} (h : KeepsStore m) :
    KeepsStore (dropError m) := by
  intro rd
  have := h rd
  unfold GoLucene.dropError
  split
  · next e rd1 heq =>
      rw [heq] at this
      exact this
  · exact this

theorem KeepsStore.skipRestOfNode (o : Outputs) (t : FST) (fuel : Nat) (arc : Arc)
    (h1 : KeepsStore o.SkipOutput) (h2 : KeepsStore o.SkipFinalOutput) :
    KeepsStore (t.skipRestOfNode o fuel arc) := by
  unfold FST.skipRestOfNode
  split
  · exact KeepsStore.dropError (KeepsStore.seekToNextNode o t h1 h2 fuel)
  · intro rd
    exact ⟨rfl, rfl⟩

/-! ## One arc: what is read is what is skipped -/

theorem reader_with_pos (rd : GoLucene.BytesReader) : ({ rd with pos := rd.pos } : GoLucene.BytesReader) = rd := by
  cases rd
  rfl

theorem readOutput_skip (o : Outputs) (arc arc1 : Arc) (rd rd1 : GoLucene.BytesReader)
    (hOut : ∀ r v r1, o.Read r = (Res.ok v, r1) → o.SkipOutput r = (Res.ok (), r1))
    (h : Arc.readOutput o arc rd = (Res.ok arc1, rd1)) :
    StM.when (hasFlag arc.flags FST_BIT_ARC_HAS_OUTPUT) o.SkipOutput rd = (Res.ok (), rd1) := by
  unfold Arc.readOutput at h
  unfold StM.when
  split at h
  · next hflag =>
      obtain ⟨v, s1, hv, h2⟩ := StM.bind_eq_ok h
      simp only [StM.pure_apply, Prod.mk.injEq, Res.ok.injEq] at h2
      have hf : hasFlag arc.flags FST_BIT_ARC_HAS_OUTPUT = true := hflag
      rw [if_pos hf, ← h2.2]
      exact hOut rd v s1 hv
  · next hflag =>
      simp only [StM.pure_apply, Prod.mk.injEq, Res.ok.injEq] at h
      have hf : ¬ hasFlag arc.flags FST_BIT_ARC_HAS_OUTPUT = true := hflag
      rw [if_neg hf, ← h.2]
      rfl

theorem readFinalOutput_skip (o : Outputs) (arc arc1 : Arc) (rd rd1 : GoLucene.BytesReader)
    (hFin : ∀ r v r1, o.ReadFinalOutput r = (Res.ok v, r1) → o.SkipFinalOutput r = (Res.ok (), r1))
    (h : Arc.readFinalOutput o arc rd = (Res.ok arc1, rd1)) :
    StM.when (hasFlag arc.flags FST_BIT_ARC_HAS_FINAL_OUTPUT) o.SkipFinalOutput rd
      = (Res.ok (), rd1) := by
  unfold Arc.readFinalOutput at h
  unfold StM.when
  split at h
  · next hflag =>
      obtain ⟨v, s1, hv, h2⟩ := StM.bind_eq_ok h
      simp only [StM.pure_apply, Prod.mk.injEq, Res.ok.injEq] at h2
      have hf : hasFlag arc.flags FST_BIT_ARC_HAS_FINAL_OUTPUT = true := hflag
      rw [if_pos hf, ← h2.2]
      exact hFin rd v s1 hv
  · next hflag =>
      simp only [StM.pure_apply, Prod.mk.injEq, Res.ok.injEq] at h
      have hf : ¬ hasFlag arc.flags FST_BIT_ARC_HAS_FINAL_OUTPUT = true := hflag
      rw [if_neg hf, ← h.2]
      rfl

theorem readTarget_skip (t : FST) (arc : Arc) (rd rd1 : GoLucene.BytesReader) (tg : Int)
    (h : t.readTarget arc rd = (Res.ok tg, rd1)) : t.skipTarget rd = (Res.ok (), rd1) := by
  unfold FST.readTarget at h
  unfold FST.skipTarget
  split at h
  · next hp =>
      rw [if_pos hp]
      obtain ⟨pos, s1, h1, h⟩ := StM.bind_eq_ok h
      simp only [BytesReader.getPosition, Prod.mk.injEq, Res.ok.injEq] at h1
      obtain ⟨code, s2, h2, h⟩ := StM.bind_eq_ok h
      rw [← h1.2] at h2
      rw [StM.bind_ok h2, StM.pure_apply]
      split at h
      · simp only [StM.pure_apply, Prod.mk.injEq, Res.ok.injEq] at h
        rw [h.2]
      · cases htbl : t.nodeRefToAddress with
        | none =>
          rw [htbl] at h
          simp [StM.panic] at h
        | some tbl =>
          rw [htbl] at h
          simp only at h
          split at h
          · unfold StM.lift at h
            simp only [Prod.mk.injEq] at h
            rw [h.2]
          · simp only [StM.pure_apply, Prod.mk.injEq, Res.ok.injEq] at h
            rw [h.2]
  · next hp =>
      rw [if_neg hp, StM.bind_ok h, StM.pure_apply]

theorem resolveTarget_skip (o : Outputs) (t : FST) (fuel : Nat) (arc a : Arc)
    (rd rd1 : GoLucene.BytesReader)
    (hk1 : KeepsStore o.SkipOutput) (hk2 : KeepsStore o.SkipFinalOutput)
    (h : t.resolveTarget o fuel arc rd = (Res.ok a, rd1)) :
    StM.when (!hasFlag arc.flags FST_BIT_STOP_NODE && !hasFlag arc.flags FST_BIT_TARGET_NEXT)
        t.skipTarget rd = (Res.ok (), { rd1 with pos := a.nextArc }) := by
  unfold FST.resolveTarget at h
  unfold StM.when
  split at h
  · next hstop =>
      have hs : hasFlag arc.flags FST_BIT_STOP_NODE = true := hstop
      obtain ⟨pos, s1, h1, h2⟩ := StM.bind_eq_ok h
      simp only [BytesReader.getPosition, Prod.mk.injEq, Res.ok.injEq] at h1
      simp only [StM.pure_apply, Prod.mk.injEq, Res.ok.injEq] at h2
      rw [hs]
      simp only [Bool.not_true, Bool.false_and, Bool.false_eq_true, if_false]
      rw [← h2.1, ← h2.2, ← h1.2, ← h1.1]
      show (Res.ok (), rd) = (Res.ok (), { rd with pos := rd.pos })
      rw [reader_with_pos]
  · next hstop =>
      split at h
      · next hnext =>
          have hn : hasFlag arc.flags FST_BIT_TARGET_NEXT = true := hnext
          rw [hn]
          simp only [Bool.not_true, Bool.and_false, Bool.false_eq_true, if_false]
          obtain ⟨pos, s1, h1, h⟩ := StM.bind_eq_ok h
          simp only [BytesReader.getPosition, Prod.mk.injEq, Res.ok.injEq] at h1
          split at h
          · obtain ⟨u, s2, hskip, h⟩ := StM.bind_eq_ok h
            obtain ⟨pos2, s3, h3, h2⟩ := StM.bind_eq_ok h
            simp only [BytesReader.getPosition, Prod.mk.injEq, Res.ok.injEq] at h3
            simp only [StM.pure_apply, Prod.mk.injEq, Res.ok.injEq] at h2
            have hkeep := KeepsStore.when (!arc.flag FST_BIT_LAST_ARC)
              (KeepsStore.skipRestOfNode o t fuel arc hk1 hk2) s1
            rw [hskip] at hkeep
            rw [← h2.1, ← h2.2, ← h3.2]
            show (Res.ok (), rd) = (Res.ok (), { s2 with pos := pos })
            rw [← h1.1]
            have : ({ s2 with pos := rd.pos } : GoLucene.BytesReader) = rd := by
              apply reader_ext
              · rw [← h1.2] at hkeep
                exact ⟨hkeep.1.symm, hkeep.2.symm⟩
              · rfl
            rw [this]
          · simp only [StM.pure_apply, Prod.mk.injEq, Res.ok.injEq] at h
            rw [← h.1, ← h.2, ← h1.2]
            show (Res.ok (), rd) = (Res.ok (), { rd with pos := pos })
            rw [← h1.1, reader_with_pos]
      · next hnext =>
          have hs : hasFlag arc.flags FST_BIT_STOP_NODE = false := by
            cases hb : hasFlag arc.flags FST_BIT_STOP_NODE
            · rfl
            · exact absurd hb hstop
          have hn : hasFlag arc.flags FST_BIT_TARGET_NEXT = false := by
            cases hb : hasFlag arc.flags FST_BIT_TARGET_NEXT
            · rfl
            · exact absurd hb hnext
          rw [hs, hn]
          simp only [Bool.not_false, Bool.and_self, if_true]
          obtain ⟨tg, s1, h1, h⟩ := StM.bind_eq_ok h
          obtain ⟨pos, s2, h2, h3⟩ := StM.bind_eq_ok h
          simp only [BytesReader.getPosition, Prod.mk.injEq, Res.ok.injEq] at h2
          simp only [StM.pure_apply, Prod.mk.injEq, Res.ok.injEq] at h3
          rw [readTarget_skip t arc rd s1 tg h1, ← h3.1, ← h3.2, ← h2.2]
          show (Res.ok (), s1) = (Res.ok (), { s1 with pos := pos })
          rw [← h2.1, reader_with_pos]

/-- One arc of a linked node: the steps of a round of `seekToNextNode`
started where `readNextRealArc` starts pass the same readers as the
decoding, and end at the `nextArc` of the decoded arc. -/
theorem seek_one_arc (o : Outputs) (t : FST) (fuel : Nat) (cursor a : Arc)
    (rd rd1 : GoLucene.BytesReader)
    (hOut : ∀ r v r1, o.Read r = (Res.ok v, r1) → o.SkipOutput r = (Res.ok (), r1))
    (hFin : ∀ r v r1, o.ReadFinalOutput r = (Res.ok v, r1) → o.SkipFinalOutput r = (Res.ok (), r1))
    (hk1 : KeepsStore o.SkipOutput) (hk2 : KeepsStore o.SkipFinalOutput)
    (hlinked : cursor.bytesPerArc = 0)
    (h : t.readNextRealArc o fuel cursor rd = (Res.ok a, rd1)) :
    a.bytesPerArc = 0
    ∧ ∃ sB sC sD sE label,
        BytesReader.ReadByte { rd with pos := cursor.nextArc } = (Res.ok a.flags, sB)
        ∧ t.readLabel sB = (Res.ok label, sC)
        ∧ StM.when (hasFlag a.flags FST_BIT_ARC_HAS_OUTPUT) o.SkipOutput sC = (Res.ok (), sD)
        ∧ StM.when (hasFlag a.flags FST_BIT_ARC_HAS_FINAL_OUTPUT) o.SkipFinalOutput sD
            = (Res.ok (), sE)
        ∧ StM.when (!hasFlag a.flags FST_BIT_STOP_NODE && !hasFlag a.flags FST_BIT_TARGET_NEXT)
            t.skipTarget sE = (Res.ok (), { rd1 with pos := a.nextArc }) := by
  have hfr := readNextRealArc_frame o t fuel cursor a rd rd1 h
  refine ⟨by rw [hfr.2.2.2.1]; exact hlinked, ?_⟩
  unfold FST.readNextRealArc at h
  obtain ⟨arcA, sA, hA, h⟩ := StM.bind_eq_ok h
  rw [seekRecord_linked cursor rd hlinked] at hA
  simp only [Prod.mk.injEq, Res.ok.injEq] at hA
  obtain ⟨flags, sB, hB, h⟩ := StM.bind_eq_ok h
  obtain ⟨label, sC, hC, h⟩ := StM.bind_eq_ok h
  obtain ⟨arcD, sD, hD, h⟩ := StM.bind_eq_ok h
  obtain ⟨arcE, sE, hE, h⟩ := StM.bind_eq_ok h
  have k1 := readOutput_keeps o _ _ _ _ hD
  have k2 := readFinalOutput_keeps o _ _ _ _ hE
  have k3 := resolveTarget_keeps o t fuel _ _ _ _ h
  have e1 : arcD.flags = flags := k1.2.2
  have e2 : arcE.flags = flags := by rw [k2.2.2, e1]
  have e3 : a.flags = flags := by rw [k3.2.2, e2]
  have s1 := readOutput_skip o _ _ _ _ hOut hD
  have s2 := readFinalOutput_skip o _ _ _ _ hFin hE
  have s3 := resolveTarget_skip o t fuel _ _ _ _ hk1 hk2 h
  rw [e1] at s2
  rw [e2] at s3
  rw [e3]
  refine ⟨sB, sC, sD, sE, label, ?_, hC, s1, s2, s3⟩
  rw [hA.2]
  exact hB

/-- The rest of a linked node: after the arc `a` has been decoded, the loop
of `seekToNextNode` goes on exactly while `arcsFrom` goes on, and stops at
the `nextArc` of the last arc decoded. -/
theorem seek_rest (o : Outputs) (t : FST) (fuel : Nat)
    (hOut : ∀ r v r1, o.Read r = (Res.ok v, r1) → o.SkipOutput r = (Res.ok (), r1))
    (hFin : ∀ r v r1, o.ReadFinalOutput r = (Res.ok v, r1) → o.SkipFinalOutput r = (Res.ok (), r1))
    (hk1 : KeepsStore o.SkipOutput) (hk2 : KeepsStore o.SkipFinalOutput) :
    ∀ (m n : Nat) (a : Arc) (rdA : GoLucene.BytesReader) (as : List Arc),
      a.bytesPerArc = 0 → t.arcsFrom o fuel m a rdA = Res.ok as → as.length ≤ n + 1 →
      ∃ last rdS, as.getLast? = some last
        ∧ (if hasFlag a.flags FST_BIT_LAST_ARC then (pure () : StM GoLucene.BytesReader Unit)
            else t.seekToNextNode o n) { rdA with pos := a.nextArc } = (Res.ok (), rdS)
        ∧ rdS.pos = last.nextArc := by
  intro m
  induction m with
  | zero =>
    intro n a rdA as _ has
    simp [FST.arcsFrom] at has
  | succ m ih =>
    intro n a rdA as hlinked has hn
    unfold FST.arcsFrom at has
    by_cases hlast : a.isLast = true
    · rw [if_pos hlast] at has
      simp only [Res.ok.injEq] at has
      have hl : hasFlag a.flags FST_BIT_LAST_ARC = true := hlast
      rw [if_pos hl, ← has]
      exact ⟨a, _, rfl, rfl, rfl⟩
    · rw [if_neg hlast] at has
      have hl : ¬ hasFlag a.flags FST_BIT_LAST_ARC = true := hlast
      rw [if_neg hl]
      split at has
      · next a1 rd1 hnext =>
          obtain ⟨rest, hrest, hr⟩ := Res.map_eq_ok has
          subst hr
          obtain ⟨rest1, hrest1⟩ := arcsFrom_head o t fuel m a1 rd1 rest hrest
          obtain ⟨hb1, sB, sC, sD, sE, label, h1, h2, h3, h4, h5⟩ :=
            seek_one_arc o t fuel a a1 rdA rd1 hOut hFin hk1 hk2 hlinked hnext
          cases n with
          | zero =>
            rw [hrest1] at hn
            simp at hn
          | succ n =>
            obtain ⟨last, rdS, hg, hs, hp⟩ := ih n a1 rd1 rest hb1 hrest
              (by simp only [List.length_cons] at hn; omega)
            refine ⟨last, rdS, ?_, ?_, hp⟩
            · rw [hrest1] at hg ⊢
              simpa using hg
            · unfold FST.seekToNextNode
              rw [StM.bind_ok h1, StM.bind_ok h2, StM.bind_ok h3, StM.bind_ok h4, StM.bind_ok h5]
              exact hs
      · simp at has
      · simp at has
      · simp at has

/-! ## The sample outputs skip what they read -/

theorem sampleOutputs_skipOutput (r : GoLucene.BytesReader) (v : Value)
    (r1 : GoLucene.BytesReader)
    (h : sampleOutputs.Read r = (Res.ok v, r1)) : sampleOutputs.SkipOutput r = (Res.ok (), r1) := by
  unfold sampleOutputs at h ⊢
  simp only at h ⊢
  obtain ⟨b, s1, hb, h2⟩ := StM.bind_eq_ok h
  simp only [StM.pure_apply, Prod.mk.injEq, Res.ok.injEq] at h2
  rw [StM.bind_ok hb, StM.pure_apply, h2.2]

theorem sampleOutputs_skipFinalOutput (r : GoLucene.BytesReader) (v : Value)
    (r1 : GoLucene.BytesReader)
    (h : sampleOutputs.ReadFinalOutput r = (Res.ok v, r1)) :
    sampleOutputs.SkipFinalOutput r = (Res.ok (), r1) := by
  unfold sampleOutputs at h ⊢
  simp only at h ⊢
  obtain ⟨b, s1, hb, h2⟩ := StM.bind_eq_ok h
  simp only [StM.pure_apply, Prod.mk.injEq, Res.ok.injEq] at h2
  rw [StM.bind_ok hb, StM.pure_apply, h2.2]

theorem sampleOutputs_keeps :
    KeepsStore sampleOutputs.SkipOutput ∧ KeepsStore sampleOutputs.SkipFinalOutput :=
  ⟨KeepsStore.bind KeepsStore.ReadByte (fun _ => KeepsStore.pure _),
   KeepsStore.bind KeepsStore.ReadByte (fun _ => KeepsStore.pure _)⟩


/-! ## Skipping a node agrees with decoding it -/

/-- C23. Skip agrees with read on a linked node.  Let `SkipOutput` and
`SkipFinalOutput` leave the reader where `Read` and `ReadFinalOutput` leave
it, and let them not touch the bytes.  If decoding with `readNextRealArc`
from a cursor of a linked node (`bytesPerArc = 0`), arc after arc up to and
including the first arc with the last-arc flag, returns the arcs `as`, then
`seekToNextNode`, started at the `nextArc` of that cursor with a budget of
one round per arc, returns nil and stops at the `nextArc` of the last of
these arcs. -/
theorem seekToNextNode_agrees_with_read (o : Outputs) (t : FST) (fuel budget n : Nat)
    (cursor first : Arc) (rd rd1 : GoLucene.BytesReader) (as : List Arc)
    (hOut : ∀ r v r1, o.Read r = (Res.ok v, r1) → o.SkipOutput r = (Res.ok (), r1))
    (hFin : ∀ r v r1, o.ReadFinalOutput r = (Res.ok v, r1) → o.SkipFinalOutput r = (Res.ok (), r1))
    (hk1 : KeepsStore o.SkipOutput) (hk2 : KeepsStore o.SkipFinalOutput)
    (hlinked : cursor.bytesPerArc = 0)
    (hfirst : t.readNextRealArc o fuel cursor rd = (Res.ok first, rd1))
    (hrest : t.arcsFrom o fuel budget first rd1 = Res.ok as)
    (hn : as.length ≤ n) :
    ∃ last rdS, as.getLast? = some last
      ∧ t.seekToNextNode o n { rd with pos := cursor.nextArc } = (Res.ok (), rdS)
      ∧ rdS.pos = last.nextArc := by
  obtain ⟨rest, hrest1⟩ := arcsFrom_head o t fuel budget first rd1 as hrest
  obtain ⟨hb1, sB, sC, sD, sE, label, h1, h2, h3, h4, h5⟩ :=
    seek_one_arc o t fuel cursor first rd rd1 hOut hFin hk1 hk2 hlinked hfirst
  cases n with
  | zero =>
    rw [hrest1] at hn
    simp at hn
  | succ n =>
    obtain ⟨last, rdS, hg, hs, hp⟩ := seek_rest o t fuel hOut hFin hk1 hk2 budget n first rd1 as
      hb1 hrest hn
    refine ⟨last, rdS, hg, ?_, hp⟩
    unfold FST.seekToNextNode
    rw [StM.bind_ok h1, StM.bind_ok h2, StM.bind_ok h3, StM.bind_ok h4, StM.bind_ok h5]
    exact hs

theorem seekToNextNode_agrees_with_read_witness :
    ∃ last rdS, linkedThreeArcs.getLast? = some last
      ∧ linkedThreeFst.seekToNextNode sampleOutputs 3
          { readerOn linkedThreeBody with pos := (linkedThreeArc 0 0 0 9).nextArc }
          = (Res.ok (), rdS)
      ∧ rdS.pos = last.nextArc :=
  seekToNextNode_agrees_with_read sampleOutputs linkedThreeFst 16 16 3 (linkedThreeArc 0 0 0 9)
    (linkedThreeArc 97 (-1) 9 7) (readerOn linkedThreeBody) (readerAt linkedThreeBody 7)
    linkedThreeArcs sampleOutputs_skipOutput sampleOutputs_skipFinalOutput
    sampleOutputs_keeps.1 sampleOutputs_keeps.2 (by decide) (by decide!) (by decide!) (by decide)


end GoLucene
